import Mathlib

/-!
# ST7735 bring-up driver (`screen.c`): shallow embedding and verification

The driver talks to the hardware through a handful of platform primitives
(`gpio_set`, `gpio_clear`, `spi_send`, `delay`, ...).  Each call of such a
primitive is recorded as an `Event`; a run of the driver is a function on
a `Machine` holding the events emitted so far together with the two static
variables of the file (`cmdBuf`, `palXOR`).

The code checks no index of `cmdBuf`.  An access at index 20 or more is
therefore not the end of a run: it reaches the storage behind the array, and
the machine keeps a list of the indices written there (`Machine.pastEnd`), so
that "no write outside the buffer" is a statement about that list.

A run ends in one of three ways: it returns (`Result.ok`), it enters the
endless loop of `panic()` (`Result.halt`), or it reads beyond the end of the
command table or of a local array it was handed (`Result.fault`).
-/

namespace Screen

/-! ## Platform layer -/

/-- GPIO port handles of libopencm3 (`GPIOA`, `GPIOB`, `GPIOC`). -/
inductive Port where
  | GPIOA
  | GPIOB
  | GPIOC
  deriving DecidableEq, Repr

/-- Peripheral clocks switched on by `screen_init`. -/
inductive Periph where
  | RCC_GPIOA
  | RCC_GPIOB
  | RCC_GPIOC
  | RCC_SPI2
  deriving DecidableEq, Repr

/-- One call of a platform primitive, with the arguments it was given. -/
inductive Event where
  | rcc_periph_clock_enable (p : Periph)
  | gpio_mode_setup (port : Port) (mode : Nat) (pupd : Nat) (mask : Nat)
  | gpio_set_output_options (port : Port) (otype : Nat) (speed : Nat) (mask : Nat)
  | gpio_set_af (port : Port) (af : Nat) (mask : Nat)
  | spi_init_master
  | gpio_set (port : Port) (mask : Nat)
  | gpio_clear (port : Port) (mask : Nat)
  | spi_send (data : Nat)
  | delay (ms : Nat)
  | dmesg (frmctr1 madctl freq : Nat)
  deriving DecidableEq, Repr

/-- Size of the staging buffer: `static uint8_t cmdBuf[20]`. -/
def CMDBUF_SIZE : Nat := 20

/-- State of a run: the events emitted so far (oldest first); the bytes
reachable through `cmdBuf`, by index (the array itself below `CMDBUF_SIZE`,
from there on the storage that lies behind it: the code checks no index, so an
access at index 20 or more goes there); the static `palXOR`; the indices of
the command table that `sendCmdSeq` has read (oldest first); and the indices
of 20 or more that were written through `cmdBuf` (oldest first).  Which other
objects the storage behind `cmdBuf` belongs to is not part of the state. -/
structure Machine where
  trace : List Event
  cmdBuf : Nat → Nat
  palXOR : Nat
  reads : List Nat
  pastEnd : List Nat

/-- Machine at reset: static storage is zero-initialised, nothing emitted. -/
def Machine.init : Machine :=
  { trace := [], cmdBuf := fun _ => 0, palXOR := 0, reads := [], pastEnd := [] }

/-- How a run ends: `ok` it returned, `halt` it is spinning in `panic()`,
`fault` it read outside the command table or outside a local array of the
caller. -/
inductive Result (α : Type) where
  | ok (a : α) (m : Machine)
  | halt (m : Machine)
  | fault (m : Machine)

/-- Machine in which a run ended. -/
def Result.machine {α : Type} : Result α → Machine
  | .ok _ m => m
  | .halt m => m
  | .fault m => m

/-- Whether the run returned. -/
def Result.returned {α : Type} : Result α → Bool
  | .ok _ _ => true
  | _ => false

/-- Whether the run ended in the endless loop of `panic()`. -/
def Result.halted {α : Type} : Result α → Bool
  | .halt _ => true
  | _ => false

/-- Whether the run read outside the table or array it was given. -/
def Result.faulted {α : Type} : Result α → Bool
  | .fault _ => true
  | _ => false

/-- Value returned by the run, when it returned. -/
def Result.value? {α : Type} : Result α → Option α
  | .ok a _ => some a
  | _ => none

/-- Statements of the driver: state transformers that may not return. -/
def Exec (α : Type) : Type := Machine → Result α

/-- Sequencing: the second statement runs only when the first returned. -/
def Exec.bind {α β : Type} (x : Exec α) (f : α → Exec β) : Exec β := fun m =>
  match x m with
  | .ok a m1 => f a m1
  | .halt m1 => .halt m1
  | .fault m1 => .fault m1

/-- Returning a value changes nothing. -/
def Exec.pure {α : Type} (a : α) : Exec α := fun m => .ok a m

instance : Monad Exec where
  pure := Exec.pure
  bind := Exec.bind

/-- Record one call of a platform primitive. -/
def emit (e : Event) : Exec Unit := fun m =>
  .ok () { m with trace := m.trace ++ [e] }

/-- The endless loop `for(;;);` of `panic()`: control never comes back. -/
def panic {α : Type} : Exec α := fun m => .halt m

/-- Read outside the table or array at hand. -/
def fault {α : Type} : Exec α := fun m => .fault m

/-! ## Constants -/

/-- Modelled from the spec: `pins.h` is not part of the sources at hand.  A
logical pin packs the port index in the high nibble and the bit index in the
low nibble, so `PB_12` is port 1, bit 12. -/
def PB_12 : Int := 0x1C
/-- Modelled from the spec: `pins.h` is missing; port 1, bit 13. -/
def PB_13 : Int := 0x1D
/-- Modelled from the spec: `pins.h` is missing; port 1, bit 14. -/
def PB_14 : Int := 0x1E
/-- Modelled from the spec: `pins.h` is missing; port 1, bit 15. -/
def PB_15 : Int := 0x1F
/-- Modelled from the spec: `pins.h` is missing; port 0, bit 4. -/
def PA_4 : Int := 0x04
/-- Modelled from the spec: `pins.h` is missing; port 2, bit 5. -/
def PC_5 : Int := 0x25
/-- Modelled from the spec: `pins.h` is missing; port 2, bit 4. -/
def PC_4 : Int := 0x24

def PIN_DISPLAY_CS : Int := PB_12
def PIN_DISPLAY_SCK : Int := PB_13
def PIN_DISPLAY_MOSI : Int := PB_15
def PIN_DISPLAY_MISO : Int := PB_14
def PIN_DISPLAY_BL : Int := PA_4
def PIN_DISPLAY_DC : Int := PC_5
def PIN_DISPLAY_RST : Int := PC_4
def DISPLAY_WIDTH : Nat := 160
def DISPLAY_HEIGHT : Nat := 128
def DISPLAY_CFG0 : Nat := 0x00000080
def DISPLAY_CFG1 : Nat := 0x000603
def DISPLAY_CFG2 : Nat := 22

def ST7735_SWRESET : Nat := 0x01
def ST7735_SLPOUT : Nat := 0x11
def ST7735_NORON : Nat := 0x13
def ST7735_INVOFF : Nat := 0x20
def ST7735_DISPON : Nat := 0x29
def ST7735_CASET : Nat := 0x2A
def ST7735_RASET : Nat := 0x2B
def ST7735_RAMWR : Nat := 0x2C
def ST7735_COLMOD : Nat := 0x3A
def ST7735_MADCTL : Nat := 0x36
def ST7735_FRMCTR1 : Nat := 0xB1
def ST7735_GMCTRP1 : Nat := 0xE0
def ST7735_GMCTRN1 : Nat := 0xE1

/-- Flag bit of a length byte: `#define DELAY 0x80`. -/
def DELAY : Nat := 0x80

/-- Values of libopencm3 (`gpio_common_f234.h`). -/
def GPIO_MODE_OUTPUT : Int := 1
def GPIO_MODE_AF : Int := 2
def GPIO_PUPD_NONE : Nat := 0
def GPIO_OTYPE_PP : Nat := 0
def GPIO_OSPEED_50MHZ : Nat := 2
def GPIO_AF5 : Nat := 5
/-- Alternate function of the bus: `#define SPI_AF GPIO_AF5`. -/
def SPI_AF : Nat := GPIO_AF5

/-! ## Pin abstraction -/

/-- Port of a logical pin, `switch (pin >> 4)`; the shift of the signed
`int` is arithmetic.  Any port index other than 0, 1, 2 ends in `panic()`. -/
def pinport (pin : Int) : Exec Port :=
  if pin >>> (4 : Nat) = 0 then pure Port.GPIOA
  else if pin >>> (4 : Nat) = 1 then pure Port.GPIOB
  else if pin >>> (4 : Nat) = 2 then pure Port.GPIOC
  else panic

/-- Bit mask of a logical pin, `1 << (pin & 0xf)` returned as `uint16_t`.
On the two's complement `int`, `pin & 0xf` is `pin mod 16`. -/
def pinmask (pin : Int) : Nat :=
  (1 <<< (pin % 16).toNat) % 65536

/-- Conversion of an `int` to `uint8_t`. -/
def toU8 (x : Int) : Nat := (x % 256).toNat

/-- Configure one pin.  The port is resolved before anything is written.  The
parameter `mode` of `gpio_mode_setup` is a `uint8_t`, so the `int mode` is
converted in the call; the comparison with `GPIO_MODE_AF` is made on the
`int`. -/
def setup_pin (pin : Int) (mode : Int) : Exec Unit := do
  let port ← pinport pin
  let mask := pinmask pin
  emit (.gpio_mode_setup port (toU8 mode) GPIO_PUPD_NONE mask)
  if pin ≠ PIN_DISPLAY_MISO then
    emit (.gpio_set_output_options port GPIO_OTYPE_PP GPIO_OSPEED_50MHZ mask)
  if mode = GPIO_MODE_AF then
    emit (.gpio_set_af port SPI_AF mask)

/-- Drive one pin: `gpio_set` when `v` is non-zero, `gpio_clear` otherwise.
The argument `pinport(pin)` is evaluated before the write is made. -/
def pin_set (pin : Int) (v : Int) : Exec Unit := do
  if v ≠ 0 then
    let port ← pinport pin
    emit (.gpio_set port (pinmask pin))
  else
    let port ← pinport pin
    emit (.gpio_clear port (pinmask pin))

/-- The macro `SET_DC(v)`. -/
def SET_DC (v : Int) : Exec Unit := pin_set PIN_DISPLAY_DC v
/-- The macro `SET_CS(v)`. -/
def SET_CS (v : Int) : Exec Unit := pin_set PIN_DISPLAY_CS v

/-! ## Memory -/

/-- Read `cmdBuf[i]`.  No index is checked: at 20 or more the byte comes from
the storage behind the array. -/
def loadCmdBuf (i : Nat) : Exec Nat := fun m =>
  .ok (m.cmdBuf i) m

/-- Write `cmdBuf[i] = v`.  No index is checked: at 20 or more the byte goes to
the storage behind the array, and the index is noted in `pastEnd`. -/
def storeCmdBuf (i : Nat) (v : Nat) : Exec Unit := fun m =>
  .ok () { m with cmdBuf := fun k => if k = i then v else m.cmdBuf k,
                  pastEnd := if i < CMDBUF_SIZE then m.pastEnd else m.pastEnd ++ [i] }

/-- Read byte `i` of a local array holding `bytes`. -/
def loadStack (bytes : List Nat) (i : Nat) : Exec Nat := fun m =>
  match bytes[i]? with
  | some b => .ok b m
  | none => .fault m

/-- Read byte `i` of the command table `buf`, noting the index in `reads`. -/
def readTable (buf : List Nat) (i : Nat) : Exec Nat := fun m =>
  match buf[i]? with
  | some b => .ok b { m with reads := m.reads ++ [i] }
  | none => .fault m

/-- The call `memcpy(cmdBuf + dst, p + src, n)`, byte by byte, where `load`
reads the object `p` points into. -/
def memcpy (load : Nat → Exec Nat) (dst src : Nat) : Nat → Exec Unit
  | 0 => pure ()
  | n + 1 => do
    let b ← load src
    storeCmdBuf dst b
    memcpy load (dst + 1) (src + 1) n

/-- Argument `buf` of `sendCmd`: either `cmdBuf` itself or a local array of
the caller with the given contents. -/
inductive BufPtr where
  | cmdBuf
  | stack (bytes : List Nat)

/-! ## SPI transfer and command framing -/

/-- The loop `while (len--) spi_send(SPIx, *buf++)` on a pointer `cmdBuf + off`
(the only pointers `sendCmd` hands over), for a count `len` that is not
negative. -/
def transfer (off : Nat) : Nat → Exec Unit
  | 0 => pure ()
  | len + 1 => do
    let b ← loadCmdBuf off
    emit (.spi_send b)
    transfer (off + 1) len

/-- Send one command: stage it in `cmdBuf` unless it is there already, then
opcode with D/C low, arguments with D/C high, all inside one chip-select
window.  The `int len` becomes a `size_t` (32 bits) in the call of `memcpy`;
the second `transfer` is guarded by `len > 0`, so its count is not negative. -/
def sendCmd (buf : BufPtr) (len : Int) : Exec Unit := do
  match buf with
  | .stack bytes => memcpy (loadStack bytes) 0 0 (len % 4294967296).toNat
  | .cmdBuf => pure ()
  SET_DC 0
  SET_CS 0
  transfer 0 1
  SET_DC 1
  let len := len - 1
  if len > 0 then
    transfer 1 len.toNat
  SET_CS 1

/-- The loop of `sendCmdSeq`, with `pos` the offset of the pointer `buf` in
the table.  Every round moves `pos` forward by at least two readable bytes, so
a count of rounds above the length of the table is never used up (lemma
`sendCmdSeqLoop_fuel`; the first case is there for the recursion only).  The
length byte `v` is a `uint8_t` widened to `int`, on which `v & ~DELAY` is
`v & 0x7f`. -/
def sendCmdSeqLoop (buf : List Nat) : Nat → Nat → Exec Unit
  | 0, _ => fault
  | fuel + 1, pos => do
    let c ← readTable buf pos
    if c ≠ 0 then
      let op ← readTable buf pos
      storeCmdBuf 0 op
      let v ← readTable buf (pos + 1)
      let len := v &&& 0x7f
      memcpy (readTable buf) 1 (pos + 2) len
      sendCmd .cmdBuf ((len : Int) + 1)
      let pos := pos + 2 + len
      if v &&& DELAY ≠ 0 then
        let d ← readTable buf pos
        emit (.delay d)
        sendCmdSeqLoop buf fuel (pos + 1)
      else
        sendCmdSeqLoop buf fuel pos
    else
      pure ()

/-- Run a byte-coded command table up to its first zero opcode. -/
def sendCmdSeq (buf : List Nat) : Exec Unit :=
  sendCmdSeqLoop buf (buf.length + 1) 0

/-- The static table `initCmds`. -/
def initCmds : List Nat :=
  [ ST7735_SWRESET, DELAY,
      120,
    ST7735_SLPOUT, DELAY,
      120,
    ST7735_INVOFF, 0,
    ST7735_COLMOD, 1,
      0x05,
    ST7735_GMCTRP1, 16,
      0x02, 0x1c, 0x07, 0x12,
      0x37, 0x32, 0x29, 0x2d,
      0x29, 0x25, 0x2B, 0x39,
      0x00, 0x01, 0x03, 0x10,
    ST7735_GMCTRN1, 16,
      0x03, 0x1d, 0x07, 0x06,
      0x2E, 0x2C, 0x29, 0x2D,
      0x2E, 0x2E, 0x37, 0x3F,
      0x00, 0x00, 0x02, 0x10,
    ST7735_NORON, DELAY,
      10,
    ST7735_DISPON, DELAY,
      10,
    0, 0 ]

/-! ## Controller configuration -/

/-- Set the address window: `cmd0` is the row command, `cmd1` the column
command; `cmd1` is sent first. -/
def setAddrWindow (x y w h : Int) : Exec Unit := do
  let cmd0 := [ST7735_RASET, 0, toU8 x, 0, toU8 (x + w - 1)]
  let cmd1 := [ST7735_CASET, 0, toU8 y, 0, toU8 (y + h - 1)]
  sendCmd (.stack cmd1) 5
  sendCmd (.stack cmd0) 5

/-- Orientation and frame rate: `cmd1` is cut to three bytes when its last
byte is `0xff`. -/
def configure (madctl : Nat) (frmctr1 : Nat) : Exec Unit := do
  let cmd0 := [ST7735_MADCTL, madctl]
  let b3 := frmctr1 % 256
  let cmd1 := [ST7735_FRMCTR1, (frmctr1 >>> 16) % 256, (frmctr1 >>> 8) % 256, b3]
  sendCmd (.stack cmd0) 2
  sendCmd (.stack cmd1) (if b3 = 0xff then 3 else 4)

/-! ## Pixel streaming -/

/-- Inner loop of `draw_stripes`, `rows` rounds to go: one pixel per round,
high byte first. -/
def stripeRows (color : Nat) : Nat → Exec Unit
  | 0 => pure ()
  | rows + 1 => do
    emit (.spi_send (color >>> 8))
    emit (.spi_send (color &&& 0xff))
    stripeRows color rows

/-- Outer loop of `draw_stripes` at column `i`, `cols` rounds to go;
`uint16_t color = i * 2`. -/
def stripeCols (height : Nat) : Nat → Nat → Exec Unit
  | 0, _ => pure ()
  | cols + 1, i => do
    let color := (i * 2) % 65536
    stripeRows color height
    stripeCols height cols (i + 1)

/-- Body of `draw_stripes` for a display of the given size. -/
def drawStripes (width height : Nat) : Exec Unit := do
  storeCmdBuf 0 ST7735_RAMWR
  sendCmd .cmdBuf 1
  SET_DC 1
  SET_CS 0
  stripeCols height width 0
  SET_CS 1

/-- Fill the screen with vertical stripes. -/
def draw_stripes : Exec Unit := drawStripes DISPLAY_WIDTH DISPLAY_HEIGHT

/-! ## Bring-up -/

/-- Store to the static `palXOR`. -/
def storePalXOR (v : Nat) : Exec Unit := fun m => .ok () { m with palXOR := v }

/-- The whole bring-up. -/
def screen_init : Exec Unit := do
  emit (.rcc_periph_clock_enable .RCC_GPIOA)
  emit (.rcc_periph_clock_enable .RCC_GPIOB)
  emit (.rcc_periph_clock_enable .RCC_GPIOC)
  emit (.rcc_periph_clock_enable .RCC_SPI2)
  setup_pin PIN_DISPLAY_SCK GPIO_MODE_AF
  setup_pin PIN_DISPLAY_MISO GPIO_MODE_AF
  setup_pin PIN_DISPLAY_MOSI GPIO_MODE_AF
  setup_pin PIN_DISPLAY_BL GPIO_MODE_OUTPUT
  setup_pin PIN_DISPLAY_DC GPIO_MODE_OUTPUT
  setup_pin PIN_DISPLAY_RST GPIO_MODE_OUTPUT
  setup_pin PIN_DISPLAY_CS GPIO_MODE_OUTPUT
  emit .spi_init_master
  SET_CS 1
  SET_DC 1
  emit (.delay 10)
  sendCmdSeq initCmds
  if PIN_DISPLAY_RST ≠ -1 then
    pin_set PIN_DISPLAY_RST 0
    emit (.delay 20)
    pin_set PIN_DISPLAY_RST 1
    emit (.delay 20)
  if PIN_DISPLAY_BL ≠ -1 then
    pin_set PIN_DISPLAY_BL 1
  let cfg0 := DISPLAY_CFG0
  let cfg2 := DISPLAY_CFG2
  let frmctr1 := DISPLAY_CFG1
  storePalXOR (if cfg0 &&& 0x1000000 ≠ 0 then 0xffffff else 0x000000)
  let madctl := cfg0 &&& 0xff
  let offX := (cfg0 >>> 8) &&& 0xff
  let offY := (cfg0 >>> 16) &&& 0xff
  let freq := cfg2 &&& 0xff
  emit (.dmesg frmctr1 madctl freq)
  configure madctl frmctr1
  setAddrWindow offX offY DISPLAY_WIDTH DISPLAY_HEIGHT
  draw_stripes

/-! ## Observing a trace -/

/-- Write that drives the data/command line low (`PC_5`). -/
def dcLow : Event := .gpio_clear .GPIOC 0x20
/-- Write that drives the data/command line high. -/
def dcHigh : Event := .gpio_set .GPIOC 0x20
/-- Write that asserts chip-select (`PB_12` low). -/
def csLow : Event := .gpio_clear .GPIOB 0x1000
/-- Write that deasserts chip-select (`PB_12` high). -/
def csHigh : Event := .gpio_set .GPIOB 0x1000

/-- Events of one framed command with opcode `op` and arguments `args`. -/
def frame (op : Nat) (args : List Nat) : List Event :=
  [dcLow, csLow, .spi_send op, dcHigh] ++ args.map Event.spi_send ++ [csHigh]

/-- Levels of the chip-select and data/command lines (`true` is high). -/
structure Lines where
  cs : Bool
  dc : Bool
  deriving DecidableEq, Repr

/-- Effect of one event on the two lines: `gpio_set` raises and `gpio_clear`
lowers the pins of the port whose mask bit is set; chip-select is bit 12 of
port B, data/command is bit 5 of port C. -/
def Lines.step (l : Lines) : Event → Lines
  | .gpio_set port mask =>
    { cs := l.cs || (decide (port = Port.GPIOB) && mask.testBit 12),
      dc := l.dc || (decide (port = Port.GPIOC) && mask.testBit 5) }
  | .gpio_clear port mask =>
    { cs := l.cs && !(decide (port = Port.GPIOB) && mask.testBit 12),
      dc := l.dc && !(decide (port = Port.GPIOC) && mask.testBit 5) }
  | _ => l

/-- Levels of the two lines after a list of events. -/
def Lines.run (l : Lines) (es : List Event) : Lines := es.foldl Lines.step l

/-- One byte on the bus, with the line levels at the time it was sent. -/
structure Sent where
  byte : Nat
  cs : Bool
  dc : Bool
  deriving DecidableEq, Repr

/-- The bytes sent by a list of events, each with the levels of the lines at
that time, starting from levels `l`. -/
def sentBytes : Lines → List Event → List Sent
  | _, [] => []
  | l, e :: es =>
    (match e with
      | .spi_send b => [{ byte := b, cs := l.cs, dc := l.dc }]
      | _ => []) ++ sentBytes (l.step e) es

/-- The bytes sent by a list of events, in order. -/
def spiBytes : List Event → List Nat
  | [] => []
  | .spi_send b :: es => b :: spiBytes es
  | _ :: es => spiBytes es

/-- The command bytes of a list of events: those sent with the data/command
line low. -/
def commandBytes (l : Lines) (es : List Event) : List Nat :=
  ((sentBytes l es).filter (fun s => !s.dc)).map Sent.byte

/-- In the list `l`, `a` occurs and its first occurrence is before that of `b`,
which occurs too. -/
def precedes (a b : Nat) (l : List Nat) : Prop :=
  b ∈ l ∧ l.indexOf a < l.indexOf b

instance (a b : Nat) (l : List Nat) : Decidable (precedes a b l) := by
  unfold precedes; infer_instance

/-- The first `len` bytes an argument `buf` of `sendCmd` points to. -/
def BufPtr.bytes (buf : BufPtr) (m : Machine) (len : Nat) : List Nat :=
  match buf with
  | .cmdBuf => (List.range len).map m.cmdBuf
  | .stack bs => bs.take len

/-- Bytes `cmdBuf[1..n]` as a list. -/
def stagedArgs (buf : Nat → Nat) (n : Nat) : List Nat :=
  (List.range n).map (fun k => buf (1 + k))

/-- Contents of `cmdBuf` after `n` bytes of `bytes`, from index `src` on,
were copied to index `dst` on. -/
def copied (old : Nat → Nat) (bytes : List Nat) (dst src n : Nat) : Nat → Nat :=
  fun k => if dst ≤ k ∧ k < dst + n then bytes.getD (src + (k - dst)) 0 else old k

/-- Indices of 20 or more among `dst, dst + 1, ..., dst + n - 1`: the writes
of a copy of `n` bytes to `cmdBuf + dst` that land behind the array. -/
def pastWrites (dst n : Nat) : List Nat :=
  ((List.range n).map (fun k => dst + k)).filter (fun i => decide (CMDBUF_SIZE ≤ i))

/-- Machine after one round of `sendCmdSeq` on the descriptor at `pos`, up to
and including the call of `sendCmd`. -/
def afterCmd (m : Machine) (buf : List Nat) (pos op len : Nat) : Machine :=
  { trace := m.trace ++ frame op ((buf.drop (pos + 2)).take len),
    cmdBuf := copied (fun k => if k = 0 then op else m.cmdBuf k) buf 1 (pos + 2) len,
    palXOR := m.palXOR,
    reads := m.reads ++ [pos, pos, pos + 1] ++ (List.range len).map (fun k => pos + 2 + k),
    pastEnd := m.pastEnd ++ pastWrites 1 len }

/-! ## Command descriptors -/

/-- A command descriptor as the data model has it: opcode, argument bytes and
an optional trailing delay in milliseconds. -/
structure Descriptor where
  opcode : Nat
  args : List Nat
  delayMs : Option Nat
  deriving DecidableEq, Repr

/-- The length/flags byte of a descriptor: argument count in the low seven
bits, bit `0x80` set when a delay byte follows the arguments. -/
def Descriptor.argLenAndFlags (d : Descriptor) : Nat :=
  d.args.length + (if d.delayMs.isSome then DELAY else 0)

/-- Bytes of one descriptor in a command table. -/
def Descriptor.encode (d : Descriptor) : List Nat :=
  d.opcode :: d.argLenAndFlags :: (d.args ++ d.delayMs.toList)

/-- Bytes of a list of descriptors, one after the other. -/
def encode (ds : List Descriptor) : List Nat :=
  ds.flatMap Descriptor.encode

/-- Events of one descriptor when it is run: its frame, then its delay. -/
def Descriptor.events (d : Descriptor) : List Event :=
  frame d.opcode d.args ++ (d.delayMs.toList.map Event.delay)

/-! ## Events of the bring-up, phase by phase -/

/-- Byte `k` of the pixel stream of `draw_stripes` for a display `height`
rows high: column `k / (2 * height)`, colour twice the column as a
`uint16_t`, high byte at even `k`, low byte at odd `k`. -/
def pixelByte (height k : Nat) : Nat :=
  if k % 2 = 0 then (((k / (2 * height)) * 2) % 65536) >>> 8
  else (((k / (2 * height)) * 2) % 65536) &&& 0xff

/-- The pixel stream of `draw_stripes` as events. -/
def pixelEvents (width height : Nat) : List Event :=
  (List.range (width * (2 * height))).map (fun k => Event.spi_send (pixelByte height k))

/-- The statement `x` returns from every machine, having emitted exactly the
events `es`, whatever the machine held. -/
def Emits {α : Type} (x : Exec α) (es : List Event) : Prop :=
  ∀ m : Machine, ∃ a m1, x m = .ok a m1 ∧ m1.trace = m.trace ++ es

/-- The table `initCmds` as descriptors. -/
def initDescs : List Descriptor :=
  [ { opcode := 0x01, args := [], delayMs := some 120 },
    { opcode := 0x11, args := [], delayMs := some 120 },
    { opcode := 0x20, args := [], delayMs := none },
    { opcode := 0x3A, args := [0x05], delayMs := none },
    { opcode := 0xE0,
      args := [0x02, 0x1c, 0x07, 0x12, 0x37, 0x32, 0x29, 0x2d,
               0x29, 0x25, 0x2B, 0x39, 0x00, 0x01, 0x03, 0x10],
      delayMs := none },
    { opcode := 0xE1,
      args := [0x03, 0x1d, 0x07, 0x06, 0x2E, 0x2C, 0x29, 0x2D,
               0x2E, 0x2E, 0x37, 0x3F, 0x00, 0x00, 0x02, 0x10],
      delayMs := none },
    { opcode := 0x13, args := [], delayMs := some 10 },
    { opcode := 0x29, args := [], delayMs := some 10 } ]

/-- Events of the four clock enables. -/
def clockEvents : List Event :=
  [ .rcc_periph_clock_enable .RCC_GPIOA, .rcc_periph_clock_enable .RCC_GPIOB,
    .rcc_periph_clock_enable .RCC_GPIOC, .rcc_periph_clock_enable .RCC_SPI2 ]

/-- Events of the configuration of the seven pins (SCK, MISO, MOSI, BL, DC,
RST, CS). -/
def pinSetupEvents : List Event :=
  [ .gpio_mode_setup .GPIOB 2 0 0x2000, .gpio_set_output_options .GPIOB 0 2 0x2000,
    .gpio_set_af .GPIOB 5 0x2000,
    .gpio_mode_setup .GPIOB 2 0 0x4000, .gpio_set_af .GPIOB 5 0x4000,
    .gpio_mode_setup .GPIOB 2 0 0x8000, .gpio_set_output_options .GPIOB 0 2 0x8000,
    .gpio_set_af .GPIOB 5 0x8000,
    .gpio_mode_setup .GPIOA 1 0 0x10, .gpio_set_output_options .GPIOA 0 2 0x10,
    .gpio_mode_setup .GPIOC 1 0 0x20, .gpio_set_output_options .GPIOC 0 2 0x20,
    .gpio_mode_setup .GPIOC 1 0 0x10, .gpio_set_output_options .GPIOC 0 2 0x10,
    .gpio_mode_setup .GPIOB 1 0 0x1000, .gpio_set_output_options .GPIOB 0 2 0x1000 ]

/-- Events of the init command sequence. -/
def initSeqEvents : List Event := initDescs.flatMap Descriptor.events

/-- Events of the reset pulse on `PC_4`. -/
def resetEvents : List Event :=
  [ .gpio_clear .GPIOC 0x10, .delay 20, .gpio_set .GPIOC 0x10, .delay 20 ]

/-- Event of the backlight switch on `PA_4`. -/
def backlightEvents : List Event := [ .gpio_set .GPIOA 0x10 ]

/-- Events of `configure` for the static configuration. -/
def configEvents : List Event := frame 0x36 [0x80] ++ frame 0xB1 [0x00, 0x06, 0x03]

/-- Events of `setAddrWindow` for the static configuration. -/
def windowEvents : List Event := frame 0x2A [0, 0, 0, 127] ++ frame 0x2B [0, 0, 0, 159]

/-- Events of `draw_stripes`. -/
def fillEvents : List Event :=
  frame 0x2C [] ++ [dcHigh, csLow] ++ pixelEvents DISPLAY_WIDTH DISPLAY_HEIGHT ++ [csHigh]

/-- Everything `screen_init` emits, phase by phase. -/
def bringUpEvents : List Event :=
  clockEvents ++ pinSetupEvents ++ [.spi_init_master] ++ [csHigh, dcHigh] ++ [.delay 10]
    ++ initSeqEvents ++ resetEvents ++ backlightEvents ++ [.dmesg 0x603 0x80 22]
    ++ configEvents ++ windowEvents ++ fillEvents

/-- The waits of a list of events, in milliseconds, in order. -/
def delaysOf : List Event → List Nat
  | [] => []
  | .delay ms :: es => ms :: delaysOf es
  | _ :: es => delaysOf es

/-- Everything `screen_init` emits before the pattern fill. -/
def bringUpHead : List Event :=
  clockEvents ++ pinSetupEvents ++ [.spi_init_master] ++ [csHigh, dcHigh] ++ [.delay 10]
    ++ initSeqEvents ++ resetEvents ++ backlightEvents ++ [.dmesg 0x603 0x80 22]
    ++ configEvents ++ windowEvents

/-- The phases of the bring-up with nothing between them: clock enables, pin
configuration, bus initialisation, chip-select high, pre-delay, init sequence,
reset pulse, backlight, configure commands, window commands, pattern fill. -/
def listedBringUpEvents : List Event :=
  clockEvents ++ pinSetupEvents ++ [.spi_init_master] ++ [csHigh] ++ [.delay 10]
    ++ initSeqEvents ++ resetEvents ++ backlightEvents
    ++ configEvents ++ windowEvents ++ fillEvents

/-- The body of `screen_init` with its three locals `cfg0`, `cfg2` and
`frmctr1`, which the source initialises from `DISPLAY_CFG0`, `DISPLAY_CFG2`
and `DISPLAY_CFG1`, as parameters. -/
def screenInitWith (cfg0 cfg2 frmctr1 : Nat) : Exec Unit := do
  emit (.rcc_periph_clock_enable .RCC_GPIOA)
  emit (.rcc_periph_clock_enable .RCC_GPIOB)
  emit (.rcc_periph_clock_enable .RCC_GPIOC)
  emit (.rcc_periph_clock_enable .RCC_SPI2)
  setup_pin PIN_DISPLAY_SCK GPIO_MODE_AF
  setup_pin PIN_DISPLAY_MISO GPIO_MODE_AF
  setup_pin PIN_DISPLAY_MOSI GPIO_MODE_AF
  setup_pin PIN_DISPLAY_BL GPIO_MODE_OUTPUT
  setup_pin PIN_DISPLAY_DC GPIO_MODE_OUTPUT
  setup_pin PIN_DISPLAY_RST GPIO_MODE_OUTPUT
  setup_pin PIN_DISPLAY_CS GPIO_MODE_OUTPUT
  emit .spi_init_master
  SET_CS 1
  SET_DC 1
  emit (.delay 10)
  sendCmdSeq initCmds
  if PIN_DISPLAY_RST ≠ -1 then
    pin_set PIN_DISPLAY_RST 0
    emit (.delay 20)
    pin_set PIN_DISPLAY_RST 1
    emit (.delay 20)
  if PIN_DISPLAY_BL ≠ -1 then
    pin_set PIN_DISPLAY_BL 1
  storePalXOR (if cfg0 &&& 0x1000000 ≠ 0 then 0xffffff else 0x000000)
  let madctl := cfg0 &&& 0xff
  let offX := (cfg0 >>> 8) &&& 0xff
  let offY := (cfg0 >>> 16) &&& 0xff
  let freq := cfg2 &&& 0xff
  emit (.dmesg frmctr1 madctl freq)
  configure madctl frmctr1
  setAddrWindow offX offY DISPLAY_WIDTH DISPLAY_HEIGHT
  draw_stripes

/-- Everything `screen_init` emits before it derives the configuration. -/
def bringUpPrelude : List Event :=
  clockEvents ++ pinSetupEvents ++ [.spi_init_master] ++ [csHigh, dcHigh] ++ [.delay 10]
    ++ initSeqEvents ++ resetEvents ++ backlightEvents

/-- The statement `x` returns from every machine, having emitted exactly the
events `es`; `palXOR` then holds `v` when `pal` is `some v` and what it held
before when `pal` is `none`. -/
def Runs {α : Type} (x : Exec α) (es : List Event) (pal : Option Nat) : Prop :=
  ∀ m : Machine, ∃ a m1, x m = .ok a m1 ∧ m1.trace = m.trace ++ es ∧
    m1.palXOR = pal.getD m.palXOR

/-- Value of `palXOR` after two statements: the later store wins. -/
def laterPal (second first : Option Nat) : Option Nat :=
  match second with
  | some v => some v
  | none => first

/-- Indices of the table that one round of `sendCmdSeq` reads for the
descriptor `d` at offset `pos`: the opcode twice (loop test and copy), the
length byte, the arguments, and the delay byte when there is one. -/
def Descriptor.reads (d : Descriptor) (pos : Nat) : List Nat :=
  [pos, pos, pos + 1] ++ (List.range d.args.length).map (fun k => pos + 2 + k)
    ++ d.delayMs.toList.map (fun _ => pos + 2 + d.args.length)

/-- Indices read by `sendCmdSeq` on the descriptors `ds` laid out from offset
`pos`, the last being that of the terminating zero. -/
def tableReads : Nat → List Descriptor → List Nat
  | pos, [] => [pos]
  | pos, d :: ds => d.reads pos ++ tableReads (pos + d.encode.length) ds

/-- The levels written to chip-select (bit 12 of port B) by a list of events,
in order (`true` is high). -/
def csWrites : List Event → List Bool
  | [] => []
  | e :: es =>
    (match e with
      | .gpio_set port mask =>
        if port = Port.GPIOB ∧ mask.testBit 12 = true then [true] else []
      | .gpio_clear port mask =>
        if port = Port.GPIOB ∧ mask.testBit 12 = true then [false] else []
      | _ => []) ++ csWrites es

/-- The level of chip-select at each wait of a list of events, in order,
starting from levels `l`. -/
def csAtDelays : Lines → List Event → List Bool
  | _, [] => []
  | l, e :: es =>
    (match e with
      | .delay _ => [l.cs]
      | _ => []) ++ csAtDelays (l.step e) es

/-- What `screen_init` emits before it first writes chip-select. -/
def setupEvents : List Event :=
  clockEvents ++ pinSetupEvents ++ [.spi_init_master]

/-- What `screen_init` emits from its first chip-select write up to the
pattern fill. -/
def lineHead : List Event :=
  [csHigh, dcHigh, .delay 10] ++ initSeqEvents ++ resetEvents ++ backlightEvents
    ++ [.dmesg 0x603 0x80 22] ++ configEvents ++ windowEvents

/-! ## The delay flag, as the claim has it -/

/-- Following the claim on the delay flag: what `sendCmdSeq` is to emit for
the descriptors `ds` when they lie in the table `buf` from index `pos` on.
Per descriptor: the frame of the command, whose opcode is the table byte at
the start of the descriptor; then, when bit `0x80` of the length/flags byte
(the next table byte) is set, one delay whose duration is the table byte right
behind the arguments, the next descriptor starting behind that byte; when the
bit is clear, no delay, and the byte right behind the arguments is where the
next descriptor starts, so that it is the next opcode. -/
def flaggedEvents (buf : List Nat) : Nat → List Descriptor → List Event
  | _, [] => []
  | pos, d :: ds =>
    frame (buf.getD pos 0) d.args ++
      (if buf.getD (pos + 1) 0 &&& 0x80 ≠ 0 then
        Event.delay (buf.getD (pos + 2 + d.args.length) 0)
          :: flaggedEvents buf (pos + 2 + d.args.length + 1) ds
      else flaggedEvents buf (pos + 2 + d.args.length) ds)

/-- Following the claim on the delay flag: the table indices `sendCmdSeq` is
to read, in order.  Per descriptor: its first byte (once for the test of the
loop, once as the opcode), its length/flags byte, its arguments; then, when
bit `0x80` is set, the byte right behind the arguments (the delay), the walk
going on behind it; when the bit is clear, the walk goes on at the byte right
behind the arguments.  A walk with no descriptor left reads the byte it stands
on once, as the opcode that ends the run. -/
def flaggedReads (buf : List Nat) : Nat → List Descriptor → List Nat
  | pos, [] => [pos]
  | pos, d :: ds =>
    [pos, pos, pos + 1] ++ (List.range d.args.length).map (fun k => pos + 2 + k) ++
      (if buf.getD (pos + 1) 0 &&& 0x80 ≠ 0 then
        (pos + 2 + d.args.length) :: flaggedReads buf (pos + 2 + d.args.length + 1) ds
      else flaggedReads buf (pos + 2 + d.args.length) ds)

/-! ## Writes behind the buffer -/

/-- The statement `x` returns from every machine with the list of writes
behind `cmdBuf` as it found it: it has made none. -/
def InBuffer {α : Type} (x : Exec α) : Prop :=
  ∀ m, ∃ a m1, x m = .ok a m1 ∧ m1.pastEnd = m.pastEnd

/-- However the run of `x` ends, the writes behind `cmdBuf` noted before it
are still there, in front of those it has made. -/
def Extends {α : Type} (x : Exec α) : Prop :=
  ∀ m, ∃ r, (x m).machine.pastEnd = m.pastEnd ++ r

/-! ## Lemmas -/

theorem bind_run {α β : Type} (x : Exec α) (f : α → Exec β) (m : Machine) :
    (x >>= f) m = Exec.bind x f m := rfl

theorem pure_run {α : Type} (a : α) (m : Machine) :
    (pure a : Exec α) m = .ok a m := rfl

theorem bind_ok {α β : Type} {x : Exec α} {f : α → Exec β} {m m1 : Machine} {a : α}
    (h : x m = .ok a m1) : (x >>= f) m = f a m1 := by
  simp [bind_run, Exec.bind, h]

theorem SET_DC_low (m : Machine) :
    SET_DC 0 m = .ok () { m with trace := m.trace ++ [dcLow] } := rfl

theorem SET_DC_high (m : Machine) :
    SET_DC 1 m = .ok () { m with trace := m.trace ++ [dcHigh] } := rfl

theorem SET_CS_low (m : Machine) :
    SET_CS 0 m = .ok () { m with trace := m.trace ++ [csLow] } := rfl

theorem SET_CS_high (m : Machine) :
    SET_CS 1 m = .ok () { m with trace := m.trace ++ [csHigh] } := rfl

theorem transfer_run (n : Nat) : ∀ (off : Nat) (m : Machine),
    transfer off n m = .ok ()
      { m with trace := m.trace ++ (List.range n).map (fun k => Event.spi_send (m.cmdBuf (off + k))) } := by
  induction n with
  | zero => intro off m; simp [transfer, pure_run]
  | succ n ih =>
    intro off m
    have hload : loadCmdBuf off m = .ok (m.cmdBuf off) m := rfl
    rw [transfer, bind_ok hload]
    have hemit : emit (.spi_send (m.cmdBuf off)) m
        = .ok () { m with trace := m.trace ++ [.spi_send (m.cmdBuf off)] } := rfl
    rw [bind_ok hemit, ih (off + 1) _]
    simp [List.range_succ_eq_map, Nat.add_assoc, Nat.add_comm 1]

theorem pastWrites_zero (dst : Nat) : pastWrites dst 0 = [] := rfl

theorem pastWrites_succ (dst n : Nat) :
    pastWrites dst (n + 1)
      = (if dst < CMDBUF_SIZE then [] else [dst]) ++ pastWrites (dst + 1) n := by
  unfold pastWrites
  rw [List.range_succ_eq_map]
  by_cases h : dst < CMDBUF_SIZE
  · have h2 : ¬ CMDBUF_SIZE ≤ dst := by omega
    simp [h, h2, List.filter_cons, Function.comp_def, Nat.add_assoc, Nat.add_comm 1]
  · have h2 : CMDBUF_SIZE ≤ dst := by omega
    simp [h, h2, List.filter_cons, Function.comp_def, Nat.add_assoc, Nat.add_comm 1]

theorem pastWrites_within (dst n : Nat) (h : dst + n ≤ CMDBUF_SIZE) : pastWrites dst n = [] := by
  unfold pastWrites
  rw [List.filter_eq_nil_iff]
  intro i hi
  obtain ⟨k, hk, rfl⟩ := List.mem_map.mp hi
  have := List.mem_range.mp hk
  simp only [decide_eq_true_eq]
  omega

theorem pastWrites_beyond (dst n : Nat) (h : CMDBUF_SIZE ≤ dst) :
    pastWrites dst n = (List.range n).map (fun k => dst + k) := by
  unfold pastWrites
  rw [List.filter_eq_self]
  intro i hi
  obtain ⟨k, _, rfl⟩ := List.mem_map.mp hi
  simp only [decide_eq_true_eq]
  omega

theorem pastWrites_eq (n : Nat) : ∀ dst : Nat, dst ≤ CMDBUF_SIZE →
    pastWrites dst n = (List.range (dst + n - CMDBUF_SIZE)).map (fun k => CMDBUF_SIZE + k) := by
  induction n with
  | zero =>
    intro dst h
    have h0 : dst + 0 - CMDBUF_SIZE = 0 := by omega
    rw [pastWrites_within dst 0 (by omega), h0]
    rfl
  | succ n ih =>
    intro dst h
    by_cases hd : dst < CMDBUF_SIZE
    · have h1 : dst + 1 + n = dst + (n + 1) := by omega
      rw [pastWrites_succ, if_pos hd, List.nil_append, ih (dst + 1) (by omega), h1]
    · have h1 : dst = CMDBUF_SIZE := by omega
      subst h1
      have h2 : CMDBUF_SIZE + (n + 1) - CMDBUF_SIZE = n + 1 := by omega
      rw [pastWrites_beyond _ _ (Nat.le_refl _), h2]

theorem copied_zero (old : Nat → Nat) (bytes : List Nat) (dst src : Nat) :
    copied old bytes dst src 0 = old := by
  funext k; simp [copied]

theorem copied_succ (old : Nat → Nat) (bytes : List Nat) (dst src n : Nat) :
    copied (fun k => if k = dst then bytes.getD src 0 else old k) bytes (dst + 1) (src + 1) n
      = copied old bytes dst src (n + 1) := by
  funext k
  simp only [copied]
  by_cases h1 : k = dst
  · subst h1; simp
  · by_cases h2 : dst + 1 ≤ k ∧ k < dst + 1 + n
    · have h3 : dst ≤ k ∧ k < dst + (n + 1) := by omega
      have h4 : src + 1 + (k - (dst + 1)) = src + (k - dst) := by omega
      simp [h2, h3, h4]
    · have h3 : ¬ (dst ≤ k ∧ k < dst + (n + 1)) := by omega
      simp [h2, h3, h1]

theorem storeCmdBuf_run (i v : Nat) (m : Machine) :
    storeCmdBuf i v m = .ok ()
      { m with cmdBuf := fun k => if k = i then v else m.cmdBuf k,
               pastEnd := m.pastEnd ++ (if i < CMDBUF_SIZE then [] else [i]) } := by
  unfold storeCmdBuf
  by_cases h : i < CMDBUF_SIZE <;> simp [h]

/-- A copy from a local array, of any length the array covers: the bytes land
from `cmdBuf[dst]` on, those at index 20 or more behind the array. -/
theorem memcpy_stack_wide (bytes : List Nat) (n : Nat) : ∀ (dst src : Nat) (m : Machine),
    src + n ≤ bytes.length →
    memcpy (loadStack bytes) dst src n m = .ok ()
      { m with cmdBuf := copied m.cmdBuf bytes dst src n,
               pastEnd := m.pastEnd ++ pastWrites dst n } := by
  induction n with
  | zero =>
    intro dst src m _
    simp only [memcpy, pure_run]
    rw [copied_zero, pastWrites_zero, List.append_nil]
  | succ n ih =>
    intro dst src m hs
    have hsrc : src < bytes.length := by omega
    have hload : loadStack bytes src m = .ok (bytes.getD src 0) m := by
      simp [loadStack, List.getElem?_eq_getElem hsrc, List.getD_eq_getElem bytes 0 hsrc]
    rw [memcpy, bind_ok hload, bind_ok (storeCmdBuf_run _ _ _),
      ih (dst + 1) (src + 1) _ (by omega)]
    simp only [copied_succ, pastWrites_succ, List.append_assoc]

theorem memcpy_stack_run (bytes : List Nat) (n : Nat) : ∀ (dst src : Nat) (m : Machine),
    dst + n ≤ CMDBUF_SIZE → src + n ≤ bytes.length →
    memcpy (loadStack bytes) dst src n m = .ok ()
      { m with cmdBuf := copied m.cmdBuf bytes dst src n } := by
  intro dst src m hd hs
  rw [memcpy_stack_wide bytes n dst src m hs, pastWrites_within dst n hd, List.append_nil]

/-- A copy from the command table, of any length the table covers. -/
theorem memcpy_table_wide (buf : List Nat) (n : Nat) : ∀ (dst src : Nat) (m : Machine),
    src + n ≤ buf.length →
    memcpy (readTable buf) dst src n m = .ok ()
      { m with cmdBuf := copied m.cmdBuf buf dst src n,
               reads := m.reads ++ (List.range n).map (fun k => src + k),
               pastEnd := m.pastEnd ++ pastWrites dst n } := by
  induction n with
  | zero =>
    intro dst src m _
    simp only [memcpy, pure_run]
    rw [copied_zero, pastWrites_zero]
    simp
  | succ n ih =>
    intro dst src m hs
    have hsrc : src < buf.length := by omega
    have hload : readTable buf src m = .ok (buf.getD src 0) { m with reads := m.reads ++ [src] } := by
      simp [readTable, List.getElem?_eq_getElem hsrc, List.getD_eq_getElem buf 0 hsrc]
    rw [memcpy, bind_ok hload, bind_ok (storeCmdBuf_run _ _ _),
      ih (dst + 1) (src + 1) _ (by omega)]
    simp only [copied_succ, pastWrites_succ, List.append_assoc]
    congr 2
    simp [List.range_succ_eq_map, Nat.add_assoc, Nat.add_comm 1]

theorem memcpy_table_run (buf : List Nat) (n : Nat) : ∀ (dst src : Nat) (m : Machine),
    dst + n ≤ CMDBUF_SIZE → src + n ≤ buf.length →
    memcpy (readTable buf) dst src n m = .ok ()
      { m with cmdBuf := copied m.cmdBuf buf dst src n,
               reads := m.reads ++ (List.range n).map (fun k => src + k) } := by
  intro dst src m hd hs
  rw [memcpy_table_wide buf n dst src m hs, pastWrites_within dst n hd, List.append_nil]

theorem frame_run (n : Nat) (m : Machine) :
    (do SET_DC 0; SET_CS 0; transfer 0 1; SET_DC 1
        let len := ((n : Int) + 1) - 1
        if len > 0 then transfer 1 len.toNat
        SET_CS 1 : Exec Unit) m
      = .ok () { m with trace := m.trace ++ frame (m.cmdBuf 0) (stagedArgs m.cmdBuf n) } := by
  rw [bind_ok (SET_DC_low m), bind_ok (SET_CS_low _),
    bind_ok (transfer_run 1 0 _), bind_ok (SET_DC_high _)]
  have hlen : ((n : Int) + 1) - 1 = n := by omega
  have r1 : List.range 1 = [0] := rfl
  simp only [hlen]
  by_cases h0 : n = 0
  · subst h0
    simp only [Int.Nat.cast_ofNat_Int, gt_iff_lt, lt_self_iff_false, ↓reduceIte]
    rw [bind_ok (pure_run _ _), SET_CS_high]
    simp [frame, stagedArgs, r1]
  · have hpos : (n : Int) > 0 := by omega
    simp only [hpos, ↓reduceIte, Int.toNat_ofNat]
    rw [bind_ok (transfer_run n 1 _), SET_CS_high]
    simp [frame, stagedArgs, r1]

theorem sendCmd_cmdBuf_run (n : Nat) (m : Machine) :
    sendCmd .cmdBuf ((n : Int) + 1) m
      = .ok () { m with trace := m.trace ++ frame (m.cmdBuf 0) (stagedArgs m.cmdBuf n) } := by
  unfold sendCmd
  dsimp only
  rw [bind_ok (pure_run _ _)]
  exact frame_run n m

theorem stagedArgs_stack (old : Nat → Nat) (bytes : List Nat) (n : Nat)
    (hb : n + 1 ≤ bytes.length) :
    stagedArgs (copied old bytes 0 0 (n + 1)) n = (bytes.drop 1).take n := by
  apply List.ext_getElem
  · simp [stagedArgs]; omega
  · intro i h1 h2
    simp [stagedArgs] at h1
    have h3 : i + 1 < bytes.length := by omega
    simp [stagedArgs, copied, h1, List.getElem?_eq_getElem h3, Nat.add_comm 1 i]

/-- A command of any length `n + 1` within the range of `int`, held in a local
array that covers it. -/
theorem sendCmd_stack_wide (bytes : List Nat) (n : Nat) (m : Machine)
    (hint : n + 1 ≤ 2147483647) (hb : n + 1 ≤ bytes.length) :
    sendCmd (.stack bytes) ((n : Int) + 1) m
      = .ok () { m with cmdBuf := copied m.cmdBuf bytes 0 0 (n + 1),
                        trace := m.trace ++ frame (bytes.getD 0 0) ((bytes.drop 1).take n),
                        pastEnd := m.pastEnd ++ pastWrites 0 (n + 1) } := by
  unfold sendCmd
  have hsz : (((n : Int) + 1) % 4294967296).toNat = n + 1 := by omega
  dsimp only
  simp only [hsz]
  rw [bind_ok (memcpy_stack_wide bytes (n + 1) 0 0 m (by omega))]
  rw [frame_run n _]
  have h0 : copied m.cmdBuf bytes 0 0 (n + 1) 0 = bytes.getD 0 0 := by simp [copied]
  simp only [h0, stagedArgs_stack m.cmdBuf bytes n hb]

theorem sendCmd_stack_run (bytes : List Nat) (n : Nat) (m : Machine)
    (hn : n + 1 ≤ CMDBUF_SIZE) (hb : n + 1 ≤ bytes.length) :
    sendCmd (.stack bytes) ((n : Int) + 1) m
      = .ok () { m with cmdBuf := copied m.cmdBuf bytes 0 0 (n + 1),
                        trace := m.trace ++ frame (bytes.getD 0 0) ((bytes.drop 1).take n) } := by
  have hint : n + 1 ≤ 2147483647 := by simp only [CMDBUF_SIZE] at hn; omega
  rw [sendCmd_stack_wide bytes n m hint hb, pastWrites_within 0 (n + 1) (by omega),
    List.append_nil]

theorem stagedArgs_copied (old : Nat → Nat) (buf : List Nat) (src n : Nat)
    (h : src + n ≤ buf.length) :
    stagedArgs (copied old buf 1 src n) n = (buf.drop src).take n := by
  apply List.ext_getElem
  · simp [stagedArgs]; omega
  · intro i h1 h2
    simp [stagedArgs] at h1
    have h3 : src + i < buf.length := by omega
    simp [stagedArgs, copied, h1, List.getElem?_eq_getElem h3]

theorem readTable_run (buf : List Nat) (i b : Nat) (m : Machine) (h : buf[i]? = some b) :
    readTable buf i m = .ok b { m with reads := m.reads ++ [i] } := by
  simp [readTable, h]

theorem sendCmdSeqLoop_stop (buf : List Nat) (fuel pos : Nat) (m : Machine)
    (h : buf[pos]? = some 0) :
    sendCmdSeqLoop buf (fuel + 1) pos m = .ok () { m with reads := m.reads ++ [pos] } := by
  rw [sendCmdSeqLoop, bind_ok (readTable_run buf pos 0 m h)]
  simp [pure_run]

theorem sendCmdSeqLoop_step (buf : List Nat) (fuel pos op v : Nat) (m : Machine)
    (h0 : buf[pos]? = some op) (hop : op ≠ 0) (h1 : buf[pos + 1]? = some v)
    (hin : pos + 2 + (v &&& 0x7f) ≤ buf.length) :
    sendCmdSeqLoop buf (fuel + 1) pos m =
      (if v &&& DELAY ≠ 0 then
        (do let d ← readTable buf (pos + 2 + (v &&& 0x7f))
            emit (.delay d)
            sendCmdSeqLoop buf fuel (pos + 2 + (v &&& 0x7f) + 1) : Exec Unit)
      else sendCmdSeqLoop buf fuel (pos + 2 + (v &&& 0x7f)))
        (afterCmd m buf pos op (v &&& 0x7f)) := by
  rw [sendCmdSeqLoop, bind_ok (readTable_run buf pos op m h0)]
  simp only [hop, ne_eq, not_false_eq_true, ↓reduceIte]
  rw [bind_ok (readTable_run buf pos op _ h0)]
  have hstore : ∀ m1 : Machine, storeCmdBuf 0 op m1
      = .ok () { m1 with cmdBuf := fun k => if k = 0 then op else m1.cmdBuf k } := by
    intro m1; simp [storeCmdBuf, CMDBUF_SIZE]
  rw [bind_ok (hstore _), bind_ok (readTable_run buf (pos + 1) v _ h1)]
  rw [bind_ok (memcpy_table_wide buf (v &&& 0x7f) 1 (pos + 2) _ hin)]
  rw [bind_ok (sendCmd_cmdBuf_run (v &&& 0x7f) _)]
  simp only [afterCmd, stagedArgs_copied _ buf _ _ hin]
  have hz : copied (fun k => if k = 0 then op else m.cmdBuf k) buf 1 (pos + 2) (v &&& 0x7f) 0 = op := by
    simp [copied]
  simp [hz]

theorem flags_bits : ∀ n : Nat, n ≤ 19 →
    (n + 0x80) &&& 0x7f = n ∧ (n + 0x80) &&& 0x80 ≠ 0 ∧ n &&& 0x7f = n ∧ n &&& 0x80 = 0 := by
  decide

theorem encode_cons (d : Descriptor) (ds : List Descriptor) :
    encode (d :: ds) = d.opcode :: d.argLenAndFlags :: (d.args ++ (d.delayMs.toList ++ encode ds)) := by
  simp [encode, Descriptor.encode]

theorem sendCmdSeqLoop_encode (buf rest : List Nat) (ds : List Descriptor) :
    ∀ (fuel pos : Nat) (m : Machine),
    (∀ d ∈ ds, d.opcode ≠ 0 ∧ d.args.length ≤ 19) →
    buf.drop pos = encode ds ++ 0 :: rest → ds.length < fuel →
    ∃ m1 r, sendCmdSeqLoop buf fuel pos m = .ok () m1 ∧
      m1.trace = m.trace ++ ds.flatMap Descriptor.events ∧
      m1.palXOR = m.palXOR ∧
      m1.reads = m.reads ++ r ∧ ∀ i ∈ r, pos ≤ i ∧ i ≤ pos + (encode ds).length := by
  induction ds with
  | nil =>
    intro fuel pos m _ hdrop hfuel
    obtain ⟨fuel, rfl⟩ : ∃ k, fuel = k + 1 := ⟨fuel - 1, by simp at hfuel; omega⟩
    have h0 : buf[pos]? = some 0 := by
      have := List.getElem?_drop buf pos 0
      rw [hdrop] at this
      simpa [encode] using this.symm
    refine ⟨_, [pos], sendCmdSeqLoop_stop buf fuel pos m h0, ?_⟩
    simp [encode]
  | cons d ds ih =>
    intro fuel pos m hok hdrop hfuel
    obtain ⟨fuel, rfl⟩ : ∃ k, fuel = k + 1 := ⟨fuel - 1, by simp at hfuel; omega⟩
    have hd := hok d (List.mem_cons_self _ _)
    have hds : ∀ e ∈ ds, e.opcode ≠ 0 ∧ e.args.length ≤ 19 :=
      fun e he => hok e (List.mem_cons_of_mem _ he)
    rw [encode_cons] at hdrop
    have hget : ∀ j, buf[pos + j]? = (buf.drop pos)[j]? := fun j => (List.getElem?_drop buf pos j).symm
    have h0 : buf[pos]? = some d.opcode := by
      have := hget 0; rw [hdrop] at this; simpa using this
    have h1 : buf[pos + 1]? = some d.argLenAndFlags := by
      have := hget 1; rw [hdrop] at this; simpa using this
    have hbits := flags_bits d.args.length hd.2
    have hlen : d.argLenAndFlags &&& 0x7f = d.args.length := by
      unfold Descriptor.argLenAndFlags DELAY
      split
      · exact hbits.1
      · exact hbits.2.2.1
    have hblen : buf.length - pos
        = (d.opcode :: d.argLenAndFlags :: (d.args ++ (d.delayMs.toList ++ encode ds)) ++ 0 :: rest).length := by
      rw [← hdrop, List.length_drop]
    have hin : pos + 2 + (d.argLenAndFlags &&& 0x7f) ≤ buf.length := by
      rw [hlen]
      simp at hblen
      omega
    have hdrop2 : buf.drop (pos + 2) = d.args ++ (d.delayMs.toList ++ encode ds ++ 0 :: rest) := by
      rw [← List.drop_drop, hdrop]; simp
    have hargs : (buf.drop (pos + 2)).take d.args.length = d.args := by
      rw [hdrop2, List.take_left]
    have hdrop3 : buf.drop (pos + 2 + d.args.length) = d.delayMs.toList ++ encode ds ++ 0 :: rest := by
      rw [← List.drop_drop, hdrop2, List.drop_left]
    rw [sendCmdSeqLoop_step buf fuel pos d.opcode d.argLenAndFlags m h0 hd.1 h1 hin, hlen]
    cases hdel : d.delayMs with
    | none =>
      have hflag : d.argLenAndFlags &&& DELAY = 0 := by
        simp [Descriptor.argLenAndFlags, hdel, DELAY, hbits.2.2.2]
      simp only [hflag, ne_eq, not_true_eq_false, ↓reduceIte]
      rw [hdel] at hdrop3
      obtain ⟨m1, r, hrun, htr, hpal, hrd, hr⟩ :=
        ih fuel (pos + 2 + d.args.length) (afterCmd m buf pos d.opcode d.args.length) hds
          (by simpa using hdrop3) (by simp at hfuel; omega)
      refine ⟨m1, [pos, pos, pos + 1] ++ (List.range d.args.length).map (fun k => pos + 2 + k) ++ r,
        hrun, ?_, ?_, ?_, ?_⟩
      · rw [htr]; simp [afterCmd, hargs, Descriptor.events, hdel]
      · rw [hpal]; rfl
      · rw [hrd]; simp [afterCmd]
      · intro i hi
        rw [encode_cons, hdel]
        simp only [List.mem_append, List.mem_cons, List.mem_map, List.mem_range,
          List.not_mem_nil, or_false] at hi
        simp only [List.length_cons, List.length_append, Option.toList, List.length_nil]
        rcases hi with ((h | h | h) | ⟨k, hk, rfl⟩) | h
        · omega
        · omega
        · omega
        · omega
        · have := hr i h; omega
    | some ms =>
      have hflag : d.argLenAndFlags &&& DELAY ≠ 0 := by
        simp only [Descriptor.argLenAndFlags, hdel, DELAY, Option.isSome_some, ↓reduceIte]
        exact hbits.2.1
      simp only [hflag, ne_eq, not_false_eq_true, ↓reduceIte]
      rw [hdel] at hdrop3
      have h2 : buf[pos + 2 + d.args.length]? = some ms := by
        have := List.getElem?_drop buf (pos + 2 + d.args.length) 0
        rw [hdrop3] at this
        simpa using this.symm
      have hdrop4 : buf.drop (pos + 2 + d.args.length + 1) = encode ds ++ 0 :: rest := by
        rw [← List.drop_drop, hdrop3]; simp
      rw [bind_ok (readTable_run buf _ ms _ h2)]
      have hemit : ∀ m2 : Machine, emit (.delay ms) m2
          = .ok () { m2 with trace := m2.trace ++ [.delay ms] } := fun _ => rfl
      rw [bind_ok (hemit _)]
      obtain ⟨m1, r, hrun, htr, hpal, hrd, hr⟩ :=
        ih fuel (pos + 2 + d.args.length + 1) _ hds hdrop4 (by simp at hfuel; omega)
      refine ⟨m1, [pos, pos, pos + 1] ++ (List.range d.args.length).map (fun k => pos + 2 + k)
        ++ [pos + 2 + d.args.length] ++ r, hrun, ?_, ?_, ?_, ?_⟩
      · rw [htr]; simp [afterCmd, hargs, Descriptor.events, hdel]
      · rw [hpal]; rfl
      · rw [hrd]; simp [afterCmd]
      · intro i hi
        rw [encode_cons, hdel]
        simp only [List.mem_append, List.mem_cons, List.mem_map, List.mem_range,
          List.not_mem_nil, or_false] at hi
        simp only [List.length_cons, List.length_append, Option.toList, List.length_nil]
        rcases hi with (((h | h | h) | ⟨k, hk, rfl⟩) | h) | h
        · omega
        · omega
        · omega
        · omega
        · omega
        · have := hr i h; omega

theorem Lines.run_append (l : Lines) (a b : List Event) :
    l.run (a ++ b) = (l.run a).run b := by
  simp [Lines.run, List.foldl_append]

theorem sentBytes_append (a b : List Event) : ∀ l : Lines,
    sentBytes l (a ++ b) = sentBytes l a ++ sentBytes (l.run a) b := by
  induction a with
  | nil => intro l; simp [sentBytes, Lines.run]
  | cons e es ih =>
    intro l
    simp [sentBytes, ih, Lines.run]

theorem spiBytes_append (a b : List Event) :
    spiBytes (a ++ b) = spiBytes a ++ spiBytes b := by
  induction a with
  | nil => simp [spiBytes]
  | cons e es ih => cases e <;> simp [spiBytes, ih]

theorem spiBytes_sends (bs : List Nat) : spiBytes (bs.map Event.spi_send) = bs := by
  induction bs with
  | nil => simp [spiBytes]
  | cons b bs ih => simp [spiBytes, ih]

theorem Lines.run_sends (l : Lines) (bs : List Nat) : l.run (bs.map Event.spi_send) = l := by
  induction bs with
  | nil => simp [Lines.run]
  | cons b bs ih => simpa [Lines.run, Lines.step] using ih

theorem sentBytes_sends (l : Lines) (bs : List Nat) :
    sentBytes l (bs.map Event.spi_send)
      = bs.map (fun b => { byte := b, cs := l.cs, dc := l.dc }) := by
  induction bs with
  | nil => simp [sentBytes]
  | cons b bs ih => simp [sentBytes, Lines.step, ih]

theorem spiBytes_frame (op : Nat) (args : List Nat) : spiBytes (frame op args) = op :: args := by
  simp [frame, spiBytes, spiBytes_append, spiBytes_sends, dcLow, csLow, dcHigh, csHigh]

theorem testBit_cs : Nat.testBit 4096 12 = true := by decide

theorem testBit_dc : Nat.testBit 32 5 = true := by decide

theorem Lines.run_frame (l : Lines) (op : Nat) (args : List Nat) :
    l.run (frame op args) = { cs := true, dc := true } := by
  have h1 : ∀ l : Lines, l.run [dcLow, csLow, .spi_send op, dcHigh]
      = { cs := false, dc := true } := by
    intro l; cases l; simp [Lines.run, Lines.step, dcLow, csLow, dcHigh, testBit_cs, testBit_dc]
  rw [frame, Lines.run_append, Lines.run_append, h1, Lines.run_sends]
  simp [Lines.run, Lines.step, csHigh, testBit_cs]

theorem sentBytes_frame (l : Lines) (op : Nat) (args : List Nat) :
    sentBytes l (frame op args)
      = { byte := op, cs := false, dc := false }
        :: args.map (fun b => { byte := b, cs := false, dc := true }) := by
  have h1 : ∀ l : Lines, l.run [dcLow, csLow, .spi_send op, dcHigh]
      = { cs := false, dc := true } := by
    intro l; cases l; simp [Lines.run, Lines.step, dcLow, csLow, dcHigh, testBit_cs, testBit_dc]
  have h2 : ∀ l : Lines, sentBytes l [dcLow, csLow, .spi_send op, dcHigh]
      = [{ byte := op, cs := false, dc := false }] := by
    intro l; cases l; simp [sentBytes, Lines.step, dcLow, csLow, dcHigh, testBit_cs, testBit_dc]
  rw [frame, sentBytes_append, sentBytes_append, h2, Lines.run_append, h1, Lines.run_sends,
    sentBytes_sends]
  simp [sentBytes, csHigh]

theorem count_csLow_events (d : Descriptor) : d.events.count csLow = 1 := by
  have h1 : (d.args.map Event.spi_send).count csLow = 0 := by
    rw [List.count_eq_zero]; simp [csLow]
  have h2 : (d.delayMs.toList.map Event.delay).count csLow = 0 := by
    rw [List.count_eq_zero]; simp [csLow]
  simp only [csLow] at h1 h2
  simp [Descriptor.events, frame, List.count_append, List.count_cons, h1, h2,
    dcLow, csLow, dcHigh, csHigh]

theorem count_csHigh_events (d : Descriptor) : d.events.count csHigh = 1 := by
  have h1 : (d.args.map Event.spi_send).count csHigh = 0 := by
    rw [List.count_eq_zero]; simp [csHigh]
  have h2 : (d.delayMs.toList.map Event.delay).count csHigh = 0 := by
    rw [List.count_eq_zero]; simp [csHigh]
  simp only [csHigh] at h1 h2
  simp [Descriptor.events, frame, List.count_append, List.count_cons, h1, h2,
    dcLow, csLow, dcHigh, csHigh]

theorem count_flatMap_events (e : Event) (ds : List Descriptor)
    (h : ∀ d : Descriptor, d.events.count e = 1) :
    (ds.flatMap Descriptor.events).count e = ds.length := by
  induction ds with
  | nil => simp
  | cons d ds ih => simp [List.flatMap_cons, List.count_append, h d, ih]; omega

theorem length_le_encode (ds : List Descriptor) : ds.length ≤ (encode ds).length := by
  induction ds with
  | nil => simp
  | cons d ds ih => rw [encode_cons]; simp; omega

theorem bytes_cmdBuf (m : Machine) (n : Nat) :
    BufPtr.bytes .cmdBuf m (n + 1) = m.cmdBuf 0 :: stagedArgs m.cmdBuf n := by
  simp [BufPtr.bytes, stagedArgs, List.range_succ_eq_map, Nat.add_comm 1]

theorem bytes_stack (bs : List Nat) (m : Machine) (n : Nat) (h : n + 1 ≤ bs.length) :
    BufPtr.bytes (.stack bs) m (n + 1) = bs.getD 0 0 :: (bs.drop 1).take n := by
  cases bs with
  | nil => simp at h
  | cons b bs => simp [BufPtr.bytes]

theorem sendCmd_stack_full (op : Nat) (args : List Nat) (len : Int) (m : Machine)
    (h : args.length + 1 ≤ CMDBUF_SIZE) (hl : len = (args.length : Int) + 1) :
    sendCmd (.stack (op :: args)) len m = .ok ()
      { m with cmdBuf := copied m.cmdBuf (op :: args) 0 0 (args.length + 1),
               trace := m.trace ++ frame op args } := by
  subst hl
  rw [sendCmd_stack_run (op :: args) args.length m h (by simp)]
  simp

theorem sendCmd_stack_cut (op : Nat) (args : List Nat) (n : Nat) (len : Int) (m : Machine)
    (h : n + 1 ≤ CMDBUF_SIZE) (hn : n ≤ args.length) (hl : len = (n : Int) + 1) :
    sendCmd (.stack (op :: args)) len m = .ok ()
      { m with cmdBuf := copied m.cmdBuf (op :: args) 0 0 (n + 1),
               trace := m.trace ++ frame op (args.take n) } := by
  subst hl
  rw [sendCmd_stack_run (op :: args) n m h (by simp; omega)]
  simp

theorem setAddrWindow_run (x y w h : Int) (m : Machine) :
    ∃ m1, setAddrWindow x y w h m = .ok () m1 ∧
      m1.trace = m.trace ++ frame ST7735_CASET [0, toU8 y, 0, toU8 (y + h - 1)]
        ++ frame ST7735_RASET [0, toU8 x, 0, toU8 (x + w - 1)] ∧
      m1.palXOR = m.palXOR ∧ m1.reads = m.reads := by
  unfold setAddrWindow
  rw [bind_ok (sendCmd_stack_full _ _ 5 m (by simp [CMDBUF_SIZE]) (by simp))]
  rw [sendCmd_stack_full _ _ 5 _ (by simp [CMDBUF_SIZE]) (by simp)]
  exact ⟨_, rfl, by simp, rfl, rfl⟩

theorem and_255 (x : Nat) : x &&& 0xFF = x % 256 :=
  Nat.and_pow_two_sub_one_eq_mod x 8

theorem configure_run (madctl t : Nat) (m : Machine) :
    ∃ m1, configure madctl t m = .ok () m1 ∧
      m1.trace = m.trace ++ frame ST7735_MADCTL [madctl]
        ++ frame ST7735_FRMCTR1
            (if t % 256 = 0xff then [(t >>> 16) % 256, (t >>> 8) % 256]
             else [(t >>> 16) % 256, (t >>> 8) % 256, t % 256]) ∧
      m1.palXOR = m.palXOR ∧ m1.reads = m.reads := by
  unfold configure
  rw [bind_ok (sendCmd_stack_full _ _ 2 m (by simp [CMDBUF_SIZE]) (by simp))]
  by_cases hff : t % 256 = 0xff
  · rw [if_pos hff, if_pos hff]
    rw [sendCmd_stack_cut _ _ 2 3 _ (by simp [CMDBUF_SIZE]) (by simp) (by simp)]
    exact ⟨_, rfl, by simp, rfl, rfl⟩
  · rw [if_neg hff, if_neg hff]
    rw [sendCmd_stack_full _ _ 4 _ (by simp [CMDBUF_SIZE]) (by simp)]
    exact ⟨_, rfl, by simp, rfl, rfl⟩

theorem commandBytes_frames (l : Lines) (op1 : Nat) (args1 : List Nat) (op2 : Nat)
    (args2 : List Nat) : commandBytes l (frame op1 args1 ++ frame op2 args2) = [op1, op2] := by
  simp [commandBytes, sentBytes_append, sentBytes_frame, List.filter_cons, List.filter_map,
    Function.comp_def]

theorem emit_run (e : Event) (m : Machine) :
    emit e m = .ok () { m with trace := m.trace ++ [e] } := rfl

theorem stripeRows_run (color : Nat) (h : Nat) : ∀ m : Machine,
    stripeRows color h m = .ok ()
      { m with trace := m.trace ++ ((List.range (2 * h)).map
          (fun k => Event.spi_send (if k % 2 = 0 then color >>> 8 else color &&& 0xff))) } := by
  induction h with
  | zero => intro m; simp [stripeRows, pure_run]
  | succ h ih =>
    intro m
    rw [stripeRows, bind_ok (emit_run _ _), bind_ok (emit_run _ _), ih]
    have h2 : 2 * (h + 1) = 2 + 2 * h := by omega
    have r2 : List.range 2 = [0, 1] := rfl
    rw [h2, List.range_add, r2]
    simp [List.map_map, Function.comp_def, Nat.add_mod]

theorem stripeCols_run (h : Nat) (n : Nat) : ∀ (i : Nat) (m : Machine),
    stripeCols h n i m = .ok ()
      { m with trace := m.trace ++ ((List.range (n * (2 * h))).map
          (fun k => Event.spi_send (pixelByte h (i * (2 * h) + k)))) } := by
  induction n with
  | zero => intro i m; simp [stripeCols, pure_run]
  | succ n ih =>
    intro i m
    rw [stripeCols, bind_ok (stripeRows_run _ h m), ih]
    have h2 : (n + 1) * (2 * h) = 2 * h + n * (2 * h) := by ring
    rw [h2, List.range_add]
    simp only [List.map_append, List.map_map, List.append_assoc]
    congr 3
    refine congrArg₂ (· ++ ·) ?_ ?_
    · apply List.map_congr_left
      intro k hk
      have hk2 : k < 2 * h := List.mem_range.mp hk
      have hdiv : (i * (2 * h) + k) / (2 * h) = i := by
        rw [Nat.add_comm, Nat.add_mul_div_right _ _ (by omega), Nat.div_eq_of_lt hk2]
        simp
      have hmod : (i * (2 * h) + k) % 2 = k % 2 := by
        have : i * (2 * h) = 2 * (i * h) := by ring
        omega
      simp only [pixelByte, hdiv, hmod]
    · apply List.map_congr_left
      intro k _
      simp only [Function.comp_def]
      congr 2
      ring

theorem sendCmd_cmdBuf_one (m : Machine) :
    sendCmd .cmdBuf 1 m = .ok () { m with trace := m.trace ++ frame (m.cmdBuf 0) [] } := by
  have h := sendCmd_cmdBuf_run 0 m
  simpa [stagedArgs] using h

theorem drawStripes_run (w h : Nat) (m : Machine) :
    ∃ m1, drawStripes w h m = .ok () m1 ∧
      m1.trace = m.trace ++ frame ST7735_RAMWR [] ++ [dcHigh, csLow] ++ pixelEvents w h
        ++ [csHigh] ∧
      m1.palXOR = m.palXOR ∧ m1.reads = m.reads := by
  unfold drawStripes
  have hstore : storeCmdBuf 0 ST7735_RAMWR m
      = .ok () { m with cmdBuf := fun k => if k = 0 then ST7735_RAMWR else m.cmdBuf k } := by
    simp [storeCmdBuf, CMDBUF_SIZE]
  rw [bind_ok hstore, bind_ok (sendCmd_cmdBuf_one _),
    bind_ok (SET_DC_high _), bind_ok (SET_CS_low _), bind_ok (stripeCols_run h w 0 _),
    SET_CS_high]
  refine ⟨_, rfl, ?_, rfl, rfl⟩
  simp [pixelEvents]

theorem pixelEvents_getElem? (w h k : Nat) (hk : k < w * (2 * h)) :
    (pixelEvents w h)[k]? = some (.spi_send (pixelByte h k)) := by
  simp [pixelEvents, List.getElem?_range hk]

theorem pixelEvents_eq_sends (w h : Nat) :
    pixelEvents w h = ((List.range (w * (2 * h))).map (pixelByte h)).map Event.spi_send := by
  simp [pixelEvents, List.map_map, Function.comp_def]

theorem pixelByte_high (i j : Nat) (hi : i < 160) (hj : j < 128) :
    pixelByte 128 (2 * (i * 128 + j)) = 2 * i / 256 := by
  have h0 : 2 * (i * 128 + j) % 2 = 0 := by omega
  have h1 : 2 * (i * 128 + j) / (2 * 128) = i := by omega
  have h2 : i * 2 % 65536 = 2 * i := by omega
  rw [pixelByte, if_pos h0, h1, h2, Nat.shiftRight_eq_div_pow]

theorem pixelByte_low (i j : Nat) (hi : i < 160) (hj : j < 128) :
    pixelByte 128 (2 * (i * 128 + j) + 1) = 2 * i % 256 := by
  have h0 : ¬ ((2 * (i * 128 + j) + 1) % 2 = 0) := by omega
  have h1 : (2 * (i * 128 + j) + 1) / (2 * 128) = i := by omega
  have h2 : i * 2 % 65536 = 2 * i := by omega
  rw [pixelByte, if_neg h0, h1, h2, and_255]

theorem sentBytes_window (l : Lines) (bs : List Nat) :
    sentBytes l ([dcHigh, csLow] ++ bs.map Event.spi_send ++ [csHigh])
      = bs.map (fun b => { byte := b, cs := false, dc := true }) := by
  have h1 : l.run [dcHigh, csLow] = { cs := false, dc := true } := by
    cases l; simp [Lines.run, Lines.step, dcHigh, csLow, testBit_cs, testBit_dc]
  have h2 : sentBytes l [dcHigh, csLow] = [] := by
    simp [sentBytes, dcHigh, csLow]
  rw [sentBytes_append, sentBytes_append, h2, h1, sentBytes_sends]
  simp [sentBytes, csHigh]

theorem count_sends_zero (e : Event) (bs : List Nat) (h : ∀ b, e ≠ .spi_send b) :
    (bs.map Event.spi_send).count e = 0 := by
  rw [List.count_eq_zero]
  intro hmem
  obtain ⟨b, _, hb⟩ := List.mem_map.mp hmem
  exact h b hb.symm

theorem Emits.seq {α β : Type} {x : Exec α} {f : α → Exec β} {e1 e2 : List Event}
    (hx : Emits x e1) (hf : ∀ a, Emits (f a) e2) : Emits (x >>= f) (e1 ++ e2) := by
  intro m
  obtain ⟨a, m1, h1, t1⟩ := hx m
  obtain ⟨b, m2, h2, t2⟩ := hf a m1
  exact ⟨b, m2, by rw [bind_ok h1, h2], by rw [t2, t1, List.append_assoc]⟩

theorem emits_pure {α : Type} (a : α) : Emits (pure a : Exec α) [] :=
  fun m => ⟨a, m, rfl, by simp⟩

theorem emits_emit (e : Event) : Emits (emit e) [e] :=
  fun _ => ⟨(), _, rfl, rfl⟩

theorem emits_storePalXOR (v : Nat) : Emits (storePalXOR v) [] :=
  fun m => ⟨(), _, rfl, by simp⟩

theorem append_two (t : List Event) (a b : Event) : t ++ [a] ++ [b] = t ++ [a, b] := by
  simp

theorem append_three (t : List Event) (a b c : Event) :
    t ++ [a] ++ [b] ++ [c] = t ++ [a, b, c] := by
  simp

theorem emits_setup_SCK : Emits (setup_pin PIN_DISPLAY_SCK GPIO_MODE_AF)
    [.gpio_mode_setup .GPIOB 2 0 0x2000, .gpio_set_output_options .GPIOB 0 2 0x2000,
     .gpio_set_af .GPIOB 5 0x2000] :=
  fun m => ⟨(), _, rfl, append_three m.trace _ _ _⟩

theorem emits_setup_MISO : Emits (setup_pin PIN_DISPLAY_MISO GPIO_MODE_AF)
    [.gpio_mode_setup .GPIOB 2 0 0x4000, .gpio_set_af .GPIOB 5 0x4000] :=
  fun m => ⟨(), _, rfl, append_two m.trace _ _⟩

theorem emits_setup_MOSI : Emits (setup_pin PIN_DISPLAY_MOSI GPIO_MODE_AF)
    [.gpio_mode_setup .GPIOB 2 0 0x8000, .gpio_set_output_options .GPIOB 0 2 0x8000,
     .gpio_set_af .GPIOB 5 0x8000] :=
  fun m => ⟨(), _, rfl, append_three m.trace _ _ _⟩

theorem emits_setup_BL : Emits (setup_pin PIN_DISPLAY_BL GPIO_MODE_OUTPUT)
    [.gpio_mode_setup .GPIOA 1 0 0x10, .gpio_set_output_options .GPIOA 0 2 0x10] :=
  fun m => ⟨(), _, rfl, append_two m.trace _ _⟩

theorem emits_setup_DC : Emits (setup_pin PIN_DISPLAY_DC GPIO_MODE_OUTPUT)
    [.gpio_mode_setup .GPIOC 1 0 0x20, .gpio_set_output_options .GPIOC 0 2 0x20] :=
  fun m => ⟨(), _, rfl, append_two m.trace _ _⟩

theorem emits_setup_RST : Emits (setup_pin PIN_DISPLAY_RST GPIO_MODE_OUTPUT)
    [.gpio_mode_setup .GPIOC 1 0 0x10, .gpio_set_output_options .GPIOC 0 2 0x10] :=
  fun m => ⟨(), _, rfl, append_two m.trace _ _⟩

theorem emits_setup_CS : Emits (setup_pin PIN_DISPLAY_CS GPIO_MODE_OUTPUT)
    [.gpio_mode_setup .GPIOB 1 0 0x1000, .gpio_set_output_options .GPIOB 0 2 0x1000] :=
  fun m => ⟨(), _, rfl, append_two m.trace _ _⟩

theorem emits_SET_CS_high : Emits (SET_CS 1) [csHigh] := fun _ => ⟨(), _, rfl, rfl⟩

theorem emits_SET_DC_high : Emits (SET_DC 1) [dcHigh] := fun _ => ⟨(), _, rfl, rfl⟩

theorem emits_RST_low : Emits (pin_set PIN_DISPLAY_RST 0) [.gpio_clear .GPIOC 0x10] :=
  fun _ => ⟨(), _, rfl, rfl⟩

theorem emits_RST_high : Emits (pin_set PIN_DISPLAY_RST 1) [.gpio_set .GPIOC 0x10] :=
  fun _ => ⟨(), _, rfl, rfl⟩

theorem emits_BL_high : Emits (pin_set PIN_DISPLAY_BL 1) [.gpio_set .GPIOA 0x10] :=
  fun _ => ⟨(), _, rfl, rfl⟩

theorem initCmds_eq : initCmds = encode initDescs ++ [0] ++ [0] := by decide

theorem emits_initCmds : Emits (sendCmdSeq initCmds) initSeqEvents := by
  intro m
  obtain ⟨m1, r, hrun, htr, _⟩ :=
    sendCmdSeqLoop_encode initCmds [0] initDescs (initCmds.length + 1) 0 m
      (by decide) (by rw [initCmds_eq]; simp) (by decide)
  exact ⟨(), m1, hrun, htr⟩

theorem emits_configure (madctl t : Nat) : Emits (configure madctl t)
    (frame ST7735_MADCTL [madctl]
        ++ frame ST7735_FRMCTR1
            (if t % 256 = 0xff then [(t >>> 16) % 256, (t >>> 8) % 256]
             else [(t >>> 16) % 256, (t >>> 8) % 256, t % 256])) := by
  intro m
  obtain ⟨m1, hrun, htr, _⟩ := configure_run madctl t m
  exact ⟨(), m1, hrun, by rw [htr, List.append_assoc]⟩

theorem emits_setAddrWindow (x y w h : Int) : Emits (setAddrWindow x y w h)
    (frame ST7735_CASET [0, toU8 y, 0, toU8 (y + h - 1)]
        ++ frame ST7735_RASET [0, toU8 x, 0, toU8 (x + w - 1)]) := by
  intro m
  obtain ⟨m1, hrun, htr, _⟩ := setAddrWindow_run x y w h m
  exact ⟨(), m1, hrun, by rw [htr, List.append_assoc]⟩

theorem emits_draw_stripes : Emits draw_stripes fillEvents := by
  intro m
  obtain ⟨m1, hrun, htr, _⟩ := drawStripes_run DISPLAY_WIDTH DISPLAY_HEIGHT m
  exact ⟨(), m1, hrun, by rw [htr]; simp [fillEvents, ST7735_RAMWR]⟩

theorem emits_screen_init : Emits screen_init bringUpEvents := by
  have key : ∃ es, Emits screen_init es ∧ es = bringUpEvents := by
    apply Exists.intro
    apply And.intro
    case left =>
      unfold screen_init
      apply Emits.seq (emits_emit _); intro _
      apply Emits.seq (emits_emit _); intro _
      apply Emits.seq (emits_emit _); intro _
      apply Emits.seq (emits_emit _); intro _
      apply Emits.seq emits_setup_SCK; intro _
      apply Emits.seq emits_setup_MISO; intro _
      apply Emits.seq emits_setup_MOSI; intro _
      apply Emits.seq emits_setup_BL; intro _
      apply Emits.seq emits_setup_DC; intro _
      apply Emits.seq emits_setup_RST; intro _
      apply Emits.seq emits_setup_CS; intro _
      apply Emits.seq (emits_emit _); intro _
      apply Emits.seq emits_SET_CS_high; intro _
      apply Emits.seq emits_SET_DC_high; intro _
      apply Emits.seq (emits_emit _); intro _
      apply Emits.seq emits_initCmds; intro _
      have hrst : PIN_DISPLAY_RST ≠ -1 := by decide
      have hbl : PIN_DISPLAY_BL ≠ -1 := by decide
      dsimp only
      rw [if_pos hrst]
      apply Emits.seq emits_RST_low; intro _
      apply Emits.seq (emits_emit _); intro _
      apply Emits.seq emits_RST_high; intro _
      apply Emits.seq (emits_emit _); intro _
      rw [if_pos hbl]
      apply Emits.seq emits_BL_high; intro _
      apply Emits.seq (emits_storePalXOR _); intro _
      apply Emits.seq (emits_emit _); intro _
      apply Emits.seq (emits_configure _ _); intro _
      apply Emits.seq (emits_setAddrWindow _ _ _ _); intro _
      exact emits_draw_stripes
    case right =>
      have hdm : Event.dmesg DISPLAY_CFG1 (DISPLAY_CFG0 &&& 255) (DISPLAY_CFG2 &&& 255)
          = .dmesg 0x603 0x80 22 := by decide
      have hcfg : frame ST7735_MADCTL [DISPLAY_CFG0 &&& 255]
          ++ frame ST7735_FRMCTR1
            (if DISPLAY_CFG1 % 256 = 255 then
              [DISPLAY_CFG1 >>> 16 % 256, DISPLAY_CFG1 >>> 8 % 256]
            else [DISPLAY_CFG1 >>> 16 % 256, DISPLAY_CFG1 >>> 8 % 256, DISPLAY_CFG1 % 256])
          = configEvents := by decide
      have hwin : frame ST7735_CASET
            [0, toU8 ((DISPLAY_CFG0 >>> 16 &&& 255 : Nat) : Int), 0,
              toU8 (((DISPLAY_CFG0 >>> 16 &&& 255 : Nat) : Int) + (DISPLAY_HEIGHT : Int) - 1)]
          ++ frame ST7735_RASET
            [0, toU8 ((DISPLAY_CFG0 >>> 8 &&& 255 : Nat) : Int), 0,
              toU8 (((DISPLAY_CFG0 >>> 8 &&& 255 : Nat) : Int) + (DISPLAY_WIDTH : Int) - 1)]
          = windowEvents := by decide
      rw [hdm, hcfg, hwin]
      simp only [bringUpEvents, clockEvents, pinSetupEvents, resetEvents, backlightEvents,
        List.append_assoc, List.cons_append, List.nil_append, List.singleton_append]
  obtain ⟨es, h, rfl⟩ := key
  exact h

theorem pinport_halts (pin : Int) (m : Machine)
    (h0 : pin >>> (4 : Nat) ≠ 0) (h1 : pin >>> (4 : Nat) ≠ 1) (h2 : pin >>> (4 : Nat) ≠ 2) :
    pinport pin m = .halt m := by
  simp [pinport, h0, h1, h2, panic]

theorem bind_congr_run {α β : Type} {x : Exec α} {f g : α → Exec β} {m : Machine}
    (h : ∀ a m1, x m = .ok a m1 → f a m1 = g a m1) : (x >>= f) m = (x >>= g) m := by
  simp only [bind_run, Exec.bind]
  cases hx : x m with
  | ok a m1 => exact h a m1 hx
  | halt m1 => rfl
  | fault m1 => rfl

theorem readTable_ok_lt {buf : List Nat} {i b : Nat} {m m1 : Machine}
    (h : readTable buf i m = .ok b m1) : i < buf.length := by
  unfold readTable at h
  cases hb : buf[i]? with
  | none => simp [hb] at h
  | some v => exact (List.getElem?_eq_some.mp hb).1

/-- The count of rounds given to the loop of `sendCmdSeq` is never used up:
from `pos`, more than `(buf.length - pos) / 2` rounds are as good as any
larger number. -/
theorem sendCmdSeqLoop_fuel (buf : List Nat) (fuel : Nat) : ∀ (pos : Nat) (m : Machine),
    buf.length < pos + 2 * fuel →
    sendCmdSeqLoop buf (fuel + 1) pos m = sendCmdSeqLoop buf fuel pos m := by
  induction fuel with
  | zero =>
    intro pos m h
    have hnone : buf[pos]? = none := List.getElem?_eq_none (by omega)
    simp [sendCmdSeqLoop, bind_run, Exec.bind, readTable, hnone, fault]
  | succ fuel ih =>
    intro pos m h
    rw [sendCmdSeqLoop, sendCmdSeqLoop]
    apply bind_congr_run; intro c m1 _
    split
    · apply bind_congr_run; intro op m2 _
      apply bind_congr_run; intro _ m3 _
      apply bind_congr_run; intro v m4 hv
      have hlt := readTable_ok_lt hv
      apply bind_congr_run; intro _ m5 _
      apply bind_congr_run; intro _ m6 _
      split
      · apply bind_congr_run; intro d m7 _
        apply bind_congr_run; intro _ m8 _
        exact ih _ _ (by omega)
      · exact ih _ _ (by omega)
    · rfl

/-- Any count of rounds above the one `sendCmdSeq` starts with gives the same
run. -/
theorem sendCmdSeq_fuel_free (buf : List Nat) (k : Nat) (m : Machine) :
    sendCmdSeqLoop buf (buf.length + 1 + k) 0 m = sendCmdSeq buf m := by
  induction k with
  | zero => rfl
  | succ k ih =>
    rw [← ih]
    exact sendCmdSeqLoop_fuel buf (buf.length + 1 + k) 0 m (by omega)

theorem pinport_pure (pin : Int) (port : Port) (m m1 : Machine)
    (h : pinport pin m = .ok port m1) : ∀ m2 : Machine, pinport pin m2 = .ok port m2 := by
  intro m2
  unfold pinport at h ⊢
  split
  · rename_i h0; simp only [h0, ↓reduceIte] at h; cases h; rfl
  · split
    · rename_i h0 h1; simp only [h0, h1, ↓reduceIte] at h; cases h; rfl
    · split
      · rename_i h0 h1 h2; simp only [h0, h1, h2, ↓reduceIte] at h; cases h; rfl
      · rename_i h0 h1 h2; simp only [h0, h1, h2, ↓reduceIte] at h; cases h

theorem pinport_known (pin : Int) (port : Port) (m m1 : Machine)
    (h : pinport pin m = .ok port m1) : 0 ≤ pin ∧ pin < 48 := by
  have hs := Int.shiftRight_eq_div_pow pin 4
  unfold pinport at h
  split at h
  · rename_i h0; rw [hs] at h0; norm_num at h0; omega
  · split at h
    · rename_i h0 h1; rw [hs] at h1; norm_num at h1; omega
    · split at h
      · rename_i h0 h1 h2; rw [hs] at h2; norm_num at h2; omega
      · cases h

theorem pinmask_eq (pin : Int) : pinmask pin = 2 ^ (pin % 16).toNat := by
  have h : (pin % 16).toNat < 16 := by omega
  unfold pinmask
  rw [Nat.shiftLeft_eq, Nat.one_mul]
  apply Nat.mod_eq_of_lt
  calc 2 ^ (pin % 16).toNat < 2 ^ 16 := Nat.pow_lt_pow_right (by decide) h
    _ = 65536 := by norm_num

theorem pin_set_run (pin v : Int) (port : Port) (m : Machine)
    (hp : pinport pin m = .ok port m) :
    pin_set pin v m = .ok ()
      { m with trace := m.trace
          ++ [if v ≠ 0 then Event.gpio_set port (pinmask pin)
              else Event.gpio_clear port (pinmask pin)] } := by
  unfold pin_set
  split
  · rw [bind_ok hp]; rfl
  · rw [bind_ok hp]; rfl

theorem setup_pin_run (pin mode : Int) (port : Port) (m : Machine)
    (hp : pinport pin m = .ok port m) :
    setup_pin pin mode m = .ok ()
      { m with trace := m.trace
          ++ [Event.gpio_mode_setup port (toU8 mode) GPIO_PUPD_NONE (pinmask pin)]
          ++ (if pin ≠ PIN_DISPLAY_MISO then
                [Event.gpio_set_output_options port GPIO_OTYPE_PP GPIO_OSPEED_50MHZ (pinmask pin)]
              else [])
          ++ (if mode = GPIO_MODE_AF then [Event.gpio_set_af port SPI_AF (pinmask pin)]
              else []) } := by
  unfold setup_pin
  rw [bind_ok hp, bind_ok (emit_run _ _)]
  by_cases h1 : pin ≠ PIN_DISPLAY_MISO <;> by_cases h2 : mode = GPIO_MODE_AF
  · simp only [h1, h2, ↓reduceIte, ne_eq, not_false_eq_true]
    rw [bind_ok (emit_run _ _), emit_run]
  · simp only [h1, h2, ↓reduceIte, ne_eq, not_false_eq_true]
    rw [bind_ok (emit_run _ _), pure_run]
    simp
  · simp only [h1, h2, ↓reduceIte]
    rw [bind_ok (pure_run _ _), emit_run]
    simp
  · simp only [h1, h2, ↓reduceIte]
    rw [bind_ok (pure_run _ _), pure_run]
    simp

theorem sendCmd_frame (buf : BufPtr) (len : Nat) (m : Machine)
    (h1 : 1 ≤ len) (hint : len ≤ 2147483647) (hsz : (buf.bytes m len).length = len) :
    ∃ m1, sendCmd buf (len : Int) m = .ok () m1 ∧
      m1.trace = m.trace ++ frame ((buf.bytes m len).headD 0) (buf.bytes m len).tail ∧
      m1.palXOR = m.palXOR ∧ m1.reads = m.reads := by
  obtain ⟨n, rfl⟩ : ∃ n, len = n + 1 := ⟨len - 1, by omega⟩
  have hc : ((n + 1 : Nat) : Int) = (n : Int) + 1 := by push_cast; rfl
  rw [hc]
  cases buf with
  | cmdBuf =>
    rw [bytes_cmdBuf]
    exact ⟨_, sendCmd_cmdBuf_run n m, rfl, rfl, rfl⟩
  | stack bs =>
    have hb : n + 1 ≤ bs.length := by
      simp [BufPtr.bytes] at hsz
      omega
    rw [bytes_stack bs m n hb]
    exact ⟨_, sendCmd_stack_wide bs n m hint hb, rfl, rfl, rfl⟩

theorem initSeqEvents_eq :
    initSeqEvents
      = frame 0x01 [] ++ [.delay 120] ++ frame 0x11 [] ++ [.delay 120] ++ frame 0x20 []
        ++ frame 0x3A [0x05]
        ++ frame 0xE0 [0x02, 0x1c, 0x07, 0x12, 0x37, 0x32, 0x29, 0x2d,
                       0x29, 0x25, 0x2B, 0x39, 0x00, 0x01, 0x03, 0x10]
        ++ frame 0xE1 [0x03, 0x1d, 0x07, 0x06, 0x2E, 0x2C, 0x29, 0x2D,
                       0x2E, 0x2E, 0x37, 0x3F, 0x00, 0x00, 0x02, 0x10]
        ++ frame 0x13 [] ++ [.delay 10] ++ frame 0x29 [] ++ [.delay 10] := by
  decide

theorem commandBytes_append (l : Lines) (a b : List Event) :
    commandBytes l (a ++ b) = commandBytes l a ++ commandBytes (l.run a) b := by
  simp [commandBytes, sentBytes_append]

theorem commandBytes_initSeq (l : Lines) :
    commandBytes l initSeqEvents = [0x01, 0x11, 0x20, 0x3A, 0xE0, 0xE1, 0x13, 0x29] := by
  rcases l with ⟨_ | _, _ | _⟩ <;> decide

theorem bringUpEvents_split : bringUpEvents = bringUpHead ++ fillEvents := rfl

theorem commandBytes_head (l : Lines) :
    commandBytes l bringUpHead
      = [0x01, 0x11, 0x20, 0x3A, 0xE0, 0xE1, 0x13, 0x29, 0x36, 0xB1, 0x2A, 0x2B] := by
  rcases l with ⟨_ | _, _ | _⟩ <;> decide

theorem commandBytes_frame (l : Lines) (op : Nat) (args : List Nat) :
    commandBytes l (frame op args) = [op] := by
  simp [commandBytes, sentBytes_frame, List.filter_cons, List.filter_map, Function.comp_def]

theorem commandBytes_window (l : Lines) (bs : List Nat) :
    commandBytes l ([dcHigh, csLow] ++ bs.map Event.spi_send ++ [csHigh]) = [] := by
  rw [commandBytes, sentBytes_window]
  induction bs with
  | nil => rfl
  | cons b bs ih => simp [List.filter_cons]

theorem fillEvents_eq : fillEvents = frame 0x2C []
    ++ ([dcHigh, csLow]
      ++ ((List.range (DISPLAY_WIDTH * (2 * DISPLAY_HEIGHT))).map
            (pixelByte DISPLAY_HEIGHT)).map Event.spi_send ++ [csHigh]) := by
  rw [fillEvents, pixelEvents_eq_sends]
  simp only [List.append_assoc]

theorem commandBytes_fill (l : Lines) : commandBytes l fillEvents = [0x2C] := by
  rw [fillEvents_eq, commandBytes_append, commandBytes_frame, commandBytes_window]
  rfl

theorem bringUpEvents_at_22 : bringUpEvents[22]? = some dcHigh := by
  have h : bringUpEvents
      = (clockEvents ++ pinSetupEvents ++ [.spi_init_master] ++ [csHigh, dcHigh])
        ++ ([.delay 10] ++ initSeqEvents ++ resetEvents ++ backlightEvents
            ++ [.dmesg 0x603 0x80 22] ++ configEvents ++ windowEvents ++ fillEvents) := by
    simp only [bringUpEvents, List.append_assoc]
  rw [h, List.getElem?_append_left (by decide)]
  decide

theorem listedBringUpEvents_at_22 : listedBringUpEvents[22]? = some (.delay 10) := by
  have h : listedBringUpEvents
      = (clockEvents ++ pinSetupEvents ++ [.spi_init_master] ++ [csHigh] ++ [.delay 10])
        ++ (initSeqEvents ++ resetEvents ++ backlightEvents
            ++ configEvents ++ windowEvents ++ fillEvents) := by
    simp only [listedBringUpEvents, List.append_assoc]
  rw [h, List.getElem?_append_left (by decide)]
  decide

theorem screen_init_eq :
    screen_init = screenInitWith DISPLAY_CFG0 DISPLAY_CFG2 DISPLAY_CFG1 := rfl

theorem runs_seq {α β : Type} {x : Exec α} {f : α → Exec β} {e1 e2 : List Event}
    {p1 p2 : Option Nat} (hx : Runs x e1 p1) (hf : ∀ a, Runs (f a) e2 p2) :
    Runs (x >>= f) (e1 ++ e2) (laterPal p2 p1) := by
  intro m
  obtain ⟨a, m1, h1, t1, q1⟩ := hx m
  obtain ⟨b, m2, h2, t2, q2⟩ := hf a m1
  refine ⟨b, m2, by rw [bind_ok h1, h2], by rw [t2, t1, List.append_assoc], ?_⟩
  rw [q2, q1]
  cases p2 <;> rfl

theorem runs_emit (e : Event) : Runs (emit e) [e] none :=
  fun _ => ⟨(), _, rfl, rfl, rfl⟩

theorem runs_storePalXOR (v : Nat) : Runs (storePalXOR v) [] (some v) :=
  fun m => ⟨(), _, rfl, by simp [storePalXOR], rfl⟩

theorem runs_setup_SCK : Runs (setup_pin PIN_DISPLAY_SCK GPIO_MODE_AF)
    [.gpio_mode_setup .GPIOB 2 0 0x2000, .gpio_set_output_options .GPIOB 0 2 0x2000,
     .gpio_set_af .GPIOB 5 0x2000] none :=
  fun m => ⟨(), _, rfl, append_three m.trace _ _ _, rfl⟩

theorem runs_setup_MISO : Runs (setup_pin PIN_DISPLAY_MISO GPIO_MODE_AF)
    [.gpio_mode_setup .GPIOB 2 0 0x4000, .gpio_set_af .GPIOB 5 0x4000] none :=
  fun m => ⟨(), _, rfl, append_two m.trace _ _, rfl⟩

theorem runs_setup_MOSI : Runs (setup_pin PIN_DISPLAY_MOSI GPIO_MODE_AF)
    [.gpio_mode_setup .GPIOB 2 0 0x8000, .gpio_set_output_options .GPIOB 0 2 0x8000,
     .gpio_set_af .GPIOB 5 0x8000] none :=
  fun m => ⟨(), _, rfl, append_three m.trace _ _ _, rfl⟩

theorem runs_setup_BL : Runs (setup_pin PIN_DISPLAY_BL GPIO_MODE_OUTPUT)
    [.gpio_mode_setup .GPIOA 1 0 0x10, .gpio_set_output_options .GPIOA 0 2 0x10] none :=
  fun m => ⟨(), _, rfl, append_two m.trace _ _, rfl⟩

theorem runs_setup_DC : Runs (setup_pin PIN_DISPLAY_DC GPIO_MODE_OUTPUT)
    [.gpio_mode_setup .GPIOC 1 0 0x20, .gpio_set_output_options .GPIOC 0 2 0x20] none :=
  fun m => ⟨(), _, rfl, append_two m.trace _ _, rfl⟩

theorem runs_setup_RST : Runs (setup_pin PIN_DISPLAY_RST GPIO_MODE_OUTPUT)
    [.gpio_mode_setup .GPIOC 1 0 0x10, .gpio_set_output_options .GPIOC 0 2 0x10] none :=
  fun m => ⟨(), _, rfl, append_two m.trace _ _, rfl⟩

theorem runs_setup_CS : Runs (setup_pin PIN_DISPLAY_CS GPIO_MODE_OUTPUT)
    [.gpio_mode_setup .GPIOB 1 0 0x1000, .gpio_set_output_options .GPIOB 0 2 0x1000] none :=
  fun m => ⟨(), _, rfl, append_two m.trace _ _, rfl⟩

theorem runs_SET_CS_high : Runs (SET_CS 1) [csHigh] none := fun _ => ⟨(), _, rfl, rfl, rfl⟩

theorem runs_SET_DC_high : Runs (SET_DC 1) [dcHigh] none := fun _ => ⟨(), _, rfl, rfl, rfl⟩

theorem runs_RST_low : Runs (pin_set PIN_DISPLAY_RST 0) [.gpio_clear .GPIOC 0x10] none :=
  fun _ => ⟨(), _, rfl, rfl, rfl⟩

theorem runs_RST_high : Runs (pin_set PIN_DISPLAY_RST 1) [.gpio_set .GPIOC 0x10] none :=
  fun _ => ⟨(), _, rfl, rfl, rfl⟩

theorem runs_BL_high : Runs (pin_set PIN_DISPLAY_BL 1) [.gpio_set .GPIOA 0x10] none :=
  fun _ => ⟨(), _, rfl, rfl, rfl⟩

theorem runs_initCmds : Runs (sendCmdSeq initCmds) initSeqEvents none := by
  intro m
  obtain ⟨m1, r, hrun, htr, hpal, _⟩ :=
    sendCmdSeqLoop_encode initCmds [0] initDescs (initCmds.length + 1) 0 m
      (by decide) (by rw [initCmds_eq]; simp) (by decide)
  exact ⟨(), m1, hrun, htr, hpal⟩

theorem runs_configure (madctl t : Nat) : Runs (configure madctl t)
    (frame ST7735_MADCTL [madctl]
        ++ frame ST7735_FRMCTR1
            (if t % 256 = 0xff then [(t >>> 16) % 256, (t >>> 8) % 256]
             else [(t >>> 16) % 256, (t >>> 8) % 256, t % 256])) none := by
  intro m
  obtain ⟨m1, hrun, htr, hpal, _⟩ := configure_run madctl t m
  exact ⟨(), m1, hrun, by rw [htr, List.append_assoc], hpal⟩

theorem runs_setAddrWindow (x y w h : Int) : Runs (setAddrWindow x y w h)
    (frame ST7735_CASET [0, toU8 y, 0, toU8 (y + h - 1)]
        ++ frame ST7735_RASET [0, toU8 x, 0, toU8 (x + w - 1)]) none := by
  intro m
  obtain ⟨m1, hrun, htr, hpal, _⟩ := setAddrWindow_run x y w h m
  exact ⟨(), m1, hrun, by rw [htr, List.append_assoc], hpal⟩

theorem runs_draw_stripes : Runs draw_stripes fillEvents none := by
  intro m
  obtain ⟨m1, hrun, htr, hpal, _⟩ := drawStripes_run DISPLAY_WIDTH DISPLAY_HEIGHT m
  exact ⟨(), m1, hrun, by rw [htr]; simp [fillEvents, ST7735_RAMWR], hpal⟩

theorem runs_screenInitWith (cfg0 cfg2 frmctr1 : Nat) :
    Runs (screenInitWith cfg0 cfg2 frmctr1)
      (bringUpPrelude
        ++ ([.dmesg frmctr1 (cfg0 &&& 0xff) (cfg2 &&& 0xff)]
          ++ ((frame ST7735_MADCTL [cfg0 &&& 0xff]
                ++ frame ST7735_FRMCTR1
                  (if frmctr1 % 256 = 0xff then [(frmctr1 >>> 16) % 256, (frmctr1 >>> 8) % 256]
                   else [(frmctr1 >>> 16) % 256, (frmctr1 >>> 8) % 256, frmctr1 % 256]))
            ++ ((frame ST7735_CASET
                  [0, toU8 (((cfg0 >>> 16) &&& 0xff : Nat) : Int), 0,
                    toU8 ((((cfg0 >>> 16) &&& 0xff : Nat) : Int) + (DISPLAY_HEIGHT : Int) - 1)]
                ++ frame ST7735_RASET
                  [0, toU8 (((cfg0 >>> 8) &&& 0xff : Nat) : Int), 0,
                    toU8 ((((cfg0 >>> 8) &&& 0xff : Nat) : Int) + (DISPLAY_WIDTH : Int) - 1)])
              ++ fillEvents))))
      (some (if cfg0 &&& 0x1000000 ≠ 0 then 0xffffff else 0x000000)) := by
  have key : ∃ es pal, Runs (screenInitWith cfg0 cfg2 frmctr1) es pal ∧
      es = bringUpPrelude
        ++ ([.dmesg frmctr1 (cfg0 &&& 0xff) (cfg2 &&& 0xff)]
          ++ ((frame ST7735_MADCTL [cfg0 &&& 0xff]
                ++ frame ST7735_FRMCTR1
                  (if frmctr1 % 256 = 0xff then [(frmctr1 >>> 16) % 256, (frmctr1 >>> 8) % 256]
                   else [(frmctr1 >>> 16) % 256, (frmctr1 >>> 8) % 256, frmctr1 % 256]))
            ++ ((frame ST7735_CASET
                  [0, toU8 (((cfg0 >>> 16) &&& 0xff : Nat) : Int), 0,
                    toU8 ((((cfg0 >>> 16) &&& 0xff : Nat) : Int) + (DISPLAY_HEIGHT : Int) - 1)]
                ++ frame ST7735_RASET
                  [0, toU8 (((cfg0 >>> 8) &&& 0xff : Nat) : Int), 0,
                    toU8 ((((cfg0 >>> 8) &&& 0xff : Nat) : Int) + (DISPLAY_WIDTH : Int) - 1)])
              ++ fillEvents))) ∧
      pal = some (if cfg0 &&& 0x1000000 ≠ 0 then 0xffffff else 0x000000) := by
    apply Exists.intro
    apply Exists.intro
    apply And.intro
    case left =>
      unfold screenInitWith
      apply runs_seq (runs_emit _); intro _
      apply runs_seq (runs_emit _); intro _
      apply runs_seq (runs_emit _); intro _
      apply runs_seq (runs_emit _); intro _
      apply runs_seq runs_setup_SCK; intro _
      apply runs_seq runs_setup_MISO; intro _
      apply runs_seq runs_setup_MOSI; intro _
      apply runs_seq runs_setup_BL; intro _
      apply runs_seq runs_setup_DC; intro _
      apply runs_seq runs_setup_RST; intro _
      apply runs_seq runs_setup_CS; intro _
      apply runs_seq (runs_emit _); intro _
      apply runs_seq runs_SET_CS_high; intro _
      apply runs_seq runs_SET_DC_high; intro _
      apply runs_seq (runs_emit _); intro _
      apply runs_seq runs_initCmds; intro _
      have hrst : PIN_DISPLAY_RST ≠ -1 := by decide
      have hbl : PIN_DISPLAY_BL ≠ -1 := by decide
      dsimp only
      rw [if_pos hrst]
      apply runs_seq runs_RST_low; intro _
      apply runs_seq (runs_emit _); intro _
      apply runs_seq runs_RST_high; intro _
      apply runs_seq (runs_emit _); intro _
      rw [if_pos hbl]
      apply runs_seq runs_BL_high; intro _
      apply runs_seq (runs_storePalXOR _); intro _
      apply runs_seq (runs_emit _); intro _
      apply runs_seq (runs_configure _ _); intro _
      apply runs_seq (runs_setAddrWindow _ _ _ _); intro _
      exact runs_draw_stripes
    case right =>
      refine ⟨?_, rfl⟩
      simp only [bringUpPrelude, clockEvents, pinSetupEvents, resetEvents, backlightEvents,
        List.append_assoc, List.cons_append, List.nil_append, List.singleton_append]
  obtain ⟨es, pal, h, rfl, rfl⟩ := key
  exact h

theorem and_bit24 (x : Nat) : (x &&& 0x1000000 ≠ 0) ↔ x.testBit 24 = true := by
  have hb : ∀ i, (x &&& 0x1000000).testBit i = (x.testBit i && decide (24 = i)) := by
    intro i
    rw [Nat.testBit_and, show (0x1000000 : Nat) = 2 ^ 24 from rfl, Nat.testBit_two_pow]
  constructor
  · intro h
    by_contra hc
    apply h
    apply Nat.eq_of_testBit_eq
    intro i
    rw [hb, Nat.zero_testBit]
    by_cases hi : 24 = i
    · subst hi; simp [hc]
    · simp [hi]
  · intro h h0
    have := hb 24
    rw [h0, Nat.zero_testBit, h] at this
    simp at this

theorem toU8_byte (x : Nat) : toU8 ((x &&& 0xff : Nat) : Int) = x &&& 0xff := by
  have h := and_255 x
  simp only [Nat.reduceAdd] at h ⊢
  unfold toU8
  omega

theorem toU8_end (x ext : Nat) (h1 : 1 ≤ ext) :
    toU8 (((x &&& 0xff : Nat) : Int) + (ext : Int) - 1) = ((x &&& 0xff) + ext - 1) % 256 := by
  unfold toU8
  omega

theorem copied_above (old : Nat → Nat) (bytes : List Nat) (n k : Nat) (h : n ≤ k) :
    copied old bytes 0 0 n k = old k := by
  have h2 : ¬ (k < n) := by omega
  simp [copied, h2]

theorem setAddrWindow_cmdBuf (x y w h : Int) (m : Machine) :
    ∃ m1, setAddrWindow x y w h m = .ok () m1 ∧ m1.pastEnd = m.pastEnd ∧
      ∀ k, 5 ≤ k → m1.cmdBuf k = m.cmdBuf k := by
  unfold setAddrWindow
  rw [bind_ok (sendCmd_stack_full _ _ 5 m (by simp [CMDBUF_SIZE]) (by simp))]
  rw [sendCmd_stack_full _ _ 5 _ (by simp [CMDBUF_SIZE]) (by simp)]
  refine ⟨_, rfl, rfl, ?_⟩
  intro k hk
  show copied (copied m.cmdBuf _ 0 0 _) _ 0 0 _ k = m.cmdBuf k
  rw [copied_above _ _ _ _ (by simpa using hk), copied_above _ _ _ _ (by simpa using hk)]

theorem configure_cmdBuf (madctl t : Nat) (m : Machine) :
    ∃ m1, configure madctl t m = .ok () m1 ∧ m1.pastEnd = m.pastEnd ∧
      ∀ k, 5 ≤ k → m1.cmdBuf k = m.cmdBuf k := by
  unfold configure
  rw [bind_ok (sendCmd_stack_full _ _ 2 m (by simp [CMDBUF_SIZE]) (by simp))]
  by_cases hff : t % 256 = 0xff
  · rw [if_pos hff]
    rw [sendCmd_stack_cut _ _ 2 3 _ (by simp [CMDBUF_SIZE]) (by simp) (by simp)]
    refine ⟨_, rfl, rfl, ?_⟩
    intro k hk
    show copied (copied m.cmdBuf _ 0 0 _) _ 0 0 _ k = m.cmdBuf k
    rw [copied_above _ _ _ _ (by simp; omega), copied_above _ _ _ _ (by simp; omega)]
  · rw [if_neg hff]
    rw [sendCmd_stack_full _ _ 4 _ (by simp [CMDBUF_SIZE]) (by simp)]
    refine ⟨_, rfl, rfl, ?_⟩
    intro k hk
    show copied (copied m.cmdBuf _ 0 0 _) _ 0 0 _ k = m.cmdBuf k
    rw [copied_above _ _ _ _ (by simp; omega), copied_above _ _ _ _ (by simp; omega)]

theorem draw_stripes_cmdBuf (m : Machine) :
    ∃ m1, draw_stripes m = .ok () m1 ∧ m1.pastEnd = m.pastEnd ∧
      ∀ k, 1 ≤ k → m1.cmdBuf k = m.cmdBuf k := by
  unfold draw_stripes drawStripes
  have hstore : storeCmdBuf 0 ST7735_RAMWR m
      = .ok () { m with cmdBuf := fun k => if k = 0 then ST7735_RAMWR else m.cmdBuf k } := by
    simp [storeCmdBuf, CMDBUF_SIZE]
  rw [bind_ok hstore, bind_ok (sendCmd_cmdBuf_one _), bind_ok (SET_DC_high _),
    bind_ok (SET_CS_low _), bind_ok (stripeCols_run _ _ 0 _), SET_CS_high]
  refine ⟨_, rfl, rfl, ?_⟩
  intro k hk
  have : k ≠ 0 := by omega
  simp [this]

theorem flags_bits_wide : ∀ n : Nat, n ≤ 127 →
    (n + 0x80) &&& 0x7f = n ∧ (n + 0x80) &&& 0x80 ≠ 0 ∧ n &&& 0x7f = n ∧ n &&& 0x80 = 0 := by
  decide

theorem encoded_head (buf rest : List Nat) (d : Descriptor) (ds : List Descriptor) (pos : Nat)
    (hdrop : buf.drop pos = encode (d :: ds) ++ 0 :: rest) (h127 : d.args.length ≤ 127) :
    buf[pos]? = some d.opcode ∧ buf[pos + 1]? = some d.argLenAndFlags ∧
    d.argLenAndFlags &&& 0x7f = d.args.length ∧
    pos + 2 + d.args.length ≤ buf.length ∧
    (buf.drop (pos + 2)).take d.args.length = d.args ∧
    buf.drop (pos + 2 + d.args.length) = d.delayMs.toList ++ encode ds ++ 0 :: rest := by
  rw [encode_cons] at hdrop
  have hget : ∀ j, buf[pos + j]? = (buf.drop pos)[j]? :=
    fun j => (List.getElem?_drop buf pos j).symm
  have h0 : buf[pos]? = some d.opcode := by
    have := hget 0; rw [hdrop] at this; simpa using this
  have h1 : buf[pos + 1]? = some d.argLenAndFlags := by
    have := hget 1; rw [hdrop] at this; simpa using this
  have hbits := flags_bits_wide d.args.length h127
  have hlen : d.argLenAndFlags &&& 0x7f = d.args.length := by
    unfold Descriptor.argLenAndFlags DELAY
    split
    · exact hbits.1
    · exact hbits.2.2.1
  have hblen : buf.length - pos
      = (d.opcode :: d.argLenAndFlags :: (d.args ++ (d.delayMs.toList ++ encode ds))
          ++ 0 :: rest).length := by
    rw [← hdrop, List.length_drop]
  have hin : pos + 2 + d.args.length ≤ buf.length := by
    simp at hblen
    omega
  have hdrop2 : buf.drop (pos + 2)
      = d.args ++ (d.delayMs.toList ++ encode ds ++ 0 :: rest) := by
    rw [← List.drop_drop, hdrop]; simp
  refine ⟨h0, h1, hlen, hin, ?_, ?_⟩
  · rw [hdrop2, List.take_left]
  · rw [← List.drop_drop, hdrop2, List.drop_left]

theorem sendCmdSeqLoop_descriptor (buf rest : List Nat) (d : Descriptor)
    (ds : List Descriptor) (fuel pos : Nat) (m : Machine)
    (hop : d.opcode ≠ 0) (h127 : d.args.length ≤ 127)
    (hdrop : buf.drop pos = encode (d :: ds) ++ 0 :: rest) :
    ∃ m1, sendCmdSeqLoop buf (fuel + 1) pos m
        = sendCmdSeqLoop buf fuel (pos + d.encode.length) m1 ∧
      m1.trace = m.trace ++ d.events ∧ m1.reads = m.reads ++ d.reads pos ∧
      m1.pastEnd = m.pastEnd ++ pastWrites 1 d.args.length ∧
      buf.drop (pos + d.encode.length) = encode ds ++ 0 :: rest := by
  obtain ⟨h0, h1, hlen, hin, hargs, hdrop3⟩ :=
    encoded_head buf rest d ds pos hdrop h127
  have hbits := flags_bits_wide d.args.length h127
  rw [sendCmdSeqLoop_step buf fuel pos d.opcode d.argLenAndFlags m h0 hop h1
    (by rw [hlen]; exact hin), hlen]
  cases hdel : d.delayMs with
  | none =>
    have hflag : d.argLenAndFlags &&& DELAY = 0 := by
      simp [Descriptor.argLenAndFlags, hdel, DELAY, hbits.2.2.2]
    simp only [hflag, ne_eq, not_true_eq_false, ↓reduceIte]
    rw [hdel] at hdrop3
    have hl : pos + d.encode.length = pos + 2 + d.args.length := by
      simp [Descriptor.encode, hdel]; omega
    refine ⟨afterCmd m buf pos d.opcode d.args.length, by rw [hl], ?_, ?_, rfl, ?_⟩
    · simp [afterCmd, hargs, Descriptor.events, hdel]
    · simp [afterCmd, Descriptor.reads, hdel]
    · rw [hl]; simpa using hdrop3
  | some ms =>
    have hflag : d.argLenAndFlags &&& DELAY ≠ 0 := by
      simp only [Descriptor.argLenAndFlags, hdel, DELAY, Option.isSome_some, ↓reduceIte]
      exact hbits.2.1
    simp only [hflag, ne_eq, not_false_eq_true, ↓reduceIte]
    rw [hdel] at hdrop3
    have h2 : buf[pos + 2 + d.args.length]? = some ms := by
      have := List.getElem?_drop buf (pos + 2 + d.args.length) 0
      rw [hdrop3] at this
      simpa using this.symm
    have hl : pos + d.encode.length = pos + 2 + d.args.length + 1 := by
      simp [Descriptor.encode, hdel]; omega
    rw [bind_ok (readTable_run buf _ ms _ h2), bind_ok (emit_run _ _)]
    refine ⟨_, by rw [hl], ?_, ?_, rfl, ?_⟩
    · simp [afterCmd, hargs, Descriptor.events, hdel]
    · simp [afterCmd, Descriptor.reads, hdel]
    · rw [hl, ← List.drop_drop, hdrop3]; simp

/-- The whole run on a table of descriptors whose argument counts fit the
seven bits of the length byte: it returns, and events, table reads and writes
behind `cmdBuf` are those of the descriptors, one after the other. -/
theorem sendCmdSeqLoop_table (buf rest : List Nat) (ds : List Descriptor) :
    ∀ (fuel pos : Nat) (m : Machine),
    (∀ d ∈ ds, d.opcode ≠ 0 ∧ d.args.length ≤ 127) →
    buf.drop pos = encode ds ++ 0 :: rest → ds.length < fuel →
    ∃ m1, sendCmdSeqLoop buf fuel pos m = .ok () m1 ∧
      m1.trace = m.trace ++ ds.flatMap Descriptor.events ∧
      m1.reads = m.reads ++ tableReads pos ds ∧
      m1.pastEnd = m.pastEnd ++ ds.flatMap (fun d => pastWrites 1 d.args.length) := by
  induction ds with
  | nil =>
    intro fuel pos m _ hdrop hfuel
    obtain ⟨fuel, rfl⟩ : ∃ k, fuel = k + 1 := ⟨fuel - 1, by simp at hfuel; omega⟩
    have h0 : buf[pos]? = some 0 := by
      have := List.getElem?_drop buf pos 0
      rw [hdrop] at this
      simpa [encode] using this.symm
    exact ⟨_, sendCmdSeqLoop_stop buf fuel pos m h0, by simp, rfl, by simp⟩
  | cons d ds ih =>
    intro fuel pos m hok hdrop hfuel
    obtain ⟨fuel, rfl⟩ : ∃ k, fuel = k + 1 := ⟨fuel - 1, by simp at hfuel; omega⟩
    have hd := hok d (List.mem_cons_self _ _)
    obtain ⟨m1, hstep, htr, hrd, hpe, hdrop2⟩ :=
      sendCmdSeqLoop_descriptor buf rest d ds fuel pos m hd.1 hd.2 hdrop
    obtain ⟨m2, hrun, htr2, hrd2, hpe2⟩ := ih fuel _ m1
      (fun e he => hok e (List.mem_cons_of_mem _ he)) hdrop2 (by simp at hfuel; omega)
    refine ⟨m2, by rw [hstep, hrun], ?_, ?_, ?_⟩
    · rw [htr2, htr, List.flatMap_cons, List.append_assoc]
    · rw [hrd2, hrd, tableReads, List.append_assoc]
    · rw [hpe2, hpe, List.flatMap_cons, List.append_assoc]

theorem reads_le (d : Descriptor) (pos i : Nat) (h : i ∈ d.reads pos) :
    pos ≤ i ∧ i < pos + d.encode.length := by
  simp only [Descriptor.reads, List.mem_append, List.mem_cons, List.mem_map, List.mem_range,
    List.not_mem_nil, or_false] at h
  simp only [Descriptor.encode, List.length_cons, List.length_append]
  rcases h with ((h | h | h) | ⟨k, hk, rfl⟩) | ⟨x, hx, rfl⟩
  · omega
  · omega
  · omega
  · omega
  · have : 0 < d.delayMs.toList.length := List.length_pos_of_mem hx
    omega

theorem encode_length_cons (d : Descriptor) (ds : List Descriptor) :
    (encode (d :: ds)).length = d.encode.length + (encode ds).length := by
  simp [encode]

theorem tableReads_le (ds : List Descriptor) : ∀ (pos i : Nat), i ∈ tableReads pos ds →
    pos ≤ i ∧ i ≤ pos + (encode ds).length := by
  induction ds with
  | nil =>
    intro pos i hi
    simp only [tableReads, List.mem_singleton] at hi
    subst hi
    simp
  | cons d ds ih =>
    intro pos i hi
    rw [encode_length_cons]
    rw [tableReads] at hi
    rcases List.mem_append.mp hi with h | h
    · have := reads_le d pos i h; omega
    · have := ih _ i h; omega

theorem bringUpEvents_lines : bringUpEvents = setupEvents ++ (lineHead ++ fillEvents) := by
  simp only [bringUpEvents, setupEvents, lineHead, List.append_assoc, List.cons_append,
    List.nil_append]

theorem csWrites_append (a b : List Event) : csWrites (a ++ b) = csWrites a ++ csWrites b := by
  induction a with
  | nil => simp [csWrites]
  | cons e es ih => simp [csWrites, ih]

theorem csWrites_sends (bs : List Nat) : csWrites (bs.map Event.spi_send) = [] := by
  induction bs with
  | nil => rfl
  | cons b bs ih => simpa [csWrites] using ih

theorem csWrites_fill : csWrites fillEvents = [false, true, false, true] := by
  rw [fillEvents_eq, csWrites_append, csWrites_append, csWrites_append, csWrites_sends]
  decide

theorem csAtDelays_append (a b : List Event) : ∀ l : Lines,
    csAtDelays l (a ++ b) = csAtDelays l a ++ csAtDelays (l.run a) b := by
  induction a with
  | nil => intro l; simp [csAtDelays, Lines.run]
  | cons e es ih => intro l; simp [csAtDelays, ih, Lines.run]

theorem csAtDelays_sends (l : Lines) (bs : List Nat) :
    csAtDelays l (bs.map Event.spi_send) = [] := by
  induction bs with
  | nil => rfl
  | cons b bs ih => simpa [csAtDelays, Lines.step] using ih

theorem csAtDelays_fill (l : Lines) : csAtDelays l fillEvents = [] := by
  rw [fillEvents_eq, csAtDelays_append, csAtDelays_append, csAtDelays_append,
    csAtDelays_sends]
  simp [csAtDelays, frame, dcLow, csLow, dcHigh, csHigh]

theorem sentBytes_fill (l : Lines) : ∀ s ∈ sentBytes l fillEvents, s.cs = false := by
  rw [fillEvents_eq, sentBytes_append, sentBytes_frame, sentBytes_window]
  intro s hs
  simp only [List.map_nil, List.mem_append, List.mem_cons, List.not_mem_nil, or_false,
    List.mem_map] at hs
  rcases hs with rfl | ⟨b, _, rfl⟩ <;> rfl

theorem run_fill (l : Lines) : (l.run fillEvents).cs = true := by
  rw [fillEvents_eq, Lines.run_append, Lines.run_frame, Lines.run_append, Lines.run_append,
    Lines.run_sends]
  simp [Lines.run, Lines.step, dcHigh, csLow, csHigh, testBit_cs]

theorem csWrites_lineHead : csWrites lineHead
    = true :: (List.replicate 12 [false, true]).flatten := by
  decide

theorem sentBytes_lineHead (l : Lines) : ∀ s ∈ sentBytes l lineHead, s.cs = false := by
  rcases l with ⟨_ | _, _ | _⟩ <;> decide

theorem csAtDelays_lineHead (l : Lines) : ∀ c ∈ csAtDelays l lineHead, c = true := by
  rcases l with ⟨_ | _, _ | _⟩ <;> decide

theorem setupEvents_quiet :
    csWrites setupEvents = [] ∧ spiBytes setupEvents = [] ∧ delaysOf setupEvents = [] := by
  decide

theorem flagged_eq (buf rest : List Nat) (ds : List Descriptor) : ∀ pos : Nat,
    (∀ d ∈ ds, d.args.length ≤ 127) → buf.drop pos = encode ds ++ 0 :: rest →
    flaggedEvents buf pos ds = ds.flatMap Descriptor.events ∧
    flaggedReads buf pos ds = tableReads pos ds := by
  induction ds with
  | nil => intro pos _ _; exact ⟨rfl, rfl⟩
  | cons d ds ih =>
    intro pos hok hdrop
    have h127 := hok d (List.mem_cons_self _ _)
    have hds : ∀ e ∈ ds, e.args.length ≤ 127 := fun e he => hok e (List.mem_cons_of_mem _ he)
    obtain ⟨h0, h1, hlen, hin, hargs, hdrop3⟩ := encoded_head buf rest d ds pos hdrop h127
    have hbits := flags_bits_wide d.args.length h127
    have g0 : buf.getD pos 0 = d.opcode := by rw [List.getD_eq_getElem?_getD, h0]; rfl
    have g1 : buf.getD (pos + 1) 0 = d.argLenAndFlags := by
      rw [List.getD_eq_getElem?_getD, h1]; rfl
    rw [flaggedEvents, flaggedReads, g0, g1, List.flatMap_cons, tableReads]
    cases hdel : d.delayMs with
    | none =>
      have hflag : d.argLenAndFlags &&& 0x80 = 0 := by
        simp [Descriptor.argLenAndFlags, hdel, hbits.2.2.2]
      rw [hdel] at hdrop3
      have hl : pos + d.encode.length = pos + 2 + d.args.length := by
        simp [Descriptor.encode, hdel]; omega
      obtain ⟨e1, e2⟩ := ih (pos + 2 + d.args.length) hds (by simpa using hdrop3)
      simp only [hflag, ne_eq, not_true_eq_false, ↓reduceIte, e1, e2, hl]
      simp [Descriptor.events, Descriptor.reads, hdel]
    | some ms =>
      have hflag : d.argLenAndFlags &&& 0x80 ≠ 0 := by
        simp only [Descriptor.argLenAndFlags, hdel, DELAY, Option.isSome_some, ↓reduceIte]
        exact hbits.2.1
      rw [hdel] at hdrop3
      have h2 : buf[pos + 2 + d.args.length]? = some ms := by
        have := List.getElem?_drop buf (pos + 2 + d.args.length) 0
        rw [hdrop3] at this
        simpa using this.symm
      have g2 : buf.getD (pos + 2 + d.args.length) 0 = ms := by
        rw [List.getD_eq_getElem?_getD, h2]; rfl
      have hdrop4 : buf.drop (pos + 2 + d.args.length + 1) = encode ds ++ 0 :: rest := by
        rw [← List.drop_drop, hdrop3]; simp
      have hl : pos + d.encode.length = pos + 2 + d.args.length + 1 := by
        simp [Descriptor.encode, hdel]; omega
      obtain ⟨e1, e2⟩ := ih (pos + 2 + d.args.length + 1) hds hdrop4
      simp only [hflag, ne_eq, not_false_eq_true, ↓reduceIte, e1, e2, hl, g2]
      simp [Descriptor.events, Descriptor.reads, hdel]

theorem inBuffer_seq {α β : Type} {x : Exec α} {f : α → Exec β}
    (hx : InBuffer x) (hf : ∀ a, InBuffer (f a)) : InBuffer (x >>= f) := by
  intro m
  obtain ⟨a, m1, h1, p1⟩ := hx m
  obtain ⟨b, m2, h2, p2⟩ := hf a m1
  exact ⟨b, m2, by rw [bind_ok h1, h2], by rw [p2, p1]⟩

theorem inBuffer_emit (e : Event) : InBuffer (emit e) :=
  fun _ => ⟨(), _, rfl, rfl⟩

theorem inBuffer_storePalXOR (v : Nat) : InBuffer (storePalXOR v) :=
  fun _ => ⟨(), _, rfl, rfl⟩

theorem inBuffer_setup_pin (pin mode : Int) (port : Port)
    (hp : ∀ m, pinport pin m = .ok port m) : InBuffer (setup_pin pin mode) :=
  fun m => ⟨(), _, setup_pin_run pin mode port m (hp m), rfl⟩

theorem inBuffer_pin_set (pin v : Int) (port : Port)
    (hp : ∀ m, pinport pin m = .ok port m) : InBuffer (pin_set pin v) :=
  fun m => ⟨(), _, pin_set_run pin v port m (hp m), rfl⟩

theorem inBuffer_initCmds : InBuffer (sendCmdSeq initCmds) := by
  intro m
  obtain ⟨m1, hrun, _, _, hpe⟩ :=
    sendCmdSeqLoop_table initCmds [0] initDescs (initCmds.length + 1) 0 m
      (by decide) (by rw [initCmds_eq]; simp) (by decide)
  have hnone : initDescs.flatMap (fun d => pastWrites 1 d.args.length) = [] := by decide
  exact ⟨(), m1, hrun, by rw [hpe, hnone, List.append_nil]⟩

theorem inBuffer_configure (madctl t : Nat) : InBuffer (configure madctl t) := by
  intro m
  obtain ⟨m1, hrun, hpe, _⟩ := configure_cmdBuf madctl t m
  exact ⟨(), m1, hrun, hpe⟩

theorem inBuffer_setAddrWindow (x y w h : Int) : InBuffer (setAddrWindow x y w h) := by
  intro m
  obtain ⟨m1, hrun, hpe, _⟩ := setAddrWindow_cmdBuf x y w h m
  exact ⟨(), m1, hrun, hpe⟩

theorem inBuffer_draw_stripes : InBuffer draw_stripes := by
  intro m
  obtain ⟨m1, hrun, hpe, _⟩ := draw_stripes_cmdBuf m
  exact ⟨(), m1, hrun, hpe⟩

theorem inBuffer_screen_init : InBuffer screen_init := by
  unfold screen_init
  apply inBuffer_seq (inBuffer_emit _); intro _
  apply inBuffer_seq (inBuffer_emit _); intro _
  apply inBuffer_seq (inBuffer_emit _); intro _
  apply inBuffer_seq (inBuffer_emit _); intro _
  apply inBuffer_seq (inBuffer_setup_pin PIN_DISPLAY_SCK _ .GPIOB (fun _ => rfl)); intro _
  apply inBuffer_seq (inBuffer_setup_pin PIN_DISPLAY_MISO _ .GPIOB (fun _ => rfl)); intro _
  apply inBuffer_seq (inBuffer_setup_pin PIN_DISPLAY_MOSI _ .GPIOB (fun _ => rfl)); intro _
  apply inBuffer_seq (inBuffer_setup_pin PIN_DISPLAY_BL _ .GPIOA (fun _ => rfl)); intro _
  apply inBuffer_seq (inBuffer_setup_pin PIN_DISPLAY_DC _ .GPIOC (fun _ => rfl)); intro _
  apply inBuffer_seq (inBuffer_setup_pin PIN_DISPLAY_RST _ .GPIOC (fun _ => rfl)); intro _
  apply inBuffer_seq (inBuffer_setup_pin PIN_DISPLAY_CS _ .GPIOB (fun _ => rfl)); intro _
  apply inBuffer_seq (inBuffer_emit _); intro _
  apply inBuffer_seq (inBuffer_pin_set PIN_DISPLAY_CS 1 .GPIOB (fun _ => rfl)); intro _
  apply inBuffer_seq (inBuffer_pin_set PIN_DISPLAY_DC 1 .GPIOC (fun _ => rfl)); intro _
  apply inBuffer_seq (inBuffer_emit _); intro _
  apply inBuffer_seq inBuffer_initCmds; intro _
  have hrst : PIN_DISPLAY_RST ≠ -1 := by decide
  have hbl : PIN_DISPLAY_BL ≠ -1 := by decide
  dsimp only
  rw [if_pos hrst]
  apply inBuffer_seq (inBuffer_pin_set PIN_DISPLAY_RST _ .GPIOC (fun _ => rfl)); intro _
  apply inBuffer_seq (inBuffer_emit _); intro _
  apply inBuffer_seq (inBuffer_pin_set PIN_DISPLAY_RST _ .GPIOC (fun _ => rfl)); intro _
  apply inBuffer_seq (inBuffer_emit _); intro _
  rw [if_pos hbl]
  apply inBuffer_seq (inBuffer_pin_set PIN_DISPLAY_BL _ .GPIOA (fun _ => rfl)); intro _
  apply inBuffer_seq (inBuffer_storePalXOR _); intro _
  apply inBuffer_seq (inBuffer_emit _); intro _
  apply inBuffer_seq (inBuffer_configure _ _); intro _
  apply inBuffer_seq (inBuffer_setAddrWindow _ _ _ _); intro _
  exact inBuffer_draw_stripes

theorem extends_bind {α β : Type} {x : Exec α} {f : α → Exec β}
    (hx : Extends x) (hf : ∀ a, Extends (f a)) : Extends (x >>= f) := by
  intro m
  obtain ⟨r1, h1⟩ := hx m
  simp only [bind_run, Exec.bind]
  cases hxm : x m with
  | ok a m1 =>
    rw [hxm] at h1
    simp only [Result.machine] at h1
    obtain ⟨r2, h2⟩ := hf a m1
    exact ⟨r1 ++ r2, by rw [h2, h1, List.append_assoc]⟩
  | halt m1 => rw [hxm] at h1; exact ⟨r1, h1⟩
  | fault m1 => rw [hxm] at h1; exact ⟨r1, h1⟩

theorem extends_pure {α : Type} (a : α) : Extends (pure a : Exec α) :=
  fun m => ⟨[], by simp [pure_run, Result.machine]⟩

theorem extends_emit (e : Event) : Extends (emit e) :=
  fun m => ⟨[], by simp [emit, Result.machine]⟩

theorem extends_readTable (buf : List Nat) (i : Nat) : Extends (readTable buf i) := by
  intro m
  unfold readTable
  cases buf[i]? <;> exact ⟨[], by simp [Result.machine]⟩

theorem extends_storeCmdBuf (i v : Nat) : Extends (storeCmdBuf i v) := by
  intro m
  rw [storeCmdBuf_run]
  exact ⟨_, rfl⟩

theorem extends_memcpy (load : Nat → Exec Nat) (hl : ∀ i, Extends (load i)) (n : Nat) :
    ∀ dst src : Nat, Extends (memcpy load dst src n) := by
  induction n with
  | zero => intro dst src; exact extends_pure ()
  | succ n ih =>
    intro dst src
    rw [memcpy]
    apply extends_bind (hl _); intro _
    apply extends_bind (extends_storeCmdBuf _ _); intro _
    exact ih _ _

theorem extends_sendCmd_cmdBuf (n : Nat) : Extends (sendCmd .cmdBuf ((n : Int) + 1)) := by
  intro m
  rw [sendCmd_cmdBuf_run]
  exact ⟨[], by simp [Result.machine]⟩

theorem extends_sendCmdSeqLoop (buf : List Nat) (fuel : Nat) :
    ∀ pos : Nat, Extends (sendCmdSeqLoop buf fuel pos) := by
  induction fuel with
  | zero => intro pos m; exact ⟨[], by simp [sendCmdSeqLoop, fault, Result.machine]⟩
  | succ fuel ih =>
    intro pos
    rw [sendCmdSeqLoop]
    apply extends_bind (extends_readTable _ _); intro c
    split
    · apply extends_bind (extends_readTable _ _); intro op
      apply extends_bind (extends_storeCmdBuf _ _); intro _
      apply extends_bind (extends_readTable _ _); intro v
      apply extends_bind (extends_memcpy _ (fun i => extends_readTable _ i) _ _ _); intro _
      apply extends_bind (extends_sendCmd_cmdBuf _); intro _
      split
      · apply extends_bind (extends_readTable _ _); intro d
        apply extends_bind (extends_emit _); intro _
        exact ih _
      · exact ih _
    · exact extends_pure _

/-- A descriptor anywhere in any table: the copy of its arguments is made in
full, so that with 20 arguments or more the indices from 20 on are written,
whatever the run does afterwards. -/
theorem sendCmdSeqLoop_past (buf : List Nat) (fuel pos op v : Nat) (m : Machine)
    (h0 : buf[pos]? = some op) (hop : op ≠ 0) (h1 : buf[pos + 1]? = some v)
    (hin : pos + 2 + (v &&& 0x7f) ≤ buf.length) :
    ∃ r, (sendCmdSeqLoop buf (fuel + 1) pos m).machine.pastEnd
      = m.pastEnd ++ pastWrites 1 (v &&& 0x7f) ++ r := by
  rw [sendCmdSeqLoop_step buf fuel pos op v m h0 hop h1 hin]
  have hrest : Extends (if v &&& DELAY ≠ 0 then
        (do let d ← readTable buf (pos + 2 + (v &&& 0x7f))
            emit (.delay d)
            sendCmdSeqLoop buf fuel (pos + 2 + (v &&& 0x7f) + 1) : Exec Unit)
      else sendCmdSeqLoop buf fuel (pos + 2 + (v &&& 0x7f))) := by
    split
    · apply extends_bind (extends_readTable _ _); intro d
      apply extends_bind (extends_emit _); intro _
      exact extends_sendCmdSeqLoop _ _ _
    · exact extends_sendCmdSeqLoop _ _ _
  obtain ⟨r, hr⟩ := hrest (afterCmd m buf pos op (v &&& 0x7f))
  exact ⟨r, hr⟩

/-! ## The claims -/

/-- C1: for descriptors `ds` with non-zero opcodes and at most 19 arguments
each, `sendCmdSeq` on `encode ds ++ [0] ++ rest` returns, and what it emitted
is the frame of the first descriptor (followed by its delay, when it has
one), then that of the second, and so on: as many chip-select windows as
descriptors, in table order, each frame opening with the chip-select assert
and closing with the deassert.  The emitted events do not mention `rest`, and
no index read is beyond that of the terminating zero. -/
theorem sendCmdSeq_runs_descriptors (ds : List Descriptor) (rest : List Nat) (m : Machine)
    (hop : ∀ d ∈ ds, d.opcode ≠ 0) (hlen : ∀ d ∈ ds, d.args.length ≤ 19) :
    ∃ m1 r, sendCmdSeq (encode ds ++ [0] ++ rest) m = .ok () m1 ∧
      m1.trace = m.trace ++ ds.flatMap Descriptor.events ∧
      (ds.flatMap Descriptor.events).count csLow = ds.length ∧
      (ds.flatMap Descriptor.events).count csHigh = ds.length ∧
      m1.reads = m.reads ++ r ∧ ∀ i ∈ r, i ≤ (encode ds).length := by
  have hfuel : ds.length < (encode ds ++ [0] ++ rest).length + 1 := by
    have := length_le_encode ds
    simp only [List.length_append]
    omega
  obtain ⟨m1, r, hrun, htr, _, hrd, hr⟩ :=
    sendCmdSeqLoop_encode (encode ds ++ [0] ++ rest) rest ds _ 0 m
      (fun d hd => ⟨hop d hd, hlen d hd⟩) (by simp) hfuel
  refine ⟨m1, r, hrun, htr, count_flatMap_events _ ds count_csLow_events,
    count_flatMap_events _ ds count_csHigh_events, hrd, ?_⟩
  intro i hi
  have := (hr i hi).2
  omega

/-- Witness of C1: a table of two descriptors followed by two stray bytes. -/
theorem sendCmdSeq_runs_descriptors_witness :
    (∀ d ∈ [Descriptor.mk 0x3A [5] none, Descriptor.mk 0x01 [] (some 120)], d.opcode ≠ 0) ∧
    (∀ d ∈ [Descriptor.mk 0x3A [5] none, Descriptor.mk 0x01 [] (some 120)],
      d.args.length ≤ 19) ∧
    ∃ m1 r, sendCmdSeq
        (encode [Descriptor.mk 0x3A [5] none, Descriptor.mk 0x01 [] (some 120)]
          ++ [0] ++ [7, 9]) Machine.init = .ok () m1 ∧
      m1.trace = Machine.init.trace
        ++ [Descriptor.mk 0x3A [5] none, Descriptor.mk 0x01 [] (some 120)].flatMap
          Descriptor.events ∧
      ([Descriptor.mk 0x3A [5] none, Descriptor.mk 0x01 [] (some 120)].flatMap
        Descriptor.events).count csLow = 2 ∧
      ([Descriptor.mk 0x3A [5] none, Descriptor.mk 0x01 [] (some 120)].flatMap
        Descriptor.events).count csHigh = 2 ∧
      m1.reads = Machine.init.reads ++ r ∧
      ∀ i ∈ r, i ≤ (encode [Descriptor.mk 0x3A [5] none,
        Descriptor.mk 0x01 [] (some 120)]).length :=
  ⟨by decide, by decide,
    sendCmdSeq_runs_descriptors [Descriptor.mk 0x3A [5] none, Descriptor.mk 0x01 [] (some 120)]
      [7, 9] Machine.init (by decide) (by decide)⟩

/-- C2: on a table that encodes the descriptors `ds` (non-zero opcodes,
argument counts within the seven bits of the length byte) followed by a zero
opcode, `sendCmdSeq` returns, and what it has emitted is, descriptor by
descriptor: the frame of the command, which ends with the chip-select
deassert; then, when bit `0x80` of the descriptor's length/flags byte in the
table is set, exactly one delay, whose duration is the table byte right behind
the descriptor's arguments, and only then the next frame; when the bit is
clear, no delay, the next frame following at once with the table byte right
behind the arguments as its opcode.  The table indices read say the same:
behind the arguments of a flagged descriptor one byte is read as the delay,
behind those of an unflagged one the next byte is read as an opcode. -/
theorem sendCmdSeq_delay_flag (ds : List Descriptor) (rest : List Nat) (m : Machine)
    (hop : ∀ d ∈ ds, d.opcode ≠ 0) (hlen : ∀ d ∈ ds, d.args.length ≤ 127) :
    ∃ m1, sendCmdSeq (encode ds ++ [0] ++ rest) m = .ok () m1 ∧
      m1.trace = m.trace ++ flaggedEvents (encode ds ++ [0] ++ rest) 0 ds ∧
      m1.reads = m.reads ++ flaggedReads (encode ds ++ [0] ++ rest) 0 ds := by
  have hfuel : ds.length < (encode ds ++ [0] ++ rest).length + 1 := by
    have := length_le_encode ds
    simp only [List.length_append]
    omega
  obtain ⟨m1, hrun, htr, hrd, _⟩ :=
    sendCmdSeqLoop_table (encode ds ++ [0] ++ rest) rest ds _ 0 m
      (fun d hd => ⟨hop d hd, hlen d hd⟩) (by simp) hfuel
  obtain ⟨e1, e2⟩ := flagged_eq (encode ds ++ [0] ++ rest) rest ds 0 hlen (by simp)
  exact ⟨m1, hrun, by rw [htr, e1], by rw [hrd, e2]⟩

/-- Witness of C2: a reset command flagged with a delay of 120 ms, then a
command with one argument and no flag, then the zero opcode and a stray byte.
One delay of 120 ms stands between the two frames and nothing behind the
second; index 2 is read once, as the delay, and index 6 once, as the opcode
that ends the run. -/
theorem sendCmdSeq_delay_flag_witness :
    (∀ d ∈ [Descriptor.mk 0x01 [] (some 120), Descriptor.mk 0x3A [5] none], d.opcode ≠ 0) ∧
    (∀ d ∈ [Descriptor.mk 0x01 [] (some 120), Descriptor.mk 0x3A [5] none],
      d.args.length ≤ 127) ∧
    encode [Descriptor.mk 0x01 [] (some 120), Descriptor.mk 0x3A [5] none] ++ [0] ++ [9]
      = [0x01, 0x80, 120, 0x3A, 1, 5, 0, 9] ∧
    flaggedEvents [0x01, 0x80, 120, 0x3A, 1, 5, 0, 9] 0
        [Descriptor.mk 0x01 [] (some 120), Descriptor.mk 0x3A [5] none]
      = [dcLow, csLow, .spi_send 0x01, dcHigh, csHigh, .delay 120,
         dcLow, csLow, .spi_send 0x3A, dcHigh, .spi_send 5, csHigh] ∧
    flaggedReads [0x01, 0x80, 120, 0x3A, 1, 5, 0, 9] 0
        [Descriptor.mk 0x01 [] (some 120), Descriptor.mk 0x3A [5] none]
      = [0, 0, 1, 2, 3, 3, 4, 5, 6] ∧
    ∃ m1, sendCmdSeq
        (encode [Descriptor.mk 0x01 [] (some 120), Descriptor.mk 0x3A [5] none] ++ [0] ++ [9])
        Machine.init = .ok () m1 ∧
      m1.trace = Machine.init.trace
        ++ flaggedEvents
            (encode [Descriptor.mk 0x01 [] (some 120), Descriptor.mk 0x3A [5] none]
              ++ [0] ++ [9]) 0
            [Descriptor.mk 0x01 [] (some 120), Descriptor.mk 0x3A [5] none] ∧
      m1.reads = Machine.init.reads
        ++ flaggedReads
            (encode [Descriptor.mk 0x01 [] (some 120), Descriptor.mk 0x3A [5] none]
              ++ [0] ++ [9]) 0
            [Descriptor.mk 0x01 [] (some 120), Descriptor.mk 0x3A [5] none] :=
  ⟨by decide, by decide, by decide, by decide, by decide,
    sendCmdSeq_delay_flag [Descriptor.mk 0x01 [] (some 120), Descriptor.mk 0x3A [5] none]
      [9] Machine.init (by decide) (by decide)⟩

/-- C3: for a buffer of `len` bytes, `1 ≤ len ≤ 20`, `sendCmd` returns after
emitting: data/command low, chip-select low, the opcode byte, data/command
high, the `len - 1` argument bytes, chip-select high.  So the bytes on the bus
are the input bytes in order, the opcode goes out with chip-select low and
data/command low, every argument with chip-select low and data/command high,
and chip-select is high at the end; with `len = 1` the opcode is the only
byte sent. -/
theorem sendCmd_transfers (buf : BufPtr) (len : Nat) (m : Machine)
    (h1 : 1 ≤ len) (h20 : len ≤ 20) (hsz : (buf.bytes m len).length = len) :
    ∃ m1 es, sendCmd buf (len : Int) m = .ok () m1 ∧ m1.trace = m.trace ++ es ∧
      es = [dcLow, csLow, .spi_send ((buf.bytes m len).headD 0), dcHigh]
            ++ (buf.bytes m len).tail.map Event.spi_send ++ [csHigh] ∧
      spiBytes es = buf.bytes m len ∧
      (∀ l : Lines, sentBytes l es
        = ((buf.bytes m len).take 1).map (fun b => { byte := b, cs := false, dc := false })
          ++ ((buf.bytes m len).drop 1).map (fun b => { byte := b, cs := false, dc := true })) ∧
      (∀ l : Lines, (l.run es).cs = true) ∧
      (if len = 1 then spiBytes es = [(buf.bytes m len).headD 0] else True) := by
  obtain ⟨n, rfl⟩ : ∃ n, len = n + 1 := ⟨len - 1, by omega⟩
  have hn : n + 1 ≤ CMDBUF_SIZE := h20
  have key : ∀ (op : Nat) (args : List Nat) (m1 : Machine),
      buf.bytes m (n + 1) = op :: args →
      sendCmd buf ((n : Int) + 1) m = .ok () m1 → m1.trace = m.trace ++ frame op args →
      ∃ m1 es, sendCmd buf ((n + 1 : Nat) : Int) m = .ok () m1 ∧ m1.trace = m.trace ++ es ∧
      es = [dcLow, csLow, .spi_send ((buf.bytes m (n + 1)).headD 0), dcHigh]
            ++ (buf.bytes m (n + 1)).tail.map Event.spi_send ++ [csHigh] ∧
      spiBytes es = buf.bytes m (n + 1) ∧
      (∀ l : Lines, sentBytes l es
        = ((buf.bytes m (n + 1)).take 1).map (fun b => { byte := b, cs := false, dc := false })
          ++ ((buf.bytes m (n + 1)).drop 1).map
            (fun b => { byte := b, cs := false, dc := true })) ∧
      (∀ l : Lines, (l.run es).cs = true) ∧
      (if n + 1 = 1 then spiBytes es = [(buf.bytes m (n + 1)).headD 0] else True) := by
    intro op args m1 hb hrun htr
    rw [hb] at hsz
    refine ⟨m1, frame op args, by simpa using hrun, htr, ?_, ?_, ?_, ?_, ?_⟩
    · rw [hb]; simp [frame]
    · rw [hb, spiBytes_frame]
    · intro l; rw [hb, sentBytes_frame]; simp
    · intro l; rw [Lines.run_frame]
    · split
      · rename_i h
        have : args = [] := by
          simp at hsz h
          rw [h] at hsz
          simpa using hsz
        rw [hb, spiBytes_frame, this]; simp
      · trivial
  cases buf with
  | cmdBuf =>
    exact key _ _ _ (bytes_cmdBuf m n) (sendCmd_cmdBuf_run n m) rfl
  | stack bs =>
    have hb : n + 1 ≤ bs.length := by
      simp [BufPtr.bytes] at hsz
      omega
    exact key _ _ _ (bytes_stack bs m n hb) (sendCmd_stack_run bs n m hn hb) rfl

/-- Witness of C3: a five-byte command held in a local array. -/
theorem sendCmd_transfers_witness :
    1 ≤ 5 ∧ 5 ≤ 20 ∧
    ((BufPtr.stack [0x2A, 0, 20, 0, 147]).bytes Machine.init 5).length = 5 ∧
    ∃ m1 es, sendCmd (.stack [0x2A, 0, 20, 0, 147]) ((5 : Nat) : Int) Machine.init = .ok () m1 ∧
      m1.trace = Machine.init.trace ++ es ∧
      es = [dcLow, csLow,
              .spi_send (((BufPtr.stack [0x2A, 0, 20, 0, 147]).bytes Machine.init 5).headD 0),
              dcHigh]
            ++ ((BufPtr.stack [0x2A, 0, 20, 0, 147]).bytes Machine.init 5).tail.map Event.spi_send
            ++ [csHigh] ∧
      spiBytes es = (BufPtr.stack [0x2A, 0, 20, 0, 147]).bytes Machine.init 5 ∧
      (∀ l : Lines, sentBytes l es
        = (((BufPtr.stack [0x2A, 0, 20, 0, 147]).bytes Machine.init 5).take 1).map
            (fun b => { byte := b, cs := false, dc := false })
          ++ (((BufPtr.stack [0x2A, 0, 20, 0, 147]).bytes Machine.init 5).drop 1).map
            (fun b => { byte := b, cs := false, dc := true })) ∧
      (∀ l : Lines, (l.run es).cs = true) ∧
      (if 5 = 1 then
        spiBytes es = [((BufPtr.stack [0x2A, 0, 20, 0, 147]).bytes Machine.init 5).headD 0]
       else True) :=
  ⟨by decide, by decide, by decide,
    sendCmd_transfers (.stack [0x2A, 0, 20, 0, 147]) 5 Machine.init
      (by decide) (by decide) (by decide)⟩

/-- C4, as the code has it: `setAddrWindow` sends the column command
(`CASET`, `0x2A`, built from `y` and `h`) first and the row command (`RASET`,
`0x2B`, built from `x` and `w`) second, for all arguments; for
`(10, 20, 160, 128)` the end values are 147 in the column command and 169 in
the row command. -/
theorem setAddrWindow_column_first (x y w h : Int) (m : Machine) :
    ∃ m1 es, setAddrWindow x y w h m = .ok () m1 ∧ m1.trace = m.trace ++ es ∧
      es = frame 0x2A [0, toU8 y, 0, toU8 (y + h - 1)]
            ++ frame 0x2B [0, toU8 x, 0, toU8 (x + w - 1)] ∧
      (∀ l : Lines, commandBytes l es = [0x2A, 0x2B]) ∧
      (∀ l : Lines, precedes 0x2A 0x2B (commandBytes l es)) ∧
      toU8 (20 + 128 - 1) = 147 ∧ toU8 (10 + 160 - 1) = 169 := by
  obtain ⟨m1, hrun, htr, _, _⟩ := setAddrWindow_run x y w h m
  refine ⟨m1, _, hrun, by rw [htr, List.append_assoc]; rfl, rfl, ?_, ?_, by decide, by decide⟩
  · intro l; exact commandBytes_frames l _ _ _ _
  · intro l; rw [commandBytes_frames]; decide

/-- C4 fails as stated: in the events of `setAddrWindow(10, 20, 160, 128)`
the column command with end value 147 comes first and the row command with
end value 169 second, so the row command does not precede the column
command. -/
theorem setAddrWindow_row_first_counterexample :
    (setAddrWindow 10 20 160 128 Machine.init).machine.trace
        = frame 0x2A [0, 20, 0, 147] ++ frame 0x2B [0, 10, 0, 169] ∧
    ¬ precedes 0x2B 0x2A
        (commandBytes { cs := true, dc := true }
          (setAddrWindow 10 20 160 128 Machine.init).machine.trace) := by
  obtain ⟨m1, hrun, htr, _⟩ := setAddrWindow_run 10 20 160 128 Machine.init
  rw [hrun]
  simp only [Result.machine, htr, Machine.init, List.nil_append, commandBytes_frames]
  exact ⟨rfl, by decide⟩

/-- C5: `configure` sends `[0x36, madctl]` and then the frame-rate command
`0xB1`, with two argument bytes when the low byte of the timing word is `0xFF`
and with three otherwise. -/
theorem configure_frames (madctl t : Nat) (m : Machine) :
    ∃ m1 es, configure madctl t m = .ok () m1 ∧ m1.trace = m.trace ++ es ∧
      es = frame 0x36 [madctl]
            ++ (if t &&& 0xFF = 0xFF then
                  frame 0xB1 [(t >>> 16) &&& 0xFF, (t >>> 8) &&& 0xFF]
                else frame 0xB1 [(t >>> 16) &&& 0xFF, (t >>> 8) &&& 0xFF, t &&& 0xFF]) ∧
      spiBytes es = [0x36, madctl]
            ++ (if t &&& 0xFF = 0xFF then [0xB1, (t >>> 16) &&& 0xFF, (t >>> 8) &&& 0xFF]
                else [0xB1, (t >>> 16) &&& 0xFF, (t >>> 8) &&& 0xFF, t &&& 0xFF]) ∧
      (∀ l : Lines, commandBytes l es = [0x36, 0xB1]) := by
  obtain ⟨m1, hrun, htr, _, _⟩ := configure_run madctl t m
  refine ⟨m1, _, hrun, by rw [htr, List.append_assoc], ?_, ?_, ?_⟩
  · simp only [and_255, ST7735_MADCTL, ST7735_FRMCTR1]
    split <;> rfl
  · simp only [and_255, ST7735_MADCTL, ST7735_FRMCTR1, spiBytes_append, spiBytes_frame]
    split <;> rfl
  · intro l; exact commandBytes_frames l _ _ _ _

/-- C6: `draw_stripes` sends the memory-write command `0x2C` in a frame of its
own and then, inside a single chip-select window opened with data/command
high, `160 * 128 * 2 = 40960` data bytes and nothing else; the pixel at
position `i * 128 + j` of the stream (column `i < 160`, row `j < 128`) is the
two bytes of `2 * i`, high byte first (`2 * i` is below `2 ^ 16`, so nothing
wraps). -/
theorem draw_stripes_pixels (m : Machine) :
    ∃ (m1 : Machine) (px : List Nat), draw_stripes m = .ok () m1 ∧
      m1.trace = m.trace ++ frame 0x2C [] ++ [dcHigh, csLow] ++ px.map Event.spi_send
        ++ [csHigh] ∧
      px.length = 160 * 128 * 2 ∧
      (∀ l : Lines, sentBytes l ([dcHigh, csLow] ++ px.map Event.spi_send ++ [csHigh])
        = px.map (fun b => { byte := b, cs := false, dc := true })) ∧
      (∀ (i : Fin 160) (j : Fin 128),
        px[2 * (i.val * 128 + j.val)]? = some (2 * i.val / 256) ∧
        px[2 * (i.val * 128 + j.val) + 1]? = some (2 * i.val % 256) ∧
        256 * (2 * i.val / 256) + 2 * i.val % 256 = 2 * i.val ∧ 2 * i.val < 65536) := by
  obtain ⟨m1, hrun, htr, _, _⟩ := drawStripes_run DISPLAY_WIDTH DISPLAY_HEIGHT m
  refine ⟨m1, (List.range (160 * (2 * 128))).map (pixelByte 128), hrun, ?_, by simp, ?_, ?_⟩
  · rw [htr, pixelEvents_eq_sends]; rfl
  · intro l; exact sentBytes_window l _
  · intro i j
    have hi := i.isLt
    have hj := j.isLt
    have hk : 2 * (i.val * 128 + j.val) < 160 * (2 * 128) := by omega
    have hk1 : 2 * (i.val * 128 + j.val) + 1 < 160 * (2 * 128) := by omega
    refine ⟨?_, ?_, by omega, by omega⟩
    · rw [List.getElem?_map, List.getElem?_range hk, Option.map_some',
        pixelByte_high _ _ hi hj]
    · rw [List.getElem?_map, List.getElem?_range hk1, Option.map_some',
        pixelByte_low _ _ hi hj]

/-- C7, as the code has it: `draw_stripes` sends the memory-write command
through `sendCmd`, which deasserts chip-select after the command byte; it then
asserts chip-select again, streams the `160 * 128 * 2` pixel bytes with no
pin write among them, and deasserts chip-select after the last one.  So
chip-select goes high exactly twice. -/
theorem draw_stripes_cs_twice (m : Machine) :
    ∃ (m1 : Machine) (px : List Nat), draw_stripes m = .ok () m1 ∧
      m1.trace = m.trace
        ++ [dcLow, csLow, .spi_send 0x2C, dcHigh, csHigh, dcHigh, csLow]
        ++ px.map Event.spi_send ++ [csHigh] ∧
      px.length = 160 * 128 * 2 ∧
      ([dcLow, csLow, .spi_send 0x2C, dcHigh, csHigh, dcHigh, csLow]
        ++ px.map Event.spi_send ++ [csHigh]).count csHigh = 2 ∧
      ([dcLow, csLow, .spi_send 0x2C, dcHigh, csHigh, dcHigh, csLow]
        ++ px.map Event.spi_send ++ [csHigh]).count csLow = 2 := by
  obtain ⟨m1, hrun, htr, _, _⟩ := drawStripes_run DISPLAY_WIDTH DISPLAY_HEIGHT m
  refine ⟨m1, (List.range (160 * (2 * 128))).map (pixelByte 128), hrun, ?_, by simp, ?_, ?_⟩
  · rw [htr, pixelEvents_eq_sends]
    simp [frame, DISPLAY_WIDTH, DISPLAY_HEIGHT, ST7735_RAMWR]
  · have h0 := count_sends_zero csHigh ((List.range (160 * (2 * 128))).map (pixelByte 128))
      (by intro b; simp [csHigh])
    rw [List.count_append, List.count_append, h0]
    decide
  · have h0 := count_sends_zero csLow ((List.range (160 * (2 * 128))).map (pixelByte 128))
      (by intro b; simp [csLow])
    rw [List.count_append, List.count_append, h0]
    decide

/-- C7 fails as stated: in the events of `draw_stripes` chip-select goes high
right after the command byte `0x2C`, before any pixel byte, and it goes high
twice, not once. -/
theorem draw_stripes_cs_counterexample :
    (draw_stripes Machine.init).machine.trace.take 7
        = [dcLow, csLow, .spi_send 0x2C, dcHigh, csHigh, dcHigh, csLow] ∧
    (draw_stripes Machine.init).machine.trace.count csHigh ≠ 1 := by
  obtain ⟨m1, hrun, htr, _, _⟩ := drawStripes_run DISPLAY_WIDTH DISPLAY_HEIGHT Machine.init
  have h0 := count_sends_zero csHigh
    ((List.range (DISPLAY_WIDTH * (2 * DISPLAY_HEIGHT))).map (pixelByte DISPLAY_HEIGHT))
    (by intro b; simp [csHigh])
  have hfr : frame ST7735_RAMWR [] ++ [dcHigh, csLow]
      = [dcLow, csLow, .spi_send 0x2C, dcHigh, csHigh, dcHigh, csLow] := rfl
  have htr2 : m1.trace = [dcLow, csLow, .spi_send 0x2C, dcHigh, csHigh, dcHigh, csLow]
      ++ (((List.range (DISPLAY_WIDTH * (2 * DISPLAY_HEIGHT))).map
            (pixelByte DISPLAY_HEIGHT)).map Event.spi_send ++ [csHigh]) := by
    rw [htr, pixelEvents_eq_sends, ← hfr]
    simp [Machine.init]
  have hrun2 : draw_stripes Machine.init = .ok () m1 := hrun
  rw [hrun2]
  simp only [Result.machine, htr2]
  constructor
  · rw [List.take_left' (by rfl)]
  · rw [List.count_append, List.count_append, h0]
    decide

/-- C8: `pinport` returns `GPIOA`, `GPIOB`, `GPIOC` for the port indices
`pin >> 4` = 0, 1, 2, whatever the low four bits of the pin (the index of
`16 * k + b` is `k` for `0 ≤ b < 16`), and changes nothing.  For any other
index, such as that of pin `-1`, it ends in the endless loop of `panic()` with
the machine as it found it, and so do `pin_set` and `setup_pin`: no event is
emitted. -/
theorem pinport_resolves (pin v mode : Int) (m : Machine) :
    (pin >>> (4 : Nat) = 0 → pinport pin m = .ok .GPIOA m) ∧
    (pin >>> (4 : Nat) = 1 → pinport pin m = .ok .GPIOB m) ∧
    (pin >>> (4 : Nat) = 2 → pinport pin m = .ok .GPIOC m) ∧
    (pin >>> (4 : Nat) ≠ 0 → pin >>> (4 : Nat) ≠ 1 → pin >>> (4 : Nat) ≠ 2 →
      pinport pin m = .halt m ∧ pin_set pin v m = .halt m ∧
      setup_pin pin mode m = .halt m) ∧
    (∀ k b : Int, 0 ≤ b → b < 16 → (16 * k + b) >>> (4 : Nat) = k) ∧
    (-1 : Int) >>> (4 : Nat) = -1 := by
  refine ⟨?_, ?_, ?_, ?_, ?_, by decide⟩
  · intro h; simp [pinport, h, pure_run]
  · intro h; simp [pinport, h, pure_run]
  · intro h; simp [pinport, h, pure_run]
  · intro h0 h1 h2
    have hp := pinport_halts pin m h0 h1 h2
    refine ⟨hp, ?_, ?_⟩
    · unfold pin_set
      split <;> simp [bind_run, Exec.bind, hp]
    · unfold setup_pin
      simp [bind_run, Exec.bind, hp]
  · intro k b hb0 hb1
    have h := Int.shiftRight_eq_div_pow (16 * k + b) 4
    rw [h]
    norm_num
    omega

/-- Witness of C8: pin `0x1C` has port index 1 and resolves to `GPIOB`; pin
`-1` has port index `-1` and halts in all three functions. -/
theorem pinport_resolves_witness :
    ((0x1C : Int) >>> (4 : Nat) = 1 ∧ pinport 0x1C Machine.init = .ok .GPIOB Machine.init) ∧
    ((-1 : Int) >>> (4 : Nat) ≠ 0 ∧ (-1 : Int) >>> (4 : Nat) ≠ 1 ∧ (-1 : Int) >>> (4 : Nat) ≠ 2 ∧
      pinport (-1) Machine.init = .halt Machine.init ∧
      pin_set (-1) 1 Machine.init = .halt Machine.init ∧
      setup_pin (-1) 2 Machine.init = .halt Machine.init) :=
  ⟨⟨by decide, (pinport_resolves 0x1C 1 2 Machine.init).2.1 (by decide)⟩,
    ⟨by decide, by decide, by decide,
      (pinport_resolves (-1) 1 2 Machine.init).2.2.2.1 (by decide) (by decide) (by decide)⟩⟩

/-- C9: `screen_init` returns from every machine and emits the same events,
`bringUpEvents`, whatever `cmdBuf` and `palXOR` hold at entry; run twice in a
row, the second run emits what the first did. -/
theorem screen_init_twice (m : Machine) :
    ∃ m1 m2, screen_init m = .ok () m1 ∧ screen_init m1 = .ok () m2 ∧
      m1.trace = m.trace ++ bringUpEvents ∧ m2.trace = m1.trace ++ bringUpEvents ∧
      (∀ (buf : Nat → Nat) (pal : Nat), ∃ m3,
        screen_init { m with cmdBuf := buf, palXOR := pal } = .ok () m3 ∧
        m3.trace = m1.trace) := by
  obtain ⟨_, m1, h1, t1⟩ := emits_screen_init m
  obtain ⟨_, m2, h2, t2⟩ := emits_screen_init m1
  refine ⟨m1, m2, h1, h2, t1, t2, ?_⟩
  intro buf pal
  obtain ⟨_, m3, h3, t3⟩ := emits_screen_init { m with cmdBuf := buf, palXOR := pal }
  exact ⟨m3, h3, by rw [t3, t1]⟩

/-- C10, as the code has it: both windowing commands are five bytes
`[opcode, 0, start mod 256, 0, (start + extent - 1) mod 256]`, the row command
`0x2B` with `x` and `w`, the column command `0x2A` with `y` and `h`; the end
byte is the inclusive end `start + extent - 1` whenever that end lies between
0 and 255. -/
theorem setAddrWindow_bytes (x y w h : Int) (m : Machine) :
    (∃ m1 es, setAddrWindow x y w h m = .ok () m1 ∧ m1.trace = m.trace ++ es ∧
      es = frame 0x2A [0, (y % 256).toNat, 0, ((y + h - 1) % 256).toNat]
            ++ frame 0x2B [0, (x % 256).toNat, 0, ((x + w - 1) % 256).toNat] ∧
      spiBytes es = [0x2A, 0, (y % 256).toNat, 0, ((y + h - 1) % 256).toNat]
            ++ [0x2B, 0, (x % 256).toNat, 0, ((x + w - 1) % 256).toNat]) ∧
    (0 ≤ x + w - 1 → x + w - 1 ≤ 255 → (((x + w - 1) % 256).toNat : Int) = x + w - 1) ∧
    (0 ≤ y + h - 1 → y + h - 1 ≤ 255 → (((y + h - 1) % 256).toNat : Int) = y + h - 1) := by
  obtain ⟨m1, hrun, htr, _, _⟩ := setAddrWindow_run x y w h m
  refine ⟨⟨m1, _, hrun, by rw [htr, List.append_assoc]; rfl, rfl, ?_⟩, ?_, ?_⟩
  · simp [spiBytes_append, spiBytes_frame, ST7735_CASET, ST7735_RASET, toU8]
  · intro h0 h1; omega
  · intro h0 h1; omega

/-- Witness of C10: the window `(10, 20, 160, 128)` has its ends, 169 and 147,
between 0 and 255, and these are the end bytes sent. -/
theorem setAddrWindow_bytes_witness :
    ((0 : Int) ≤ 10 + 160 - 1 ∧ (10 : Int) + 160 - 1 ≤ 255 ∧
      ((((10 : Int) + 160 - 1) % 256).toNat : Int) = 10 + 160 - 1) ∧
    ((0 : Int) ≤ 20 + 128 - 1 ∧ (20 : Int) + 128 - 1 ≤ 255 ∧
      ((((20 : Int) + 128 - 1) % 256).toNat : Int) = 20 + 128 - 1) :=
  ⟨⟨by decide, by decide,
      (setAddrWindow_bytes 10 20 160 128 Machine.init).2.1 (by decide) (by decide)⟩,
    ⟨by decide, by decide,
      (setAddrWindow_bytes 10 20 160 128 Machine.init).2.2 (by decide) (by decide)⟩⟩

/-- C10 fails as stated: for `x = 0`, `w = 0` the start is not negative and
the inclusive end `0 + 0 - 1 = -1` is at most 255, yet the end byte sent is
255, not the inclusive end. -/
theorem setAddrWindow_end_counterexample :
    (0 : Int) ≤ 0 ∧ (0 : Int) + 0 - 1 ≤ 255 ∧
    (setAddrWindow 0 0 0 0 Machine.init).machine.trace
        = frame 0x2A [0, 0, 0, 255] ++ frame 0x2B [0, 0, 0, 255] ∧
    ((255 : Nat) : Int) ≠ 0 + 0 - 1 := by
  obtain ⟨m1, hrun, htr, _⟩ := setAddrWindow_run 0 0 0 0 Machine.init
  rw [hrun]
  simp only [Result.machine, htr, Machine.init, List.nil_append]
  exact ⟨by decide, by decide, rfl, by decide⟩

/-- C11, as the code has it: `screen_init` returns, and its events are, in
this order and each once: the four clock enables; the configuration of the
seven pins; the bus initialisation; chip-select high and then data/command
high; the 10 ms pre-delay; the init sequence; the reset pulse (low, 20 ms,
high, 20 ms); backlight high; the log call; `MADCTL` then `FRMCTR1`; the two
window commands; the pattern fill.  The command bytes of the run are those of
the init sequence, then `0x36`, `0xB1`, `0x2A`, `0x2B` and last `0x2C`: no
init command comes after the reset pulse and every pixel byte comes after the
window commands. -/
theorem screen_init_phases (m : Machine) :
    ∃ m1 es, screen_init m = .ok () m1 ∧ m1.trace = m.trace ++ es ∧
      es = clockEvents ++ pinSetupEvents ++ [.spi_init_master] ++ [csHigh, dcHigh]
            ++ [.delay 10] ++ initSeqEvents
            ++ [.gpio_clear .GPIOC 0x10, .delay 20, .gpio_set .GPIOC 0x10, .delay 20]
            ++ [.gpio_set .GPIOA 0x10] ++ [.dmesg 0x603 0x80 22]
            ++ (frame 0x36 [0x80] ++ frame 0xB1 [0x00, 0x06, 0x03])
            ++ (frame 0x2A [0, 0, 0, 127] ++ frame 0x2B [0, 0, 0, 159])
            ++ (frame 0x2C [] ++ [dcHigh, csLow] ++ pixelEvents 160 128 ++ [csHigh]) ∧
      (∀ l : Lines, commandBytes l es
        = [0x01, 0x11, 0x20, 0x3A, 0xE0, 0xE1, 0x13, 0x29] ++ [0x36, 0xB1, 0x2A, 0x2B]
          ++ [0x2C]) ∧
      (∀ l : Lines, commandBytes l
          (clockEvents ++ pinSetupEvents ++ [.spi_init_master] ++ [csHigh, dcHigh]
            ++ [.delay 10] ++ initSeqEvents
            ++ [.gpio_clear .GPIOC 0x10, .delay 20, .gpio_set .GPIOC 0x10, .delay 20])
        = [0x01, 0x11, 0x20, 0x3A, 0xE0, 0xE1, 0x13, 0x29]) ∧
      pixelEvents 160 128
        = ((List.range (160 * (2 * 128))).map (pixelByte 128)).map Event.spi_send := by
  obtain ⟨_, m1, hrun, htr⟩ := emits_screen_init m
  refine ⟨m1, bringUpEvents, hrun, htr, rfl, ?_, ?_, pixelEvents_eq_sends 160 128⟩
  · intro l
    rw [bringUpEvents_split, commandBytes_append, commandBytes_head, commandBytes_fill]
    rfl
  · intro l
    rcases l with ⟨_ | _, _ | _⟩ <;> decide

/-- C11 fails as stated: the events of `screen_init` are not the listed
phases one after the other; after the chip-select-high write comes the write
that drives data/command high, where the list has the pre-delay. -/
theorem screen_init_phases_counterexample :
    (screen_init Machine.init).machine.trace ≠ listedBringUpEvents ∧
    (screen_init Machine.init).machine.trace[22]? = some dcHigh ∧
    listedBringUpEvents[22]? = some (.delay 10) := by
  obtain ⟨_, m1, hrun, htr⟩ := emits_screen_init Machine.init
  rw [hrun]
  simp only [Result.machine, htr, Machine.init, List.nil_append]
  have h1 : bringUpEvents[22]? = some dcHigh := bringUpEvents_at_22
  have h2 : listedBringUpEvents[22]? = some (.delay 10) := listedBringUpEvents_at_22
  refine ⟨?_, h1, h2⟩
  intro h
  rw [h, h2] at h1
  exact absurd h1 (by decide)

/-- C12: for a pin whose port is known, `pin_set` returns after exactly one
event: `gpio_set` when `v` is not zero, `gpio_clear` when it is, on port
`pinport(pin)` with mask `pinmask(pin)`; the mask is `2 ^ (pin mod 16)`, has
the single bit `pin mod 16` set and is below `2 ^ 16`.  Nothing else in the
machine changes. -/
theorem pin_set_single_write (pin v : Int) (port : Port) (m : Machine)
    (hp : pinport pin m = .ok port m) :
    pin_set pin v m = .ok ()
      { m with trace := m.trace
          ++ [if v ≠ 0 then Event.gpio_set port (pinmask pin)
              else Event.gpio_clear port (pinmask pin)] } ∧
    pinmask pin = 2 ^ (pin % 16).toNat ∧
    (∀ k : Nat, (pinmask pin).testBit k = decide ((pin % 16).toNat = k)) ∧
    pinmask pin < 65536 := by
  refine ⟨pin_set_run pin v port m hp, pinmask_eq pin, ?_, ?_⟩
  · intro k; rw [pinmask_eq, Nat.testBit_two_pow]
  · unfold pinmask; exact Nat.mod_lt _ (by decide)

/-- Witness of C12: driving `PB_12` (pin `0x1C`) high is one `gpio_set` on
port B with mask `2 ^ 12`. -/
theorem pin_set_single_write_witness :
    pinport 0x1C Machine.init = .ok .GPIOB Machine.init ∧
    (pin_set 0x1C 1 Machine.init = .ok ()
      { Machine.init with trace := Machine.init.trace
          ++ [if (1 : Int) ≠ 0 then Event.gpio_set .GPIOB (pinmask 0x1C)
              else Event.gpio_clear .GPIOB (pinmask 0x1C)] } ∧
    pinmask 0x1C = 2 ^ ((0x1C : Int) % 16).toNat ∧
    (∀ k : Nat, (pinmask 0x1C).testBit k = decide (((0x1C : Int) % 16).toNat = k)) ∧
    pinmask 0x1C < 65536) :=
  ⟨rfl, pin_set_single_write 0x1C 1 .GPIOB Machine.init rfl⟩

/-- C13, as the code has it: for a command of `len` bytes, `len ≥ 1` (and
within the range of the `int` it is passed as), `sendCmd` first drives
data/command low, then asserts chip-select, then sends the opcode, drives
data/command high, sends the `len - 1` arguments and deasserts chip-select;
the data/command-low write comes before the chip-select assert. -/
theorem sendCmd_step_order (buf : BufPtr) (len : Nat) (m : Machine)
    (h1 : 1 ≤ len) (hint : len ≤ 2147483647) (hsz : (buf.bytes m len).length = len) :
    ∃ m1 es, sendCmd buf (len : Int) m = .ok () m1 ∧ m1.trace = m.trace ++ es ∧
      es = dcLow :: csLow :: .spi_send ((buf.bytes m len).headD 0) :: dcHigh
            :: ((buf.bytes m len).tail.map Event.spi_send ++ [csHigh]) ∧
      (buf.bytes m len).tail.length = len - 1 ∧
      es.indexOf dcLow = 0 ∧ es.indexOf csLow = 1 := by
  obtain ⟨m1, hrun, htr, _, _⟩ := sendCmd_frame buf len m h1 hint hsz
  refine ⟨m1, _, hrun, htr, rfl, by simp [hsz], ?_, ?_⟩
  · simp [frame]
  · simp [frame, List.indexOf_cons, dcLow, csLow]

/-- Witness of C13: a command of 22 bytes, more than `cmdBuf` holds, in a
local array. -/
theorem sendCmd_step_order_witness :
    1 ≤ 22 ∧ 22 ≤ 2147483647 ∧
    ((BufPtr.stack (0x2C :: List.replicate 21 7)).bytes Machine.init 22).length = 22 ∧
    ∃ m1 es, sendCmd (.stack (0x2C :: List.replicate 21 7)) ((22 : Nat) : Int) Machine.init
        = .ok () m1 ∧
      m1.trace = Machine.init.trace ++ es ∧
      es = dcLow :: csLow
            :: .spi_send (((BufPtr.stack (0x2C :: List.replicate 21 7)).bytes
                  Machine.init 22).headD 0)
            :: dcHigh
            :: (((BufPtr.stack (0x2C :: List.replicate 21 7)).bytes Machine.init 22).tail.map
                  Event.spi_send ++ [csHigh]) ∧
      ((BufPtr.stack (0x2C :: List.replicate 21 7)).bytes Machine.init 22).tail.length
        = 22 - 1 ∧
      es.indexOf dcLow = 0 ∧ es.indexOf csLow = 1 :=
  ⟨by decide, by decide, by decide,
    sendCmd_step_order (.stack (0x2C :: List.replicate 21 7)) 22 Machine.init
      (by decide) (by decide) (by decide)⟩

/-- C13 fails as stated: the first event of `sendCmd` on a five-byte command
is the data/command-low write and the chip-select assert is the second, so
the chip-select assert does not come first. -/
theorem sendCmd_cs_first_counterexample :
    (sendCmd (.stack [0x2A, 0, 20, 0, 147]) 5 Machine.init).machine.trace.take 2
        = [dcLow, csLow] ∧
    ¬ ((sendCmd (.stack [0x2A, 0, 20, 0, 147]) 5 Machine.init).machine.trace.indexOf csLow
        < (sendCmd (.stack [0x2A, 0, 20, 0, 147]) 5 Machine.init).machine.trace.indexOf
            dcLow) := by
  rw [sendCmd_stack_full 0x2A [0, 20, 0, 147] 5 Machine.init (by decide) (by decide)]
  simp only [Result.machine, Machine.init, List.nil_append]
  exact ⟨rfl, by decide⟩

/-- C14: on the table `initCmds`, `sendCmdSeq` returns after eight frames, in
this order: `0x01`, `0x11`, `0x20` without arguments, `0x3A` with one, `0xE0`
and `0xE1` with sixteen each, `0x13`, `0x29` without; 41 bytes go over the
bus; there are four waits, 120 ms after each of the first two frames and
10 ms after each of the last two.  The zero bytes among the length bytes and
the arguments do not stop the run. -/
theorem initCmds_frames (m : Machine) :
    ∃ m1 es, sendCmdSeq initCmds m = .ok () m1 ∧ m1.trace = m.trace ++ es ∧
      es = frame 0x01 [] ++ [.delay 120] ++ frame 0x11 [] ++ [.delay 120] ++ frame 0x20 []
            ++ frame 0x3A [0x05]
            ++ frame 0xE0 [0x02, 0x1c, 0x07, 0x12, 0x37, 0x32, 0x29, 0x2d,
                           0x29, 0x25, 0x2B, 0x39, 0x00, 0x01, 0x03, 0x10]
            ++ frame 0xE1 [0x03, 0x1d, 0x07, 0x06, 0x2E, 0x2C, 0x29, 0x2D,
                           0x2E, 0x2E, 0x37, 0x3F, 0x00, 0x00, 0x02, 0x10]
            ++ frame 0x13 [] ++ [.delay 10] ++ frame 0x29 [] ++ [.delay 10] ∧
      (∀ l : Lines, commandBytes l es = [0x01, 0x11, 0x20, 0x3A, 0xE0, 0xE1, 0x13, 0x29]) ∧
      es.count csLow = 8 ∧ es.count csHigh = 8 ∧
      (spiBytes es).length = 41 ∧
      delaysOf es = [120, 120, 10, 10] := by
  obtain ⟨_, m1, hrun, htr⟩ := emits_initCmds m
  refine ⟨m1, initSeqEvents, hrun, htr, initSeqEvents_eq, commandBytes_initSeq,
    by decide, by decide, by decide, by decide⟩

/-- C15: with `cfg0`, `cfg2` and `frmctr1` as the three configuration words,
the bring-up leaves `palXOR` at `0xffffff` exactly when bit 24 of `cfg0` is
set (at 0 otherwise), sends `MADCTL` with `cfg0 & 0xFF`, the column command
starting at `(cfg0 >> 16) & 0xFF` (offset Y) and the row command starting at
`(cfg0 >> 8) & 0xFF` (offset X).  `screen_init` is the case `cfg0 = 0x80`,
`cfg2 = 22`, `frmctr1 = 0x000603`: it sends `[0x36, 0x80]`,
`[0xB1, 0x00, 0x06, 0x03]`, `[0x2A, 0, 0, 0, 127]` and `[0x2B, 0, 0, 0, 159]`
and leaves `palXOR` at 0. -/
theorem screen_init_config (cfg0 cfg2 frmctr1 : Nat) (m : Machine) :
    (∃ m1, screenInitWith cfg0 cfg2 frmctr1 m = .ok () m1 ∧
      m1.palXOR = (if cfg0.testBit 24 then 0xffffff else 0) ∧
      m1.trace = m.trace ++ bringUpPrelude
        ++ [.dmesg frmctr1 (cfg0 &&& 0xFF) (cfg2 &&& 0xFF)]
        ++ frame 0x36 [cfg0 &&& 0xFF]
        ++ frame 0xB1
            (if frmctr1 &&& 0xFF = 0xFF then
              [(frmctr1 >>> 16) &&& 0xFF, (frmctr1 >>> 8) &&& 0xFF]
             else [(frmctr1 >>> 16) &&& 0xFF, (frmctr1 >>> 8) &&& 0xFF, frmctr1 &&& 0xFF])
        ++ frame 0x2A [0, (cfg0 >>> 16) &&& 0xFF, 0, (((cfg0 >>> 16) &&& 0xFF) + 128 - 1) % 256]
        ++ frame 0x2B [0, (cfg0 >>> 8) &&& 0xFF, 0, (((cfg0 >>> 8) &&& 0xFF) + 160 - 1) % 256]
        ++ fillEvents) ∧
    screen_init = screenInitWith 0x00000080 22 0x000603 ∧
    (∃ m1, screen_init m = .ok () m1 ∧ m1.palXOR = 0 ∧
      m1.trace = m.trace ++ bringUpPrelude ++ [.dmesg 0x603 0x80 22]
        ++ frame 0x36 [0x80] ++ frame 0xB1 [0x00, 0x06, 0x03]
        ++ frame 0x2A [0, 0, 0, 127] ++ frame 0x2B [0, 0, 0, 159] ++ fillEvents) := by
  refine ⟨?_, rfl, ?_⟩
  · obtain ⟨_, m1, hrun, htr, hpal⟩ := runs_screenInitWith cfg0 cfg2 frmctr1 m
    refine ⟨m1, hrun, ?_, ?_⟩
    · rw [hpal]
      by_cases hb : cfg0.testBit 24 = true
      · have := (and_bit24 cfg0).mpr hb
        simp [hb, this]
      · have : ¬ (cfg0 &&& 0x1000000 ≠ 0) := fun h => hb ((and_bit24 cfg0).mp h)
        simp [hb, this]
    · rw [htr, toU8_byte, toU8_byte, toU8_end _ DISPLAY_HEIGHT (by decide),
        toU8_end _ DISPLAY_WIDTH (by decide)]
      simp only [and_255, List.append_assoc, ST7735_MADCTL, ST7735_FRMCTR1, ST7735_CASET,
        ST7735_RASET, DISPLAY_HEIGHT, DISPLAY_WIDTH]
  · obtain ⟨_, m1, hrun, htr, hpal⟩ := runs_screenInitWith DISPLAY_CFG0 DISPLAY_CFG2 DISPLAY_CFG1 m
    refine ⟨m1, hrun, ?_, ?_⟩
    · rw [hpal]
      show (if DISPLAY_CFG0 &&& 0x1000000 ≠ 0 then 0xffffff else 0x000000) = 0
      decide
    · have hdm : Event.dmesg DISPLAY_CFG1 (DISPLAY_CFG0 &&& 0xff) (DISPLAY_CFG2 &&& 0xff)
          = .dmesg 0x603 0x80 22 := by decide
      have hcfg : frame ST7735_MADCTL [DISPLAY_CFG0 &&& 0xff]
          ++ frame ST7735_FRMCTR1
            (if DISPLAY_CFG1 % 256 = 0xff then
              [DISPLAY_CFG1 >>> 16 % 256, DISPLAY_CFG1 >>> 8 % 256]
            else [DISPLAY_CFG1 >>> 16 % 256, DISPLAY_CFG1 >>> 8 % 256, DISPLAY_CFG1 % 256])
          = frame 0x36 [0x80] ++ frame 0xB1 [0x00, 0x06, 0x03] := by decide
      have hwin : frame ST7735_CASET
            [0, toU8 ((DISPLAY_CFG0 >>> 16 &&& 0xff : Nat) : Int), 0,
              toU8 (((DISPLAY_CFG0 >>> 16 &&& 0xff : Nat) : Int) + (DISPLAY_HEIGHT : Int) - 1)]
          ++ frame ST7735_RASET
            [0, toU8 ((DISPLAY_CFG0 >>> 8 &&& 0xff : Nat) : Int), 0,
              toU8 (((DISPLAY_CFG0 >>> 8 &&& 0xff : Nat) : Int) + (DISPLAY_WIDTH : Int) - 1)]
          = frame 0x2A [0, 0, 0, 127] ++ frame 0x2B [0, 0, 0, 159] := by decide
      rw [htr, hdm, hcfg, hwin]
      simp only [List.append_assoc]

/-- C16, the code at the table `initCmds`: the run starts with the
software-reset frame, a wait of 120 ms, the sleep-out frame and again a wait
of 120 ms; the waits of the whole run are 120, 120, 10 and 10 ms, so neither
150 ms nor 500 ms occurs. -/
theorem initCmds_waits_evaluated :
    (sendCmdSeq initCmds Machine.init).machine.trace.take 12
        = frame 0x01 [] ++ [.delay 120] ++ frame 0x11 [] ++ [.delay 120] ∧
    delaysOf (sendCmdSeq initCmds Machine.init).machine.trace = [120, 120, 10, 10] := by
  obtain ⟨_, m1, hrun, htr⟩ := emits_initCmds Machine.init
  rw [hrun]
  simp only [Result.machine, htr, Machine.init, List.nil_append]
  exact ⟨by decide, by decide⟩

/-- C17: for a pin whose port is known and any mode, `setup_pin` returns after
these events, in this order, all on port `pinport(pin)` with mask
`pinmask(pin)`: the mode set-up with no pull-up or pull-down, the mode being
handed over as the `uint8_t` the primitive takes (the mode itself when it is
between 0 and 255); the push-pull (50 MHz) output options, present exactly
when the pin is not the MISO pin; the selection of the SPI alternate
function, present exactly when the mode is the alternate-function mode. -/
theorem setup_pin_writes (pin mode : Int) (port : Port) (m : Machine)
    (hp : pinport pin m = .ok port m) :
    setup_pin pin mode m = .ok ()
      { m with trace := m.trace
          ++ [Event.gpio_mode_setup port (toU8 mode) GPIO_PUPD_NONE (pinmask pin)]
          ++ (if pin ≠ PIN_DISPLAY_MISO then
                [Event.gpio_set_output_options port GPIO_OTYPE_PP GPIO_OSPEED_50MHZ (pinmask pin)]
              else [])
          ++ (if mode = GPIO_MODE_AF then [Event.gpio_set_af port SPI_AF (pinmask pin)]
              else []) } ∧
    (0 ≤ mode → mode ≤ 255 → ((toU8 mode : Nat) : Int) = mode) :=
  ⟨setup_pin_run pin mode port m hp, fun h0 h255 => by unfold toU8; omega⟩

/-- Witness of C17: the clock pin `PB_13` in alternate-function mode gets all
three writes. -/
theorem setup_pin_writes_witness :
    pinport 0x1D Machine.init = .ok .GPIOB Machine.init ∧
    (setup_pin 0x1D 2 Machine.init = .ok ()
      { Machine.init with trace := Machine.init.trace
          ++ [Event.gpio_mode_setup .GPIOB (toU8 2) GPIO_PUPD_NONE (pinmask 0x1D)]
          ++ (if (0x1D : Int) ≠ PIN_DISPLAY_MISO then
                [Event.gpio_set_output_options .GPIOB GPIO_OTYPE_PP GPIO_OSPEED_50MHZ
                  (pinmask 0x1D)]
              else [])
          ++ (if (2 : Int) = GPIO_MODE_AF then [Event.gpio_set_af .GPIOB SPI_AF (pinmask 0x1D)]
              else []) } ∧
    ((0 : Int) ≤ 2 → (2 : Int) ≤ 255 → ((toU8 2 : Nat) : Int) = 2)) :=
  ⟨rfl, setup_pin_writes 0x1D 2 .GPIOB Machine.init rfl⟩

/-- C18: `pastEnd` lists the writes through `cmdBuf` at index 20 or more.
The bring-up returns with that list as it was, so it makes no such write;
so does `sendCmdSeq` on every table of descriptors with at most 19 arguments
each; `initCmds` is such a table, its descriptors having at most 16
arguments; `configure` and `setAddrWindow` return without such a write and
leave `cmdBuf` from index 5 on as it was, and `draw_stripes` from index 1 on.
A descriptor with 20 arguments or more does write behind the buffer: in any
table, a first descriptor whose count `n` is 20 or more makes `sendCmdSeq`
write the indices 20 to `n`, whatever the run does afterwards; and on a table
of descriptors (counts within the seven bits of the length byte) the run
returns having written, for each descriptor with `n ≥ 20` arguments, the
indices 20 to `n`, and nothing behind the buffer for the others. -/
theorem cmdBuf_stays_in_bounds :
    (∀ m : Machine, ∃ m1, screen_init m = .ok () m1 ∧ m1.pastEnd = m.pastEnd) ∧
    (∀ (ds : List Descriptor) (rest : List Nat) (m : Machine),
      (∀ d ∈ ds, d.opcode ≠ 0 ∧ d.args.length ≤ 19) →
      ∃ m1, sendCmdSeq (encode ds ++ 0 :: rest) m = .ok () m1 ∧ m1.pastEnd = m.pastEnd) ∧
    (initCmds = encode initDescs ++ [0, 0] ∧ ∀ d ∈ initDescs, d.args.length ≤ 16) ∧
    (∀ (madctl t : Nat) (m : Machine), ∃ m1, configure madctl t m = .ok () m1 ∧
      m1.pastEnd = m.pastEnd ∧ ∀ k, 5 ≤ k → m1.cmdBuf k = m.cmdBuf k) ∧
    (∀ (x y w h : Int) (m : Machine), ∃ m1, setAddrWindow x y w h m = .ok () m1 ∧
      m1.pastEnd = m.pastEnd ∧ ∀ k, 5 ≤ k → m1.cmdBuf k = m.cmdBuf k) ∧
    (∀ m : Machine, ∃ m1, draw_stripes m = .ok () m1 ∧
      m1.pastEnd = m.pastEnd ∧ ∀ k, 1 ≤ k → m1.cmdBuf k = m.cmdBuf k) ∧
    (∀ (buf : List Nat) (op v : Nat) (m : Machine),
      buf[0]? = some op → op ≠ 0 → buf[1]? = some v → 20 ≤ v &&& 0x7f →
      2 + (v &&& 0x7f) ≤ buf.length →
      ∃ r, (sendCmdSeq buf m).machine.pastEnd
        = m.pastEnd ++ (List.range ((v &&& 0x7f) - 19)).map (fun k => 20 + k) ++ r) ∧
    (∀ (ds : List Descriptor) (rest : List Nat) (m : Machine),
      (∀ d ∈ ds, d.opcode ≠ 0 ∧ d.args.length ≤ 127) →
      ∃ m1, sendCmdSeq (encode ds ++ 0 :: rest) m = .ok () m1 ∧
        m1.pastEnd = m.pastEnd
          ++ ds.flatMap (fun d => (List.range (d.args.length - 19)).map (fun k => 20 + k))) := by
  have hpast : ∀ n : Nat, pastWrites 1 n = (List.range (n - 19)).map (fun k => 20 + k) := by
    intro n
    have h := pastWrites_eq n 1 (by decide)
    have hn : 1 + n - CMDBUF_SIZE = n - 19 := by simp only [CMDBUF_SIZE]; omega
    rw [h, hn]
    rfl
  have hfuel : ∀ (ds : List Descriptor) (rest : List Nat),
      ds.length < (encode ds ++ 0 :: rest).length + 1 := by
    intro ds rest
    have := length_le_encode ds
    simp only [List.length_append]
    omega
  refine ⟨?_, ?_, ⟨by decide, by decide⟩, configure_cmdBuf, setAddrWindow_cmdBuf,
    draw_stripes_cmdBuf, ?_, ?_⟩
  · intro m
    obtain ⟨_, m1, hrun, hpe⟩ := inBuffer_screen_init m
    exact ⟨m1, hrun, hpe⟩
  · intro ds rest m hok
    obtain ⟨m1, hrun, _, _, hpe⟩ :=
      sendCmdSeqLoop_table (encode ds ++ 0 :: rest) rest ds _ 0 m
        (fun d hd => ⟨(hok d hd).1, by have := (hok d hd).2; omega⟩) (by simp) (hfuel ds rest)
    refine ⟨m1, hrun, ?_⟩
    have hnone : ds.flatMap (fun d => pastWrites 1 d.args.length) = [] := by
      rw [List.flatMap_eq_nil_iff]
      intro d hd
      exact pastWrites_within 1 _ (by have := (hok d hd).2; simp only [CMDBUF_SIZE]; omega)
    rw [hpe, hnone, List.append_nil]
  · intro buf op v m h0 hop h1 _ hin
    obtain ⟨r, hr⟩ := sendCmdSeqLoop_past buf buf.length 0 op v m h0 hop h1 (by omega)
    exact ⟨r, by rw [← hpast]; exact hr⟩
  · intro ds rest m hok
    obtain ⟨m1, hrun, _, _, hpe⟩ :=
      sendCmdSeqLoop_table (encode ds ++ 0 :: rest) rest ds _ 0 m hok (by simp) (hfuel ds rest)
    refine ⟨m1, hrun, ?_⟩
    rw [hpe]
    congr 2
    funext d
    exact hpast _

/-- Witness of C18: a table of two small descriptors runs to its end without
a write behind `cmdBuf`; a table whose first descriptor announces 21
arguments has the indices 20 and 21 written; and so has the table made of a
descriptor with 21 arguments. -/
theorem cmdBuf_stays_in_bounds_witness :
    ((∀ d ∈ [Descriptor.mk 0x3A [5] none, Descriptor.mk 0x01 [] (some 120)],
        d.opcode ≠ 0 ∧ d.args.length ≤ 19) ∧
      ∃ m1, sendCmdSeq
        (encode [Descriptor.mk 0x3A [5] none, Descriptor.mk 0x01 [] (some 120)] ++ 0 :: [7])
        Machine.init = .ok () m1 ∧ m1.pastEnd = Machine.init.pastEnd) ∧
    ((0xE0 :: 21 :: (List.replicate 21 1 ++ [0]))[0]? = some 0xE0 ∧ 0xE0 ≠ 0 ∧
      (0xE0 :: 21 :: (List.replicate 21 1 ++ [0]))[1]? = some 21 ∧ 20 ≤ 21 &&& 0x7f ∧
      2 + (21 &&& 0x7f) ≤ (0xE0 :: 21 :: (List.replicate 21 1 ++ [0])).length ∧
      ∃ r, (sendCmdSeq (0xE0 :: 21 :: (List.replicate 21 1 ++ [0])) Machine.init).machine.pastEnd
        = Machine.init.pastEnd ++ (List.range ((21 &&& 0x7f) - 19)).map (fun k => 20 + k)
          ++ r) ∧
    ((∀ d ∈ [Descriptor.mk 0xE0 (List.replicate 21 1) none],
        d.opcode ≠ 0 ∧ d.args.length ≤ 127) ∧
      ∃ m1, sendCmdSeq (encode [Descriptor.mk 0xE0 (List.replicate 21 1) none] ++ 0 :: [])
          Machine.init = .ok () m1 ∧
        m1.pastEnd = Machine.init.pastEnd
          ++ [Descriptor.mk 0xE0 (List.replicate 21 1) none].flatMap
              (fun d => (List.range (d.args.length - 19)).map (fun k => 20 + k))) :=
  ⟨⟨by decide,
      cmdBuf_stays_in_bounds.2.1
        [Descriptor.mk 0x3A [5] none, Descriptor.mk 0x01 [] (some 120)] [7] Machine.init
        (by decide)⟩,
    ⟨by decide, by decide, by decide, by decide, by decide,
      cmdBuf_stays_in_bounds.2.2.2.2.2.2.1
        (0xE0 :: 21 :: (List.replicate 21 1 ++ [0])) 0xE0 21 Machine.init
        (by decide) (by decide) (by decide) (by decide) (by decide)⟩,
    ⟨by decide,
      cmdBuf_stays_in_bounds.2.2.2.2.2.2.2
        [Descriptor.mk 0xE0 (List.replicate 21 1) none] [] Machine.init (by decide)⟩⟩

/-- C19: the events of `screen_init` are a set-up part without chip-select
write, bus byte or wait, followed by the chip-select-high write and the rest
`t`.  From that write on, the levels written to chip-select alternate
strictly (starting with high), every byte on the bus goes out with
chip-select low, chip-select is high at every wait, and it is high at the
end. -/
theorem screen_init_cs_discipline (m : Machine) :
    ∃ m1 t, screen_init m = .ok () m1 ∧
      m1.trace = m.trace ++ setupEvents ++ csHigh :: t ∧
      (csWrites setupEvents = [] ∧ spiBytes setupEvents = [] ∧ delaysOf setupEvents = []) ∧
      (csWrites (csHigh :: t)).head? = some true ∧
      List.Chain' (fun a b => a ≠ b) (csWrites (csHigh :: t)) ∧
      (∀ l : Lines, ∀ s ∈ sentBytes l (csHigh :: t), s.cs = false) ∧
      (∀ l : Lines, ∀ c ∈ csAtDelays l (csHigh :: t), c = true) ∧
      (∀ l : Lines, (l.run (csHigh :: t)).cs = true) := by
  obtain ⟨_, m1, hrun, htr⟩ := emits_screen_init m
  obtain ⟨t, ht⟩ : ∃ t, lineHead ++ fillEvents = csHigh :: t :=
    ⟨_, by simp only [lineHead, List.append_assoc, List.cons_append, List.nil_append]; rfl⟩
  refine ⟨m1, t, hrun, ?_, setupEvents_quiet, ?_, ?_, ?_, ?_, ?_⟩
  · rw [htr, bringUpEvents_lines, ht, List.append_assoc]
  · rw [← ht, csWrites_append, csWrites_lineHead]; rfl
  · rw [← ht, csWrites_append, csWrites_lineHead, csWrites_fill]
    simp [List.replicate]
  · intro l s hs
    rw [← ht, sentBytes_append] at hs
    rcases List.mem_append.mp hs with h | h
    · exact sentBytes_lineHead l s h
    · exact sentBytes_fill _ s h
  · intro l c hc
    rw [← ht, csAtDelays_append, csAtDelays_fill, List.append_nil] at hc
    exact csAtDelays_lineHead l c hc
  · intro l
    rw [← ht, Lines.run_append, run_fill]

/-- C20: on a table that encodes descriptors with non-zero opcodes (argument
counts within the seven bits of the length byte) followed by a zero opcode,
`sendCmdSeq` returns; the indices it has read are those of the descriptors,
one after the other, then that of the zero opcode; each of them is at most
the index of that zero opcode; and the run does not depend on its budget of
rounds (a larger budget gives the same run).  For `initCmds`, 55 bytes with
the terminating zero at index 53, the run returns having read every index
from 0 to 53 and not index 54. -/
theorem sendCmdSeq_reads_bounded (ds : List Descriptor) (rest : List Nat) (m : Machine)
    (hok : ∀ d ∈ ds, d.opcode ≠ 0 ∧ d.args.length ≤ 127) :
    (∃ m1, sendCmdSeq (encode ds ++ 0 :: rest) m = .ok () m1 ∧
      m1.reads = m.reads ++ tableReads 0 ds) ∧
    (∀ i ∈ tableReads 0 ds, i ≤ (encode ds).length) ∧
    (encode ds ++ 0 :: rest)[(encode ds).length]? = some 0 ∧
    (∀ k : Nat, sendCmdSeqLoop (encode ds ++ 0 :: rest)
        ((encode ds ++ 0 :: rest).length + 1 + k) 0 m
      = sendCmdSeq (encode ds ++ 0 :: rest) m) ∧
    (initCmds.length = 55 ∧ initCmds = encode initDescs ++ 0 :: [0] ∧
      (encode initDescs).length = 53 ∧
      ∃ m1, sendCmdSeq initCmds m = .ok () m1 ∧
        m1.reads = m.reads ++ tableReads 0 initDescs ∧
        (∀ i ∈ tableReads 0 initDescs, i ≤ 53) ∧ 54 ∉ tableReads 0 initDescs ∧
        (∀ i < 54, i ∈ tableReads 0 initDescs)) := by
  have hfuel : ds.length < (encode ds ++ 0 :: rest).length + 1 := by
    have := length_le_encode ds
    simp only [List.length_append]
    omega
  obtain ⟨m1, hrun, _, hrd, _⟩ :=
    sendCmdSeqLoop_table (encode ds ++ 0 :: rest) rest ds _ 0 m hok (by simp) hfuel
  refine ⟨⟨m1, hrun, hrd⟩, ?_, ?_, fun k => sendCmdSeq_fuel_free _ k m, ?_⟩
  · intro i hi
    have := (tableReads_le ds 0 i hi).2
    omega
  · rw [List.getElem?_append_right (Nat.le_refl _)]
    simp
  · refine ⟨by decide, by decide, by decide, ?_⟩
    obtain ⟨m2, hrun2, _, hrd2, _⟩ :=
      sendCmdSeqLoop_table initCmds [0] initDescs (initCmds.length + 1) 0 m
        (by decide) (by rw [initCmds_eq]; simp) (by decide)
    exact ⟨m2, hrun2, hrd2, by decide, by decide, by decide⟩

/-- Witness of C20: a table of two descriptors, the first with 21 arguments,
followed by a stray byte. -/
theorem sendCmdSeq_reads_bounded_witness :
    (∀ d ∈ [Descriptor.mk 0xE0 (List.replicate 21 1) none, Descriptor.mk 0x01 [] (some 120)],
      d.opcode ≠ 0 ∧ d.args.length ≤ 127) ∧
    (∃ m1, sendCmdSeq
        (encode [Descriptor.mk 0xE0 (List.replicate 21 1) none,
          Descriptor.mk 0x01 [] (some 120)] ++ 0 :: [7]) Machine.init = .ok () m1 ∧
      m1.reads = Machine.init.reads
        ++ tableReads 0 [Descriptor.mk 0xE0 (List.replicate 21 1) none,
            Descriptor.mk 0x01 [] (some 120)]) ∧
    (∀ i ∈ tableReads 0 [Descriptor.mk 0xE0 (List.replicate 21 1) none,
        Descriptor.mk 0x01 [] (some 120)],
      i ≤ (encode [Descriptor.mk 0xE0 (List.replicate 21 1) none,
        Descriptor.mk 0x01 [] (some 120)]).length) :=
  ⟨by decide,
    (sendCmdSeq_reads_bounded
      [Descriptor.mk 0xE0 (List.replicate 21 1) none, Descriptor.mk 0x01 [] (some 120)]
      [7] Machine.init (by decide)).1,
    (sendCmdSeq_reads_bounded
      [Descriptor.mk 0xE0 (List.replicate 21 1) none, Descriptor.mk 0x01 [] (some 120)]
      [7] Machine.init (by decide)).2.1⟩

end Screen
